import Mathlib

/-!
# A verification model of the gopy toolchain

This file embeds the core of the gopy repository (an indentation-aware
lexer, a bytecode compiler and a stack virtual machine for a small
Python-2-flavored language, written in Go) as executable Lean
definitions, and proves properties of the embedding.

Modelling conventions:
* Go machine integers (`int`) are modelled as `Int` (no overflow is
  exercised by any statement below).
* Go `float64` values are modelled as exact rationals (`Rat`).  IEEE-754
  rounding, infinities and NaN are outside the model; no theorem below
  depends on inexact float arithmetic or float rendering.
* Go strings are modelled as Lean `String` (sequences of characters;
  byte-level indexing of the Go code coincides with character indexing
  on the ASCII inputs used in the theorems).
* Go maps that are only read and written pointwise (never iterated) are
  modelled as association lists.
* Pointer aliasing of mutable lists/dicts is outside the model: values
  are trees.  No theorem below exercises in-place container mutation.
-/

namespace GoPy

/-! ## Definitions -/

/-- Character constants, named to keep literals out of the source. -/
def nulChar : Char := Char.ofNat 0

def quoteChar : Char := Char.ofNat 34

def apostChar : Char := Char.ofNat 39

def backslashChar : Char := Char.ofNat 92

def lbraceChar : Char := Char.ofNat 123

def rbraceChar : Char := Char.ofNat 125

/-- The opcode enumeration of `pkg/compiler` (`OpCode`), in `iota` order. -/
inductive OpCode where
  | loadConst
  | loadName
  | storeName
  | loadGlobal
  | storeGlobal
  | loadFast
  | storeFast
  | binaryAdd
  | binarySub
  | binaryMul
  | binaryDiv
  | binaryMod
  | unaryPos
  | unaryNeg
  | unaryNot
  | compareEq
  | compareNe
  | compareLt
  | compareLe
  | compareGt
  | compareGe
  | compareIn
  | jumpForward
  | jumpIfFalse
  | jumpIfTrue
  | jumpAbsolute
  | popJumpIfFalse
  | popJumpIfTrue
  | buildList
  | buildDict
  | buildTuple
  | binarySubscr
  | storeSubscr
  | callFunction
  | returnValue
  | printExpr
  | printNewline
  | popTop
  | rotTwo
  | rotThree
  | dupTop
  | setupLoop
  | breakLoop
  | continueLoop
  | getIter
  | forIter
  | nop
  deriving DecidableEq, Repr

/-- The numeric (`iota`) value of an opcode, as used by `%d` formatting
and by the byte-level serializer. -/
def opCodeNum : OpCode → Nat
  | .loadConst => 0
  | .loadName => 1
  | .storeName => 2
  | .loadGlobal => 3
  | .storeGlobal => 4
  | .loadFast => 5
  | .storeFast => 6
  | .binaryAdd => 7
  | .binarySub => 8
  | .binaryMul => 9
  | .binaryDiv => 10
  | .binaryMod => 11
  | .unaryPos => 12
  | .unaryNeg => 13
  | .unaryNot => 14
  | .compareEq => 15
  | .compareNe => 16
  | .compareLt => 17
  | .compareLe => 18
  | .compareGt => 19
  | .compareGe => 20
  | .compareIn => 21
  | .jumpForward => 22
  | .jumpIfFalse => 23
  | .jumpIfTrue => 24
  | .jumpAbsolute => 25
  | .popJumpIfFalse => 26
  | .popJumpIfTrue => 27
  | .buildList => 28
  | .buildDict => 29
  | .buildTuple => 30
  | .binarySubscr => 31
  | .storeSubscr => 32
  | .callFunction => 33
  | .returnValue => 34
  | .printExpr => 35
  | .printNewline => 36
  | .popTop => 37
  | .rotTwo => 38
  | .rotThree => 39
  | .dupTop => 40
  | .setupLoop => 41
  | .breakLoop => 42
  | .continueLoop => 43
  | .getIter => 44
  | .forIter => 45
  | .nop => 46

/-- An instruction: an opcode together with its integer argument
(`Instruction` in `pkg/compiler`).  The compiler only ever produces
non-negative arguments (pool indices, jump targets, counts), so the
argument is modelled as `Nat`. -/
structure Instr where
  op : OpCode
  arg : Nat
  deriving DecidableEq, Repr

mutual

/-- Runtime values: the tagged-variant set of `pkg/runtime`
(`PyInt`, `PyFloat`, `PyString`, `PyBool`, `PyNone`, `PyList`, `PyDict`)
together with `pkg/compiler`'s `PyFunction` and `PyBuiltin`.
A dict carries its pairs in insertion order with rendered-string keys
(the Go `PyDict` stores a map plus the ordered key list; values built
through `PyDict.Set` keep their keys unique).  A builtin is identified
by its registered name. -/
inductive Value : Type where
  | int : Int → Value
  | float : Rat → Value
  | str : String → Value
  | bool : Bool → Value
  | none : Value
  | list : List Value → Value
  | dict : List (String × Value) → Value
  | func : Code → String → Value
  | builtin : String → Value

/-- A compiled code object (`CodeObject` in `pkg/compiler`):
instructions, constant pool, name table, local-name table
(`Varnames`), argument count, filename, name and first line. -/
inductive Code : Type where
  | mk : List Instr → List Value → List String → List String →
      Nat → String → String → Nat → Code

end

/-- `CodeObject.Instructions` -/
def Code.instructions : Code → List Instr
  | .mk i _ _ _ _ _ _ _ => i

/-- `CodeObject.Consts` -/
def Code.consts : Code → List Value
  | .mk _ c _ _ _ _ _ _ => c

/-- `CodeObject.Names` -/
def Code.names : Code → List String
  | .mk _ _ n _ _ _ _ _ => n

/-- `CodeObject.Varnames` -/
def Code.varnames : Code → List String
  | .mk _ _ _ v _ _ _ _ => v

/-- `CodeObject.Argcount` -/
def Code.argcount : Code → Nat
  | .mk _ _ _ _ a _ _ _ => a

/-- `CodeObject.Filename` -/
def Code.filename : Code → String
  | .mk _ _ _ _ _ f _ _ => f

/-- `CodeObject.Name` -/
def Code.codeName : Code → String
  | .mk _ _ _ _ _ _ n _ => n

/-- `CodeObject.Firstlineno` -/
def Code.firstlineno : Code → Nat
  | .mk _ _ _ _ _ _ _ l => l

/-- Rendering of a float value.  The Go code formats its IEEE-754
doubles with `%g`; floats are modelled as exact rationals here and
rendered via their canonical fraction.  No theorem below depends on the
rendering of a float. -/
def floatRender (q : Rat) : String := toString q

/-- The `Type()` capability: the user-visible type-name string of each
variant. -/
def typeName : Value → String
  | .int _ => "int"
  | .float _ => "float"
  | .str _ => "str"
  | .bool _ => "bool"
  | .none => "NoneType"
  | .list _ => "list"
  | .dict _ => "dict"
  | .func _ _ => "function"
  | .builtin _ => "builtin_function_or_method"

/-- The Go dynamic type tag of a value (`%T`), used by the compiler's
constant-dedup key. -/
def goTypeTag : Value → String
  | .int _ => "*runtime.PyInt"
  | .float _ => "*runtime.PyFloat"
  | .str _ => "*runtime.PyString"
  | .bool _ => "*runtime.PyBool"
  | .none => "*runtime.PyNone"
  | .list _ => "*runtime.PyList"
  | .dict _ => "*runtime.PyDict"
  | .func _ _ => "*compiler.PyFunction"
  | .builtin _ => "*compiler.PyBuiltin"

mutual

/-- The `String()` capability of each variant, exactly as the Go
methods render: ints decimally, bools as `True`/`False`, none as
`None`, strings as their bare contents (`%s`, no quotes), lists in
`[a, b]` form, dicts in key-order `\x7bk: v\x7d` form, functions as
`<function f>` and builtins as `<built-in function f>`. -/
def render : Value → String
  | .int v => toString v
  | .float q => floatRender q
  | .str s => s
  | .bool b => if b then "True" else "False"
  | .none => "None"
  | .list es => "[" ++ String.intercalate ", " (renderList es) ++ "]"
  | .dict ps => "\x7b" ++ String.intercalate ", " (renderPairs ps) ++ "\x7d"
  | .func _ n => "<function " ++ n ++ ">"
  | .builtin n => "<built-in function " ++ n ++ ">"

/-- Renderings of the elements of a list value, in order. -/
def renderList : List Value → List String
  | [] => []
  | v :: vs => render v :: renderList vs

/-- Renderings `k: v` of the pairs of a dict value, in key order. -/
def renderPairs : List (String × Value) → List String
  | [] => []
  | (k, v) :: ps => (k ++ ": " ++ render v) :: renderPairs ps

end

/-- The `IsTruthy()` capability of each variant. -/
def isTruthy : Value → Bool
  | .int v => v != 0
  | .float q => q != 0
  | .str s => s.length > 0
  | .bool b => b
  | .none => false
  | .list es => es.length > 0
  | .dict ps => ps.length > 0
  | .func _ _ => true
  | .builtin _ => true

/-- Lookup in an association list (first match), as Go map read. -/
def lookupStr (ps : List (String × Value)) (k : String) : Option Value :=
  match ps with
  | [] => Option.none
  | (k', v) :: rest => if k' = k then some v else lookupStr rest k

/-- Pointwise update of an association list: replace the value at an
existing key, otherwise append (Go map write plus `Keys` append in
`PyDict.Set`). -/
def updateStr (ps : List (String × Value)) (k : String) (v : Value) :
    List (String × Value) :=
  match ps with
  | [] => [(k, v)]
  | (k', v') :: rest =>
      if k' = k then (k', v) :: rest else (k', v') :: updateStr rest k v

mutual

/-- Structural equality of values (the pure-model stand-in for Go
pointer equality of code objects in `PyFunction.Equal`). -/
def valueBeq : Value → Value → Bool
  | .int a, .int b => a == b
  | .float a, .float b => a == b
  | .str a, .str b => a == b
  | .bool a, .bool b => a == b
  | .none, .none => true
  | .list xs, .list ys => valueListBeq xs ys
  | .dict ps, .dict qs => valuePairsBeq ps qs
  | .func c n, .func d m => codeBeq c d && n == m
  | .builtin a, .builtin b => a == b
  | _, _ => false

/-- Structural equality of value lists. -/
def valueListBeq : List Value → List Value → Bool
  | [], [] => true
  | x :: xs, y :: ys => valueBeq x y && valueListBeq xs ys
  | _, _ => false

/-- Structural equality of dict pair lists. -/
def valuePairsBeq : List (String × Value) → List (String × Value) → Bool
  | [], [] => true
  | (k, v) :: ps, (k', v') :: qs =>
      k == k' && valueBeq v v' && valuePairsBeq ps qs
  | _, _ => false

/-- Structural equality of code objects. -/
def codeBeq : Code → Code → Bool
  | .mk i₁ c₁ n₁ v₁ a₁ f₁ nm₁ l₁, .mk i₂ c₂ n₂ v₂ a₂ f₂ nm₂ l₂ =>
      i₁ == i₂ && valueListBeq c₁ c₂ && n₁ == n₂ && v₁ == v₂ &&
      a₁ == a₂ && f₁ == f₂ && nm₁ == nm₂ && l₁ == l₂

end

mutual

/-- The `Equal` capability: Go's per-variant `Equal` methods.  Each
variant compares equal only to its own variant (`PyInt.Equal` checks
`other.(*PyInt)` and so on — there is no int/float promotion here).
Lists compare by length and elementwise `Equal`; dicts compare by size
and per-key `Equal`; functions compare by their code object (pointer
equality in Go, structural equality in the pure model); builtins by
name. -/
def pyEqual : Value → Value → Bool
  | .int a, .int b => a == b
  | .float a, .float b => a == b
  | .str a, .str b => a == b
  | .bool a, .bool b => a == b
  | .none, .none => true
  | .list xs, .list ys => xs.length == ys.length && pyEqualList xs ys
  | .dict ps, .dict qs => ps.length == qs.length && pyEqualSub ps qs
  | .func c _, .func d _ => codeBeq c d
  | .builtin a, .builtin b => a == b
  | _, _ => false

/-- Elementwise `Equal` on list contents. -/
def pyEqualList : List Value → List Value → Bool
  | [], [] => true
  | x :: xs, y :: ys => pyEqual x y && pyEqualList xs ys
  | _, _ => false

/-- `PyDict.Equal`'s per-key check: every pair of the left dict has a
matching key with `Equal` value in the right dict. -/
def pyEqualSub : List (String × Value) → List (String × Value) → Bool
  | [], _ => true
  | (k, v) :: ps, qs =>
      (match lookupStr qs k with
       | some w => pyEqual v w
       | Option.none => false) && pyEqualSub ps qs

end

/-! ## VM helper operations (`pkg/vm`) -/
/-- Truncation of a float toward zero, Go's `int(f)` conversion. -/
def ratTrunc (q : Rat) : Int := q.num.tdiv (q.den : Int)

/-- `ToGoInt` of `pkg/runtime`: coerce int/float/bool to an integer,
error otherwise. -/
def toGoIntF : Value → Except String Int
  | .int v => .ok v
  | .float q => .ok (ratTrunc q)
  | .bool b => .ok (if b then 1 else 0)
  | v => .error ("cannot convert " ++ typeName v ++ " to int")

/-- `toGoString` of `pkg/vm`: the bare contents of a string, the
rendering of anything else. -/
def toGoString : Value → String
  | .str s => s
  | v => render v

/-- The error for an unsupported binary-operator/operand combination. -/
def unsupportedOperands (op : String) (l r : Value) : String :=
  "unsupported operand type(s) for " ++ op ++ ": \x27" ++ typeName l ++
    "\x27 and \x27" ++ typeName r ++ "\x27"

/-- `VM.binaryOp`: arithmetic dispatch on the operand variants.
Integer pairs stay integer (`/` truncating, `%` the host's
two-argument modulo); a float operand promotes to float arithmetic;
string `+` string concatenates; division and modulo by zero error;
everything else is an unsupported-operands error. -/
def binaryOpFn (left right : Value) (op : String) : Except String Value :=
  if op = "+" then
    match left, right with
    | .int l, .int r => .ok (.int (l + r))
    | .int l, .float r => .ok (.float ((l : Rat) + r))
    | .float l, .int r => .ok (.float (l + (r : Rat)))
    | .float l, .float r => .ok (.float (l + r))
    | .str l, .str r => .ok (.str (l ++ r))
    | _, _ => .error (unsupportedOperands op left right)
  else if op = "-" then
    match left, right with
    | .int l, .int r => .ok (.int (l - r))
    | .int l, .float r => .ok (.float ((l : Rat) - r))
    | .float l, .int r => .ok (.float (l - (r : Rat)))
    | .float l, .float r => .ok (.float (l - r))
    | _, _ => .error (unsupportedOperands op left right)
  else if op = "*" then
    match left, right with
    | .int l, .int r => .ok (.int (l * r))
    | .int l, .float r => .ok (.float ((l : Rat) * r))
    | .float l, .int r => .ok (.float (l * (r : Rat)))
    | .float l, .float r => .ok (.float (l * r))
    | _, _ => .error (unsupportedOperands op left right)
  else if op = "/" then
    match left, right with
    | .int l, .int r =>
        if r = 0 then .error "division by zero"
        else .ok (.int (l.tdiv r))
    | .int l, .float r =>
        if r = 0 then .error "division by zero"
        else .ok (.float ((l : Rat) / r))
    | .float l, .int r =>
        if r = 0 then .error "division by zero"
        else .ok (.float (l / (r : Rat)))
    | .float l, .float r =>
        if r = 0 then .error "division by zero"
        else .ok (.float (l / r))
    | _, _ => .error (unsupportedOperands op left right)
  else if op = "%" then
    match left, right with
    | .int l, .int r =>
        if r = 0 then .error "integer division or modulo by zero"
        else .ok (.int (l.tmod r))
    | _, _ => .error (unsupportedOperands op left right)
  else .error (unsupportedOperands op left right)

/-- `VM.unaryOp`: unary plus and minus on numerics. -/
def unaryOpFn (operand : Value) (op : String) : Except String Value :=
  if op = "+" then
    match operand with
    | .int v => .ok (.int v)
    | .float q => .ok (.float q)
    | v => .error ("bad operand type for unary +: \x27" ++ typeName v ++ "\x27")
  else if op = "-" then
    match operand with
    | .int v => .ok (.int (-v))
    | .float q => .ok (.float (-q))
    | v => .error ("bad operand type for unary -: \x27" ++ typeName v ++ "\x27")
  else .error ("unknown unary operator: " ++ op)

/-- Dispatch of an ordering operator on two comparable payloads. -/
def cmpDispatch {α : Type} [LT α] [LE α]
    [∀ a b : α, Decidable (a < b)] [∀ a b : α, Decidable (a ≤ b)]
    (l r : α) (op : String) : Option Bool :=
  if op = "<" then some (decide (l < r))
  else if op = "<=" then some (decide (l ≤ r))
  else if op = ">" then some (decide (l > r))
  else if op = ">=" then some (decide (l ≥ r))
  else Option.none

/-- `VM.compareOp`: `<`, `<=`, `>`, `>=` on numeric pairs (with
int→float promotion) and on string pairs; everything else errors. -/
def compareOpFn (left right : Value) (op : String) : Except String Value :=
  let fail : Except String Value :=
    .error ("\x27" ++ op ++ "\x27 not supported between instances of \x27" ++
      typeName left ++ "\x27 and \x27" ++ typeName right ++ "\x27")
  let ofOpt : Option Bool → Except String Value := fun o =>
    match o with
    | some b => .ok (.bool b)
    | Option.none => fail
  match left, right with
  | .int l, .int r => ofOpt (cmpDispatch l r op)
  | .int l, .float r => ofOpt (cmpDispatch (l : Rat) r op)
  | .float l, .int r => ofOpt (cmpDispatch l (r : Rat) op)
  | .float l, .float r => ofOpt (cmpDispatch l r op)
  | .str l, .str r => ofOpt (cmpDispatch l r op)
  | _, _ => fail

/-- Membership of one value in a list under `Equal`. -/
def listHasEqual (v : Value) : List Value → Bool
  | [] => false
  | e :: es => pyEqual v e || listHasEqual v es

/-- Byte-window substring search, Go's loop in `VM.inOp`. -/
def hasSub (needle hay : List Char) : Bool :=
  if needle.length ≤ hay.length then
    if hay.take needle.length = needle then true
    else
      match hay with
      | [] => false
      | _ :: t => hasSub needle t
  else false

/-- `VM.inOp`: list membership by `Equal`, dict membership by rendered
key, string membership by substring containment (only for a string
left operand); everything else errors. -/
def inOpFn (left right : Value) : Except String Value :=
  match right with
  | .list es => .ok (.bool (listHasEqual left es))
  | .dict ps => .ok (.bool (lookupStr ps (render left)).isSome)
  | .str cont =>
      match left with
      | .str s => .ok (.bool (hasSub s.toList cont.toList))
      | _ =>
          .error ("argument of type \x27" ++ typeName right ++
            "\x27 is not iterable")
  | _ =>
      .error ("argument of type \x27" ++ typeName right ++
        "\x27 is not iterable")

/-- `VM.subscript`: list index (coerced integer, no negatives), dict
key (rendered), string index returning a one-character string. -/
def subscriptFn (container index : Value) : Except String Value :=
  match container with
  | .list es => do
      let idx ← toGoIntF index
      if h : 0 ≤ idx ∧ idx.toNat < es.length then
        .ok (es.get ⟨idx.toNat, h.2⟩)
      else .error "list index out of range"
  | .dict ps =>
      match lookupStr ps (render index) with
      | some v => .ok v
      | Option.none => .error ("KeyError: " ++ render index)
  | .str s => do
      let idx ← toGoIntF index
      if h : 0 ≤ idx ∧ idx.toNat < s.toList.length then
        .ok (.str (String.mk [s.toList.get ⟨idx.toNat, h.2⟩]))
      else .error "string index out of range"
  | _ =>
      .error ("\x27" ++ typeName container ++ "\x27 object is not subscriptable")

/-- `VM.storeSubscript`: the error checks of element assignment.  The
in-place write to the shared container is outside the pure value model
(no theorem below exercises it); the checks and the produced container
are modelled. -/
def storeSubscriptFn (container index value : Value) :
    Except String Value :=
  match container with
  | .list es => do
      let idx ← toGoIntF index
      if 0 ≤ idx ∧ idx.toNat < es.length then
        .ok (.list (es.set idx.toNat value))
      else .error "list index out of range"
  | .dict ps => .ok (.dict (updateStr ps (render index) value))
  | _ =>
      .error ("\x27" ++ typeName container ++
        "\x27 object does not support item assignment")

/-- The ascending loop of the `range` builtin:
`for i := start; i < stop; i += step` with positive step. -/
def rangeUp (start stop step : Int) : List Int :=
  if _h : 0 < step ∧ start < stop then
    start :: rangeUp (start + step) stop step
  else []
termination_by (stop - start).toNat
decreasing_by
  omega

/-- The descending loop of the `range` builtin:
`for i := start; i > stop; i += step` with negative step. -/
def rangeDown (start stop step : Int) : List Int :=
  if _h : step < 0 ∧ stop < start then
    start :: rangeDown (start + step) stop step
  else []
termination_by (start - stop).toNat
decreasing_by
  omega

/-- The list of integers produced by `range` from parsed arguments. -/
def rangeElems (start stop step : Int) : List Int :=
  if 0 < step then rangeUp start stop step else rangeDown start stop step

/-- The four builtins registered in `NewVM`: `len`, `range`, `type`,
`str`, with their arity checks and error messages. -/
def callBuiltin (name : String) (args : List Value) :
    Except String Value :=
  if name = "len" then
    match args with
    | [a] =>
        match a with
        | .str s => .ok (.int (s.length : Int))
        | .list es => .ok (.int (es.length : Int))
        | .dict ps => .ok (.int (ps.length : Int))
        | v =>
            .error ("object of type \x27" ++ typeName v ++
              "\x27 has no len()")
    | _ =>
        .error ("len() takes exactly one argument (" ++
          toString args.length ++ " given)")
  else if name = "range" then
    if args.length < 1 ∨ 3 < args.length then
      .error "range() takes 1 to 3 arguments"
    else
      match args with
      | [a] => do
          let stop ← toGoIntF a
          .ok (.list ((rangeElems 0 stop 1).map Value.int))
      | [a, b] => do
          let start ← toGoIntF a
          let stop ← toGoIntF b
          .ok (.list ((rangeElems start stop 1).map Value.int))
      | [a, b, c] => do
          let start ← toGoIntF a
          let stop ← toGoIntF b
          let step ← toGoIntF c
          if step = 0 then .error "range() step argument must not be zero"
          else .ok (.list ((rangeElems start stop step).map Value.int))
      | _ => .error "range() takes 1 to 3 arguments"
  else if name = "type" then
    match args with
    | [a] => .ok (.str (typeName a))
    | _ => .error "type() takes exactly one argument"
  else if name = "str" then
    match args with
    | [a] => .ok (.str (toGoString a))
    | _ => .error "str() takes exactly one argument"
  else .error ("unknown builtin: " ++ name)

/-- Lookup in the VM's builtins table. -/
def builtinsLookup (name : String) : Option Value :=
  if name = "len" ∨ name = "range" ∨ name = "type" ∨ name = "str" then
    some (.builtin name)
  else Option.none

/-! ## The virtual machine (`pkg/vm`) -/
/-- An execution frame (`Frame`): code, instruction pointer, value
stack (top at the head) and local-variable vector.  The Go frame also
carries references to the globals and builtins tables; those are shared
by every frame of a VM and live in `VMState` here. -/
structure Frame where
  code : Code
  ip : Nat
  stack : List Value
  locals : List Value

/-- `NewFrame`: ip 0, empty stack, locals sized to the local-name
table and filled with `none`. -/
def newFrame (code : Code) : Frame :=
  { code := code, ip := 0, stack := [],
    locals := List.replicate code.varnames.length Value.none }

/-- The VM state: the frame stack (top/current frame at the head), the
globals table, and the bytes written to stdout so far. -/
structure VMState where
  frames : List Frame
  globals : List (String × Value)
  output : String

/-- The result of one dispatch round of `VM.Run`'s loop. -/
inductive StepResult where
  | next : VMState → StepResult
  | done : Value → String → StepResult
  | err : String → StepResult

/-- The initial state for running a code object in a fresh VM
(`NewVM` plus the frame pushed at the top of `Run`). -/
def initState (code : Code) : VMState :=
  { frames := [newFrame code], globals := [], output := "" }

/-- Error for a value-stack underflow (a `panic` in the Go code). -/
def underflowErr : String := "stack underflow"

/-- Error standing for a Go runtime panic on an out-of-range slice or
nil dereference; unreachable on compiler-produced code. -/
def panicErr : String := "panic"

/-- Rebuild a state with a replacement current frame. -/
def withFrame (s : VMState) (rest : List Frame) (fr : Frame) : VMState :=
  { s with frames := fr :: rest }

/-- Shared shape of the five `OpBinary*` cases: pop right then left,
apply `VM.binaryOp`, push the result. -/
def binStep (s : VMState) (rest : List Frame) (fr : Frame)
    (op : String) : StepResult :=
  match fr.stack with
  | right :: left :: st =>
      match binaryOpFn left right op with
      | .ok v => .next (withFrame s rest { fr with stack := v :: st })
      | .error e => .err e
  | _ => .err underflowErr

/-- Shared shape of the four ordering `OpCompare*` cases. -/
def cmpStep (s : VMState) (rest : List Frame) (fr : Frame)
    (op : String) : StepResult :=
  match fr.stack with
  | right :: left :: st =>
      match compareOpFn left right op with
      | .ok v => .next (withFrame s rest { fr with stack := v :: st })
      | .error e => .err e
  | _ => .err underflowErr

/-- The `OpBuildDict` loop: `Arg` times pop a value then a key and
`Set` them into the dict being built. -/
def buildDictLoop : Nat → List Value → List (String × Value) →
    Option (List (String × Value) × List Value)
  | 0, st, d => some (d, st)
  | n + 1, v :: k :: st, d => buildDictLoop n st (updateStr d (render k) v)
  | _ + 1, _, _ => Option.none

/-- One dispatch round of `VM.Run`: handle frame exhaustion and
otherwise fetch, increment `ip` and execute one instruction. -/
def step (s : VMState) : StepResult :=
  match s.frames with
  | [] => .done Value.none s.output
  | fr₀ :: rest =>
    if hip : fr₀.ip < fr₀.code.instructions.length then
      let instr := fr₀.code.instructions.get ⟨fr₀.ip, hip⟩
      let fr := { fr₀ with ip := fr₀.ip + 1 }
      match instr.op with
      | .loadConst =>
          match fr.code.consts.get? instr.arg with
          | some v => .next (withFrame s rest { fr with stack := v :: fr.stack })
          | Option.none => .err panicErr
      | .loadName =>
          match fr.code.names.get? instr.arg with
          | some name =>
              (match lookupStr s.globals name with
               | some v => .next (withFrame s rest { fr with stack := v :: fr.stack })
               | Option.none =>
                 match builtinsLookup name with
                 | some v => .next (withFrame s rest { fr with stack := v :: fr.stack })
                 | Option.none =>
                     .err ("name \x27" ++ name ++ "\x27 is not defined"))
          | Option.none => .err panicErr
      | .storeName =>
          match fr.code.names.get? instr.arg with
          | some name =>
              (match fr.stack with
               | v :: st =>
                   .next { frames := { fr with stack := st } :: rest,
                           globals := updateStr s.globals name v,
                           output := s.output }
               | [] => .err underflowErr)
          | Option.none => .err panicErr
      | .loadGlobal =>
          match fr.code.names.get? instr.arg with
          | some name =>
              (match lookupStr s.globals name with
               | some v => .next (withFrame s rest { fr with stack := v :: fr.stack })
               | Option.none =>
                 match builtinsLookup name with
                 | some v => .next (withFrame s rest { fr with stack := v :: fr.stack })
                 | Option.none =>
                     .err ("global name \x27" ++ name ++ "\x27 is not defined"))
          | Option.none => .err panicErr
      | .storeGlobal =>
          match fr.code.names.get? instr.arg with
          | some name =>
              (match fr.stack with
               | v :: st =>
                   .next { frames := { fr with stack := st } :: rest,
                           globals := updateStr s.globals name v,
                           output := s.output }
               | [] => .err underflowErr)
          | Option.none => .err panicErr
      | .loadFast =>
          match fr.locals.get? instr.arg with
          | some v => .next (withFrame s rest { fr with stack := v :: fr.stack })
          | Option.none => .err panicErr
      | .storeFast =>
          match fr.stack with
          | v :: st =>
              if instr.arg < fr.locals.length then
                .next (withFrame s rest
                  { fr with stack := st, locals := fr.locals.set instr.arg v })
              else .err panicErr
          | [] => .err underflowErr
      | .binaryAdd => binStep s rest fr "+"
      | .binarySub => binStep s rest fr "-"
      | .binaryMul => binStep s rest fr "*"
      | .binaryDiv => binStep s rest fr "/"
      | .binaryMod => binStep s rest fr "%"
      | .unaryPos =>
          match fr.stack with
          | v :: st =>
              (match unaryOpFn v "+" with
               | .ok w => .next (withFrame s rest { fr with stack := w :: st })
               | .error e => .err e)
          | [] => .err underflowErr
      | .unaryNeg =>
          match fr.stack with
          | v :: st =>
              (match unaryOpFn v "-" with
               | .ok w => .next (withFrame s rest { fr with stack := w :: st })
               | .error e => .err e)
          | [] => .err underflowErr
      | .unaryNot =>
          match fr.stack with
          | v :: st =>
              .next (withFrame s rest
                { fr with stack := Value.bool (!isTruthy v) :: st })
          | [] => .err underflowErr
      | .compareEq =>
          match fr.stack with
          | right :: left :: st =>
              .next (withFrame s rest
                { fr with stack := Value.bool (pyEqual left right) :: st })
          | _ => .err underflowErr
      | .compareNe =>
          match fr.stack with
          | right :: left :: st =>
              .next (withFrame s rest
                { fr with stack := Value.bool (!pyEqual left right) :: st })
          | _ => .err underflowErr
      | .compareLt => cmpStep s rest fr "<"
      | .compareLe => cmpStep s rest fr "<="
      | .compareGt => cmpStep s rest fr ">"
      | .compareGe => cmpStep s rest fr ">="
      | .compareIn =>
          match fr.stack with
          | right :: left :: st =>
              (match inOpFn left right with
               | .ok v => .next (withFrame s rest { fr with stack := v :: st })
               | .error e => .err e)
          | _ => .err underflowErr
      | .jumpForward =>
          .next (withFrame s rest { fr with ip := fr.ip + instr.arg })
      | .jumpIfFalse =>
          match fr.stack with
          | v :: _ =>
              if !isTruthy v then
                .next (withFrame s rest { fr with ip := instr.arg })
              else .next (withFrame s rest fr)
          | [] => .err panicErr
      | .jumpIfTrue =>
          match fr.stack with
          | v :: _ =>
              if isTruthy v then
                .next (withFrame s rest { fr with ip := instr.arg })
              else .next (withFrame s rest fr)
          | [] => .err panicErr
      | .jumpAbsolute =>
          .next (withFrame s rest { fr with ip := instr.arg })
      | .popJumpIfFalse =>
          match fr.stack with
          | v :: st =>
              if !isTruthy v then
                .next (withFrame s rest { fr with ip := instr.arg, stack := st })
              else .next (withFrame s rest { fr with stack := st })
          | [] => .err underflowErr
      | .popJumpIfTrue =>
          match fr.stack with
          | v :: st =>
              if isTruthy v then
                .next (withFrame s rest { fr with ip := instr.arg, stack := st })
              else .next (withFrame s rest { fr with stack := st })
          | [] => .err underflowErr
      | .buildList =>
          if instr.arg ≤ fr.stack.length then
            .next (withFrame s rest
              { fr with
                stack := Value.list ((fr.stack.take instr.arg).reverse) ::
                  fr.stack.drop instr.arg })
          else .err underflowErr
      | .buildDict =>
          match buildDictLoop instr.arg fr.stack [] with
          | some (d, st) =>
              .next (withFrame s rest { fr with stack := Value.dict d :: st })
          | Option.none => .err underflowErr
      | .binarySubscr =>
          match fr.stack with
          | index :: container :: st =>
              (match subscriptFn container index with
               | .ok v => .next (withFrame s rest { fr with stack := v :: st })
               | .error e => .err e)
          | _ => .err underflowErr
      | .storeSubscr =>
          match fr.stack with
          | index :: container :: value :: st =>
              (match storeSubscriptFn container index value with
               | .ok _ => .next (withFrame s rest { fr with stack := st })
               | .error e => .err e)
          | _ => .err underflowErr
      | .callFunction =>
          if instr.arg ≤ fr.stack.length then
            let args := (fr.stack.take instr.arg).reverse
            (match fr.stack.drop instr.arg with
             | callee :: st =>
                 (match callee with
                  | .builtin bname =>
                      (match callBuiltin bname args with
                       | .ok v =>
                           .next (withFrame s rest { fr with stack := v :: st })
                       | .error e => .err e)
                  | .func fcode _ =>
                      if args.length ≠ fcode.argcount then
                        .err ("function takes " ++ toString fcode.argcount ++
                          " arguments but " ++ toString args.length ++
                          " were given")
                      else
                        let locals := args.take fcode.varnames.length ++
                          List.replicate (fcode.varnames.length - args.length)
                            Value.none
                        .next { s with frames :=
                          { code := fcode, ip := 0, stack := [],
                            locals := locals } ::
                          { fr with stack := st } :: rest }
                  | _ =>
                      .err ("\x27" ++ typeName callee ++
                        "\x27 object is not callable"))
             | [] => .err underflowErr)
          else .err underflowErr
      | .returnValue =>
          match fr.stack with
          | v :: _ =>
              (match rest with
               | caller :: below =>
                   .next { s with frames :=
                     { caller with stack := v :: caller.stack } :: below }
               | [] => .done v s.output)
          | [] => .err underflowErr
      | .printExpr =>
          match fr.stack with
          | v :: st =>
              .next { frames := { fr with stack := st } :: rest,
                      globals := s.globals,
                      output := s.output ++ render v }
          | [] => .err underflowErr
      | .printNewline =>
          .next { frames := fr :: rest, globals := s.globals,
                  output := s.output ++ "\n" }
      | .popTop =>
          match fr.stack with
          | _ :: st => .next (withFrame s rest { fr with stack := st })
          | [] => .err underflowErr
      | .rotTwo =>
          match fr.stack with
          | a :: b :: st =>
              .next (withFrame s rest { fr with stack := b :: a :: st })
          | _ => .err underflowErr
      | .rotThree =>
          match fr.stack with
          | a :: b :: c :: st =>
              .next (withFrame s rest { fr with stack := b :: c :: a :: st })
          | _ => .err underflowErr
      | .dupTop =>
          match fr.stack with
          | v :: st => .next (withFrame s rest { fr with stack := v :: v :: st })
          | [] => .err panicErr
      | .getIter =>
          match fr.stack with
          | v :: st =>
              (match v with
               | .list es =>
                   .next (withFrame s rest
                     { fr with stack := Value.list es :: st })
               | .str cs =>
                   .next (withFrame s rest
                     { fr with stack :=
                       Value.list (cs.toList.map
                         (fun c => Value.str (String.mk [c]))) :: st })
               | _ =>
                   .err ("OpGetIter: \x27" ++ typeName v ++
                     "\x27 object is not iterable"))
          | [] => .err underflowErr
      | .forIter =>
          match fr.stack with
          | iterable :: st =>
              let cursor : Int × List Value :=
                match st with
                | .int k :: st' => (k, st')
                | _ => (0, st)
              (match iterable with
               | .list es =>
                   if cursor.1 < (es.length : Int) then
                     if h : 0 ≤ cursor.1 ∧ cursor.1.toNat < es.length then
                       .next (withFrame s rest
                         { fr with stack :=
                             es.get ⟨cursor.1.toNat, h.2⟩ :: Value.list es ::
                             Value.int (cursor.1 + 1) :: cursor.2 })
                     else .err panicErr
                   else
                     .next (withFrame s rest
                       { fr with ip := instr.arg, stack := cursor.2 })
               | _ =>
                   .err ("OpForIter:\x27" ++ typeName iterable ++
                     "\x27 object is not iterable"))
          | [] => .err underflowErr
      | .nop => .next (withFrame s rest fr)
      | other => .err ("unknown opcode: " ++ toString (opCodeNum other))
    else .next { s with frames := rest }

/-- The fueled iteration of `VM.Run`'s dispatch loop. -/
def runFuel : VMState → Nat → Option (Except String (Value × String))
  | _, 0 => Option.none
  | s, n + 1 =>
      match step s with
      | .done v out => some (.ok (v, out))
      | .err e => some (.error e)
      | .next s' => runFuel s' n

/-- `run(code)` in a fresh VM, with the given fuel bound on dispatch
rounds.  `some` results are final (more fuel cannot change them). -/
def runVM (code : Code) (fuel : Nat) :
    Option (Except String (Value × String)) :=
  runFuel (initState code) fuel

/-! ## The abstract syntax tree (`pkg/ast`) -/
mutual

/-- Expressions (`ast.Expr` implementors).  Source positions are not
carried: the compiler only reads them on `FuncDef` (modelled there). -/
inductive Expr : Type where
  | binOp : Expr → String → Expr → Expr
  | unOp : String → Expr → Expr
  | boolOp : String → List Expr → Expr
  | cmp : Expr → List String → List Expr → Expr
  | call : Expr → List Expr → Expr
  | subscr : Expr → Expr → Expr
  | name : String → Expr
  | numInt : Int → Expr
  | numFloat : Rat → Expr
  | strLit : String → Expr
  | nameConst : Option Bool → Expr
  | listLit : List Expr → Expr
  | dictLit : List Expr → List Expr → Expr

/-- Statements (`ast.Stmt` implementors).  `funcDef` carries the
definition line (`Position.Line`), the only position the compiler
reads. -/
inductive Stmt : Type where
  | assign : Expr → Expr → Stmt
  | augAssign : Expr → String → Expr → Stmt
  | exprStmt : Expr → Stmt
  | printStmt : List Expr → Stmt
  | ifStmt : Expr → List Stmt → List Stmt → Stmt
  | whileStmt : Expr → List Stmt → Stmt
  | forStmt : Expr → Expr → List Stmt → Stmt
  | funcDef : String → List String → List Stmt → Nat → Stmt
  | returnStmt : Option Expr → Stmt
  | passStmt : Stmt

end

/-- The Go dynamic type tag of an expression node (`%T` in compiler
error messages). -/
def exprGoTag : Expr → String
  | .binOp _ _ _ => "*ast.BinaryOp"
  | .unOp _ _ => "*ast.UnaryOp"
  | .boolOp _ _ => "*ast.BoolOp"
  | .cmp _ _ _ => "*ast.Compare"
  | .call _ _ => "*ast.Call"
  | .subscr _ _ => "*ast.Subscript"
  | .name _ => "*ast.Name"
  | .numInt _ => "*ast.Num"
  | .numFloat _ => "*ast.Num"
  | .strLit _ => "*ast.Str"
  | .nameConst _ => "*ast.NameConstant"
  | .listLit _ => "*ast.List"
  | .dictLit _ _ => "*ast.Dict"

/-! ## The compiler (`pkg/compiler`) -/
/-- The compiler state: growing instruction list, the three pools and
the scope depth.  The Go dedup maps (`constMap`, `nameMap`,
`varnameMap`) always hold exactly the keys of the corresponding pools,
so they are recomputed from the pools here.  The loop stack is carried
(reserved for break/continue, never read). -/
structure CompState where
  instructions : List Instr
  consts : List Value
  names : List String
  varnames : List String
  loopStack : List Nat
  scopeDepth : Nat

/-- `NewCompiler()`. -/
def initComp : CompState :=
  { instructions := [], consts := [], names := [], varnames := [],
    loopStack := [], scopeDepth := 0 }

/-- `Compiler.emit`: append one instruction.  The emitted position is
`(c.instructions).length` before the call. -/
def emit (c : CompState) (op : OpCode) (arg : Nat) : CompState :=
  { c with instructions := c.instructions ++ [{ op := op, arg := arg }] }

/-- Replace the argument of the instruction at a position
(`Compiler.changeOperand`). -/
def setArg : List Instr → Nat → Nat → List Instr
  | [], _, _ => []
  | i :: t, 0, arg => { i with arg := arg } :: t
  | i :: t, n + 1, arg => i :: setArg t n arg

/-- `changeOperand` on the compiler state. -/
def changeOperand (c : CompState) (pos arg : Nat) : CompState :=
  { c with instructions := setArg c.instructions pos arg }

/-- The constant-dedup key `%T:%s` of `Compiler.addConstant`. -/
def constKey (v : Value) : String := goTypeTag v ++ ":" ++ render v

/-- `Compiler.addConstant`: reuse the first pool entry with the same
dedup key, else append.  Returns the pool index. -/
def addConstant (c : CompState) (v : Value) : CompState × Nat :=
  match c.consts.findIdx? (fun w => constKey w = constKey v) with
  | some i => (c, i)
  | Option.none => ({ c with consts := c.consts ++ [v] }, c.consts.length)

/-- `Compiler.addName`. -/
def addName (c : CompState) (name : String) : CompState × Nat :=
  match c.names.findIdx? (fun w => w = name) with
  | some i => (c, i)
  | Option.none => ({ c with names := c.names ++ [name] }, c.names.length)

/-- `Compiler.addVarname`. -/
def addVarname (c : CompState) (name : String) : CompState × Nat :=
  match c.varnames.findIdx? (fun w => w = name) with
  | some i => (c, i)
  | Option.none =>
      ({ c with varnames := c.varnames ++ [name] }, c.varnames.length)

/-- The name-store emission shared by assignment, augmented assignment
and `for` targets: `STORE_NAME` at module scope, `STORE_FAST` inside a
function. -/
def emitStoreName (c : CompState) (id : String) : CompState :=
  if c.scopeDepth = 0 then
    let (c, i) := addName c id
    emit c .storeName i
  else
    let (c, i) := addVarname c id
    emit c .storeFast i

/-- Fuel-exhaustion error for the fuel-bounded compiler embedding.
The Go compiler recurses without a bound; the fuel argument below only
makes the recursion structural, and every claim quantifies over (or
supplies) sufficient fuel. -/
def outOfFuel : String := "out of fuel"

mutual

/-- `Compiler.compileExpr`: post-order emission for each expression
form. -/
def compileExprC : Nat → CompState → Expr → Except String CompState
  | 0, _, _ => .error outOfFuel
  | f + 1, c, .binOp l op r => do
      let c ← compileExprC f c l
      let c ← compileExprC f c r
      if op = "+" then .ok (emit c .binaryAdd 0)
      else if op = "-" then .ok (emit c .binarySub 0)
      else if op = "*" then .ok (emit c .binaryMul 0)
      else if op = "/" then .ok (emit c .binaryDiv 0)
      else if op = "%" then .ok (emit c .binaryMod 0)
      else .error ("unsupported binary operator: " ++ op)
  | f + 1, c, .unOp op e => do
      let c ← compileExprC f c e
      if op = "+" then .ok (emit c .unaryPos 0)
      else if op = "-" then .ok (emit c .unaryNeg 0)
      else if op = "not" then .ok (emit c .unaryNot 0)
      else .error ("unsupported unary operator: " ++ op)
  | f + 1, c, .boolOp op values =>
      match values with
      | v₀ :: v₁ :: vrest => do
          let c ← compileExprC f c v₀
          let (c, positions) ← compileBoolRestC f c op (v₁ :: vrest)
          .ok (positions.foldl
            (fun c pos => changeOperand c pos c.instructions.length) c)
      | _ => .error "boolean operation needs at least 2 values"
  | f + 1, c, .cmp left ops rights => do
      let c ← compileExprC f c left
      compileCompareRestC f c ops rights
  | f + 1, c, .call fn args => do
      let c ← compileExprC f c fn
      let c ← compileExprListC f c args
      .ok (emit c .callFunction args.length)
  | f + 1, c, .subscr v slice => do
      let c ← compileExprC f c v
      let c ← compileExprC f c slice
      .ok (emit c .binarySubscr 0)
  | _ + 1, c, .name id =>
      if c.scopeDepth = 0 then
        let (c, i) := addName c id
        .ok (emit c .loadName i)
      else
        match c.varnames.findIdx? (fun w => w = id) with
        | some _ =>
            let (c, i) := addVarname c id
            .ok (emit c .loadFast i)
        | Option.none =>
            let (c, i) := addName c id
            .ok (emit c .loadGlobal i)
  | _ + 1, c, .numInt n =>
      let (c, i) := addConstant c (.int n)
      .ok (emit c .loadConst i)
  | _ + 1, c, .numFloat q =>
      let (c, i) := addConstant c (.float q)
      .ok (emit c .loadConst i)
  | _ + 1, c, .strLit s =>
      let (c, i) := addConstant c (.str s)
      .ok (emit c .loadConst i)
  | _ + 1, c, .nameConst (some b) =>
      let (c, i) := addConstant c (.bool b)
      .ok (emit c .loadConst i)
  | _ + 1, c, .nameConst Option.none =>
      let (c, i) := addConstant c Value.none
      .ok (emit c .loadConst i)
  | f + 1, c, .listLit elts => do
      let c ← compileExprListC f c elts
      .ok (emit c .buildList elts.length)
  | f + 1, c, .dictLit keys values => do
      let c ← compileDictItemsC f c keys values
      .ok (emit c .buildDict keys.length)

/-- Sequential compilation of an expression list. -/
def compileExprListC : Nat → CompState → List Expr →
    Except String CompState
  | 0, _, _ => .error outOfFuel
  | _ + 1, c, [] => .ok c
  | f + 1, c, e :: es => do
      let c ← compileExprC f c e
      compileExprListC f c es

/-- The key/value interleaving of `compileDict` (`keys[i]` then
`values[i]`).  A missing value (impossible for parser output) is the
Go slice-bounds panic. -/
def compileDictItemsC : Nat → CompState → List Expr → List Expr →
    Except String CompState
  | 0, _, _, _ => .error outOfFuel
  | _ + 1, c, [], _ => .ok c
  | f + 1, c, k :: ks, v :: vs => do
      let c ← compileExprC f c k
      let c ← compileExprC f c v
      compileDictItemsC f c ks vs
  | _ + 1, _, _ :: _, [] => .error panicErr

/-- The operator loop of `compileCompare`: for each op, compile the
matching right operand then emit the comparison (left-associative
chain evaluation). -/
def compileCompareRestC : Nat → CompState → List String → List Expr →
    Except String CompState
  | 0, _, _, _ => .error outOfFuel
  | _ + 1, c, [], _ => .ok c
  | f + 1, c, op :: ops, r :: rs => do
      let c ← compileExprC f c r
      let c ←
        if op = "==" then .ok (emit c .compareEq 0)
        else if op = "!=" then .ok (emit c .compareNe 0)
        else if op = "<" then .ok (emit c .compareLt 0)
        else if op = "<=" then .ok (emit c .compareLe 0)
        else if op = ">" then .ok (emit c .compareGt 0)
        else if op = ">=" then .ok (emit c .compareGe 0)
        else if op = "in" then .ok (emit c .compareIn 0)
        else .error ("unsupported comparison operator: " ++ op)
      compileCompareRestC f c ops rs
  | _ + 1, _, _ :: _, [] => .error panicErr

/-- The short-circuit loop of `compileBoolOp` over the second and
later operands: `DUP_TOP`, a conditional pop-jump with a hole
(`POP_JUMP_IF_FALSE` for `and`, `POP_JUMP_IF_TRUE` for `or`),
`POP_TOP`, then the operand.  Returns the hole positions to patch to
the common exit. -/
def compileBoolRestC : Nat → CompState → String → List Expr →
    Except String (CompState × List Nat)
  | 0, _, _, _ => .error outOfFuel
  | _ + 1, c, _, [] => .ok (c, [])
  | f + 1, c, op, v :: vs => do
      let c := emit c .dupTop 0
      let pos := c.instructions.length
      let c :=
        if op = "and" then emit c .popJumpIfFalse 0
        else emit c .popJumpIfTrue 0
      let c := emit c .popTop 0
      let c ← compileExprC f c v
      let (c, positions) ← compileBoolRestC f c op vs
      .ok (c, pos :: positions)

/-- `Compiler.compileStmt`. -/
def compileStmtC : Nat → CompState → Stmt → Except String CompState
  | 0, _, _ => .error outOfFuel
  | f + 1, c, .assign target value => do
      let c ← compileExprC f c value
      match target with
      | .name id => .ok (emitStoreName c id)
      | .subscr tv ts => do
          let c ← compileExprC f c tv
          let c ← compileExprC f c ts
          .ok (emit c .storeSubscr 0)
      | t => .error ("unsupported assignment target: " ++ exprGoTag t)
  | f + 1, c, .augAssign target op value => do
      let c ←
        match target with
        | .name id =>
            if c.scopeDepth = 0 then
              let (c, i) := addName c id
              .ok (emit c .loadName i)
            else
              let (c, i) := addVarname c id
              .ok (emit c .loadFast i)
        | t =>
            .error ("unsupported augmented assignment target: " ++
              exprGoTag t)
      let c ← compileExprC f c value
      let c ←
        if op = "+=" then .ok (emit c .binaryAdd 0)
        else if op = "-=" then .ok (emit c .binarySub 0)
        else
          .error ("unsupported augmented assignment operator: " ++ op)
      match target with
      | .name id => .ok (emitStoreName c id)
      | _ => .ok c
  | f + 1, c, .exprStmt e => do
      let c ← compileExprC f c e
      .ok (emit c .popTop 0)
  | f + 1, c, .printStmt values => do
      let c ← compilePrintValuesC f c values
      .ok (emit c .printNewline 0)
  | f + 1, c, .ifStmt test body orelse => do
      let c ← compileExprC f c test
      let jumpIfFalse := c.instructions.length
      let c := emit c .popJumpIfFalse 0
      let c ← compileStmtListC f c body
      if orelse.isEmpty then
        .ok (changeOperand c jumpIfFalse c.instructions.length)
      else do
        let jumpEnd := c.instructions.length
        let c := emit c .jumpForward 0
        let c := changeOperand c jumpIfFalse c.instructions.length
        let c ← compileStmtListC f c orelse
        .ok (changeOperand c jumpEnd c.instructions.length)
  | f + 1, c, .whileStmt test body => do
      let loopStart := c.instructions.length
      let c := { c with loopStack := c.loopStack ++ [loopStart] }
      let c ← compileExprC f c test
      let jumpIfFalse := c.instructions.length
      let c := emit c .popJumpIfFalse 0
      let c ← compileStmtListC f c body
      let c := emit c .jumpAbsolute loopStart
      let c := changeOperand c jumpIfFalse c.instructions.length
      .ok { c with loopStack := c.loopStack.dropLast }
  | f + 1, c, .forStmt target iter body => do
      let c ← compileExprC f c iter
      let c := emit c .getIter 0
      let loopStart := c.instructions.length
      let c := { c with loopStack := c.loopStack ++ [loopStart] }
      let forIterPos := c.instructions.length
      let c := emit c .forIter 0
      let c ←
        match target with
        | .name id => .ok (emitStoreName c id)
        | t => .error ("unsupported for target: " ++ exprGoTag t)
      let c ← compileStmtListC f c body
      let c := emit c .jumpAbsolute loopStart
      let c := changeOperand c forIterPos c.instructions.length
      .ok { c with loopStack := c.loopStack.dropLast }
  | f + 1, c, .funcDef fname args body line => do
      let code ← compileFuncCodeC f fname args body line (c.scopeDepth + 1)
      let (c, idx) := addConstant c (.func code fname)
      let c := emit c .loadConst idx
      let (c, ni) := addName c fname
      .ok (emit c .storeName ni)
  | f + 1, c, .returnStmt value => do
      let c ←
        match value with
        | some e => compileExprC f c e
        | Option.none =>
            let (c, i) := addConstant c Value.none
            .ok (emit c .loadConst i)
      .ok (emit c .returnValue 0)
  | _ + 1, c, .passStmt => .ok c

/-- The value loop of `compilePrintStmt`: each value is compiled and
`PRINT_EXPR`ed; between successive values a single-space string
constant is loaded and `PRINT_EXPR`ed. -/
def compilePrintValuesC : Nat → CompState → List Expr →
    Except String CompState
  | 0, _, _ => .error outOfFuel
  | _ + 1, c, [] => .ok c
  | f + 1, c, [v] => do
      let c ← compileExprC f c v
      .ok (emit c .printExpr 0)
  | f + 1, c, v :: v' :: vs => do
      let c ← compileExprC f c v
      let c := emit c .printExpr 0
      let (c, i) := addConstant c (.str " ")
      let c := emit c .loadConst i
      let c := emit c .printExpr 0
      compilePrintValuesC f c (v' :: vs)

/-- Sequential compilation of a statement list. -/
def compileStmtListC : Nat → CompState → List Stmt →
    Except String CompState
  | 0, _, _ => .error outOfFuel
  | _ + 1, c, [] => .ok c
  | f + 1, c, st :: rest => do
      let c ← compileStmtC f c st
      compileStmtListC f c rest

/-- `Compiler.compileFuncDef` on a fresh compiler at the given scope
depth: parameters become the first local names, the body is compiled,
and a terminal `LOAD_CONST None; RETURN_VALUE` is appended. -/
def compileFuncCodeC : Nat → String → List String → List Stmt →
    Nat → Nat → Except String Code
  | 0, _, _, _, _, _ => .error outOfFuel
  | f + 1, fname, args, body, line, depth => do
      let c := { initComp with scopeDepth := depth }
      let c := args.foldl (fun c a => (addVarname c a).1) c
      let c ← compileStmtListC f c body
      let (c, i) := addConstant c Value.none
      let c := emit c .loadConst i
      let c := emit c .returnValue 0
      .ok (.mk c.instructions c.consts c.names c.varnames args.length
        "<function>" fname line)

end

/-- The statement loop of `compileModule`, with the special case for a
final expression statement: its value is left on the stack and
`RETURN_VALUE` is emitted.  Returns whether that path fired.  The fuel
is passed unchanged to each statement (the loop itself is structural
on the list). -/
def compileModuleBodyC (f : Nat) : CompState → List Stmt →
    Except String (CompState × Bool)
  | c, [] => .ok (c, false)
  | c, [.exprStmt e] => do
      let c ← compileExprC f c e
      .ok (emit c .returnValue 0, true)
  | c, st :: rest => do
      let c ← compileStmtC f c st
      compileModuleBodyC f c rest

/-- `Compiler.compileModule` on a fresh compiler: compile the body and,
unless the final-expression path already returned, append
`LOAD_CONST None; RETURN_VALUE`. -/
def compileModule (f : Nat) (body : List Stmt) : Except String Code := do
  let (c, returned) ← compileModuleBodyC f initComp body
  let c :=
    if returned then c
    else
      let (c, i) := addConstant c Value.none
      emit (emit c .loadConst i) .returnValue 0
  .ok (.mk c.instructions c.consts c.names c.varnames 0 "<module>"
    "<module>" 1)

/-! ## The lexer (`pkg/lexer`) -/
/-- Token kinds (`TokenType`). -/
inductive TokType where
  | illegal
  | eof
  | ident
  | intTok
  | floatTok
  | stringTok
  | assign
  | plus
  | minus
  | multiply
  | divide
  | modulo
  | plusAssign
  | minusAssign
  | eq
  | notEq
  | lt
  | gt
  | lte
  | gte
  | andK
  | orK
  | notK
  | comma
  | colon
  | semicolon
  | lparen
  | rparen
  | lbracket
  | rbracket
  | lbrace
  | rbrace
  | newline
  | indent
  | dedent
  | ifK
  | elifK
  | elseK
  | whileK
  | forK
  | inK
  | defK
  | returnK
  | printK
  | trueK
  | falseK
  | noneK
  | rangeK
  | passK
  deriving DecidableEq, Repr

/-- A token (`Token`): kind, lexeme and 1-based position. -/
structure Token where
  type : TokType
  lexeme : String
  line : Nat
  col : Nat
  deriving DecidableEq, Repr

/-- `LookupIdent`: the keyword table, falling back to `IDENT`. -/
def lookupIdent (s : String) : TokType :=
  if s = "if" then .ifK
  else if s = "elif" then .elifK
  else if s = "else" then .elseK
  else if s = "while" then .whileK
  else if s = "for" then .forK
  else if s = "in" then .inK
  else if s = "def" then .defK
  else if s = "return" then .returnK
  else if s = "print" then .printK
  else if s = "True" then .trueK
  else if s = "False" then .falseK
  else if s = "None" then .noneK
  else if s = "and" then .andK
  else if s = "or" then .orK
  else if s = "not" then .notK
  else if s = "range" then .rangeK
  else if s = "pass" then .passK
  else .ident

/-- The lexer state (`Lexer`): the remaining source characters (the
Go code keeps the full rune slice and a position; consuming the list
is equivalent), 1-based line and column, the indentation stack with
its top at the head (the Go slice keeps the top at the end), the
line-start flag and the pending-DEDENT counter. -/
structure LexState where
  rem : List Char
  line : Nat
  col : Nat
  indentStack : List Nat
  atLineStart : Bool
  pendingDedents : Nat
  deriving Repr

/-- `NewLexer`. -/
def initLexer (src : String) : LexState :=
  { rem := src.toList, line := 1, col := 1, indentStack := [0],
    atLineStart := true, pendingDedents := 0 }

/-- `readChar` without returning the character: consume one character,
updating line/column and (on a newline) the line-start flag. -/
def consumeOne (st : LexState) : LexState :=
  match st.rem with
  | [] => st
  | c :: t =>
      { st with
          rem := t,
          line := if c = '\n' then st.line + 1 else st.line,
          col := if c = '\n' then 1 else st.col + 1,
          atLineStart := if c = '\n' then true else st.atLineStart }

/-- `readChar` proper: the consumed character (`0` at end of input)
together with the advanced state. -/
def readCharF (st : LexState) : Char × LexState :=
  match st.rem with
  | [] => (nulChar, st)
  | c :: _ => (c, consumeOne st)

/-- The loop of `skipWhitespace`, with a structural fuel bound; every
iteration consumes one character, so any fuel above the remaining
length is enough. -/
def skipWhitespaceGo : Nat → LexState → LexState
  | 0, st => st
  | f + 1, st =>
      match st.rem with
      | c :: _ =>
          if c = ' ' ∨ c = '\t' ∨ c = '\x0d' then
            skipWhitespaceGo f (consumeOne st)
          else st
      | [] => st

/-- `skipWhitespace`: consume spaces, horizontal tabs and carriage
returns. -/
def skipWhitespace (st : LexState) : LexState :=
  skipWhitespaceGo (st.rem.length + 1) st

/-- The loop of `skipComment`, with a structural fuel bound. -/
def skipCommentGo : Nat → LexState → LexState
  | 0, st => st
  | f + 1, st =>
      match st.rem with
      | c :: _ => if c = '\n' then st else skipCommentGo f (consumeOne st)
      | [] => st

/-- `skipComment`: consume up to (not including) the next newline. -/
def skipComment (st : LexState) : LexState :=
  skipCommentGo (st.rem.length + 1) st

/-- The accumulation loop of `readString`, with a structural fuel
bound: consume until the closing quote or end of input, translating
escapes (`\n`, `\t`, `\r` become control characters; every other
escaped character — including the quotes and the backslash — is kept
as itself, dropping the backslash). -/
def readStringGo : Nat → LexState → Char → List Char →
    List Char × LexState
  | 0, st, _, acc => (acc, st)
  | f + 1, st, quote, acc =>
      match st.rem with
      | [] => (acc, st)
      | c :: _ =>
          if c = quote then (acc, st)
          else if c = backslashChar then
            let stepPair := readCharF (consumeOne st)
            let mapped :=
              if stepPair.1 = 'n' then '\n'
              else if stepPair.1 = 't' then '\t'
              else if stepPair.1 = 'r' then '\x0d'
              else stepPair.1
            readStringGo f stepPair.2 quote (acc ++ [mapped])
          else readStringGo f (consumeOne st) quote (acc ++ [c])

/-- `readString`: the loop plus consumption of the closing quote when
present. -/
def readString (st : LexState) (quote : Char) : String × LexState :=
  let loopPair := readStringGo (st.rem.length + 1) st quote []
  match loopPair.2.rem with
  | c :: _ =>
      if c = quote then (String.mk loopPair.1, consumeOne loopPair.2)
      else (String.mk loopPair.1, loopPair.2)
  | [] => (String.mk loopPair.1, loopPair.2)

/-- The loop of `readNumber`, with a structural fuel bound: a run of
digits with at most one decimal point; the presence of the point
selects the FLOAT kind.  (`unicode.IsDigit` is modelled by
`Char.isDigit`; they agree on ASCII.) -/
def readNumberGo : Nat → LexState → List Char → Bool →
    List Char × Bool × LexState
  | 0, st, acc, hasDecimal => (acc, hasDecimal, st)
  | f + 1, st, acc, hasDecimal =>
      match st.rem with
      | [] => (acc, hasDecimal, st)
      | c :: _ =>
          if c.isDigit then
            readNumberGo f (consumeOne st) (acc ++ [c]) hasDecimal
          else if c = '.' ∧ hasDecimal = false then
            readNumberGo f (consumeOne st) (acc ++ [c]) true
          else (acc, hasDecimal, st)

/-- `readNumber` from the unconsumed state. -/
def readNumberLoop (st : LexState) (acc : List Char) (hasDecimal : Bool) :
    List Char × Bool × LexState :=
  readNumberGo (st.rem.length + 1) st acc hasDecimal

/-- The consumption loop of `readIdentifier`, with a structural fuel
bound (`unicode.IsLetter` is modelled by `Char.isAlpha`; they agree on
ASCII). -/
def readIdentGo : Nat → LexState → List Char → List Char × LexState
  | 0, st, acc => (acc, st)
  | f + 1, st, acc =>
      match st.rem with
      | [] => (acc, st)
      | c :: _ =>
          if c.isAlpha ∨ c.isDigit ∨ c = '_' then
            readIdentGo f (consumeOne st) (acc ++ [c])
          else (acc, st)

/-- `readIdentifier`: empty unless the first character is a letter or
underscore. -/
def readIdentifier (st : LexState) : List Char × LexState :=
  match st.rem with
  | c :: _ =>
      if c.isAlpha ∨ c = '_' then readIdentGo (st.rem.length + 1) st []
      else ([], st)
  | [] => ([], st)

/-- The indentation-measuring loop of `handleIndentation`, with a
structural fuel bound (space = 1 column, horizontal tab = 8). -/
def countIndentGo : Nat → LexState → Nat → Nat × LexState
  | 0, st, acc => (acc, st)
  | f + 1, st, acc =>
      match st.rem with
      | [] => (acc, st)
      | c :: _ =>
          if c = ' ' then countIndentGo f (consumeOne st) (acc + 1)
          else if c = '\t' then countIndentGo f (consumeOne st) (acc + 8)
          else (acc, st)

/-- The indentation measure from the unconsumed state. -/
def countIndent (st : LexState) (acc : Nat) : Nat × LexState :=
  countIndentGo (st.rem.length + 1) st acc

/-- The dedent pop loop: pop levels strictly above the new level while
more than one level remains, counting the pops. -/
def popIndents : List Nat → Nat → List Nat × Nat
  | top :: next' :: restS, level =>
      if level < top then
        let inner := popIndents (next' :: restS) level
        (inner.1, inner.2 + 1)
      else (top :: next' :: restS, 0)
  | s, _ => (s, 0)

/-- The comparison step of `handleIndentation` once the new indent
level is measured. -/
def indentCompare (st : LexState) (start indentLevel : Nat) :
    Option Token × LexState :=
  if st.indentStack.headD 0 < indentLevel then
    (some { type := .indent, lexeme := "", line := st.line, col := start },
     { st with indentStack := indentLevel :: st.indentStack })
  else if indentLevel < st.indentStack.headD 0 then
    match popIndents st.indentStack indentLevel with
    | (s', dedentCount) =>
      if s' = [] ∨ s'.headD 0 ≠ indentLevel then
        (some { type := .illegal, lexeme := "indentation error",
                line := st.line, col := start },
         { st with indentStack := s' })
      else
        (some { type := .dedent, lexeme := "", line := st.line, col := start },
         { st with indentStack := s', pendingDedents := dedentCount - 1 })
  else (Option.none, st)

/-- `handleIndentation`: flush pending DEDENTs; at a line start,
measure the indentation, skip blank and comment-only lines, and
compare with the stack top. -/
def handleIndentation (st : LexState) : Option Token × LexState :=
  if st.pendingDedents > 0 then
    (some { type := .dedent, lexeme := "", line := st.line, col := st.col },
     { st with pendingDedents := st.pendingDedents - 1 })
  else if st.atLineStart = false then (Option.none, st)
  else
    let ci := countIndent { st with atLineStart := false } 0
    match ci.2.rem with
    | c :: _ =>
        if c = '\n' ∨ c = '#' then (Option.none, ci.2)
        else indentCompare ci.2 st.col ci.1
    | [] => (Option.none, ci.2)

/-- A two-character-operator probe: if the next character is `=`,
consume it and produce the two-character token, else the
one-character token. -/
def tryEqToken (st : LexState) (t2 : TokType) (lx2 : String)
    (t1 : TokType) (lx1 : String) (line col : Nat) : Token × LexState :=
  match st.rem with
  | c :: _ =>
      if c = '=' then
        ({ type := t2, lexeme := lx2, line := line, col := col },
         consumeOne st)
      else ({ type := t1, lexeme := lx1, line := line, col := col }, st)
  | [] => ({ type := t1, lexeme := lx1, line := line, col := col }, st)

/-- The body of `Lexer.NextToken`, with a structural fuel bound:
indentation handling, whitespace skipping, then the character
dispatch.  End of input closes one open indentation level per call
before the EOF token.  Comments recurse.  The Go code reads a
character and pushes it back before `readNumber` and
`readIdentifier`; here those helpers are simply run from the
unconsumed state.  Exhausted fuel (unreachable from `nextToken`)
yields an ILLEGAL token and leaves the state unchanged. -/
def nextTokenGo : Nat → LexState → Token × LexState
  | 0, st =>
      ({ type := .illegal, lexeme := "out of fuel", line := st.line,
         col := st.col }, st)
  | f + 1, st =>
    match handleIndentation st with
  | (some t, st₁) => (t, st₁)
  | (Option.none, st₁) =>
    match (skipWhitespace st₁).rem with
    | [] =>
        let st₂ := skipWhitespace st₁
        if st₂.indentStack.length > 1 then
          ({ type := .dedent, lexeme := "", line := st₂.line, col := st₂.col },
           { st₂ with indentStack := st₂.indentStack.tail })
        else
          ({ type := .eof, lexeme := "", line := st₂.line, col := st₂.col },
           st₂)
    | c :: _ =>
        let st₂ := skipWhitespace st₁
        let line := st₂.line
        let col := st₂.col
        let st₃ := consumeOne st₂
        if c = nulChar then
          if st₃.indentStack.length > 1 then
            ({ type := .dedent, lexeme := "", line := line, col := col },
             { st₃ with indentStack := st₃.indentStack.tail })
          else
            ({ type := .eof, lexeme := "", line := line, col := col }, st₃)
        else if c = '\n' then
          ({ type := .newline, lexeme := "\n", line := line, col := col }, st₃)
        else if c = '#' then nextTokenGo f (skipComment st₃)
        else if c = '=' then tryEqToken st₃ .eq "==" .assign "=" line col
        else if c = '!' then
          match st₃.rem with
          | d :: _ =>
              if d = '=' then
                ({ type := .notEq, lexeme := "!=", line := line, col := col },
                 consumeOne st₃)
              else
                ({ type := .illegal, lexeme := "!", line := line, col := col },
                 st₃)
          | [] =>
              ({ type := .illegal, lexeme := "!", line := line, col := col },
               st₃)
        else if c = '<' then tryEqToken st₃ .lte "<=" .lt "<" line col
        else if c = '>' then tryEqToken st₃ .gte ">=" .gt ">" line col
        else if c = '+' then tryEqToken st₃ .plusAssign "+=" .plus "+" line col
        else if c = '-' then tryEqToken st₃ .minusAssign "-=" .minus "-" line col
        else if c = '*' then
          ({ type := .multiply, lexeme := "*", line := line, col := col }, st₃)
        else if c = '/' then
          ({ type := .divide, lexeme := "/", line := line, col := col }, st₃)
        else if c = '%' then
          ({ type := .modulo, lexeme := "%", line := line, col := col }, st₃)
        else if c = ',' then
          ({ type := .comma, lexeme := ",", line := line, col := col }, st₃)
        else if c = ':' then
          ({ type := .colon, lexeme := ":", line := line, col := col }, st₃)
        else if c = ';' then
          ({ type := .semicolon, lexeme := ";", line := line, col := col }, st₃)
        else if c = '(' then
          ({ type := .lparen, lexeme := "(", line := line, col := col }, st₃)
        else if c = ')' then
          ({ type := .rparen, lexeme := ")", line := line, col := col }, st₃)
        else if c = '[' then
          ({ type := .lbracket, lexeme := "[", line := line, col := col }, st₃)
        else if c = ']' then
          ({ type := .rbracket, lexeme := "]", line := line, col := col }, st₃)
        else if c = lbraceChar then
          ({ type := .lbrace, lexeme := "\x7b", line := line, col := col }, st₃)
        else if c = rbraceChar then
          ({ type := .rbrace, lexeme := "\x7d", line := line, col := col }, st₃)
        else if c = quoteChar ∨ c = apostChar then
          match readString st₃ c with
          | (lx, st₄) =>
            ({ type := .stringTok, lexeme := lx, line := line, col := col },
             st₄)
        else if c.isDigit then
          match readNumberLoop st₂ [] false with
          | (cs, hasDecimal, st₄) =>
            if hasDecimal then
              ({ type := .floatTok, lexeme := String.mk cs, line := line,
                 col := col }, st₄)
            else
              ({ type := .intTok, lexeme := String.mk cs, line := line,
                 col := col }, st₄)
        else if c.isAlpha ∨ c = '_' then
          match readIdentifier st₂ with
          | (cs, st₄) =>
            ({ type := lookupIdent (String.mk cs),
               lexeme := String.mk cs, line := line, col := col }, st₄)
        else
          ({ type := .illegal, lexeme := String.mk [c], line := line,
             col := col }, st₃)

/-- `Lexer.NextToken` from the current state: indentation handling
recurs only through the comment path, which consumes at least one
character first, so any fuel above the remaining length is enough. -/
def nextToken (st : LexState) : Token × LexState :=
  nextTokenGo (st.rem.length + 1) st

/-- `Lexer.AllTokens` with a fuel bound: collect tokens up to and
including the EOF token; `none` if the fuel runs out first. -/
def allTokensF : Nat → LexState → Option (List Token)
  | 0, _ => Option.none
  | n + 1, st =>
      match nextToken st with
      | (t, st') =>
        if t.type = .eof then some [t]
        else
          match allTokensF n st' with
          | some ts => some (t :: ts)
          | Option.none => Option.none

/-- The whole-stream token list of a source string, when the fuel
suffices. -/
def allTokens (src : String) (fuel : Nat) : Option (List Token) :=
  allTokensF fuel (initLexer src)

/-! ## The code-object serializer

Modelled from the spec: the repository's `CodeObject.Serialize` and
`DeserializeCodeObject` delegate the byte encoding to Go's
`encoding/gob`, whose wire format is outside this repository.  The
spec describes the intended self-framed format: a version tag,
argument count, source and function names, first line, a
length-prefixed instruction vector (opcode byte plus variable-width
integer argument), a length-prefixed constant pool with
variant-tagged entries (ints as varints, strings length-prefixed,
bool as a byte, none with no payload, functions as a nested code
record plus name; lists and dicts never appear as constants), and
length-prefixed name and local-name tables.  That format is defined
here.  Floats, modelled as exact rationals, carry their numerator and
denominator in place of the spec's fixed 8-byte IEEE-754 payload. -/
/-- The digit loop of the varint encoder, with a structural fuel
bound (any fuel above the value itself is enough). -/
def encodeNatGo : Nat → Nat → List Nat
  | 0, _ => []
  | f + 1, n =>
      if n < 128 then [n]
      else (n % 128 + 128) :: encodeNatGo f (n / 128)

/-- Little-endian base-128 varint encoding of a natural number. -/
def encodeNat (n : Nat) : List Nat := encodeNatGo (n + 1) n

/-- Varint decoding; returns the value and the remaining bytes. -/
def decodeNat : List Nat → Option (Nat × List Nat)
  | [] => Option.none
  | b :: rest =>
      if b < 128 then some (b, rest)
      else
        match decodeNat rest with
        | some (m, rest') => some (b - 128 + 128 * m, rest')
        | Option.none => Option.none

/-- Zigzag mapping of an integer onto a natural number. -/
def zigzag (i : Int) : Nat :=
  if 0 ≤ i then 2 * i.toNat else 2 * (-i).toNat - 1

/-- Inverse of the zigzag mapping. -/
def unzigzag (n : Nat) : Int :=
  if n % 2 = 0 then ((n / 2 : Nat) : Int) else -(((n + 1) / 2 : Nat) : Int)

/-- Varint encoding of a (signed) integer via zigzag. -/
def encodeInt (i : Int) : List Nat := encodeNat (zigzag i)

/-- Decoding of a zigzag varint. -/
def decodeInt (bs : List Nat) : Option (Int × List Nat) :=
  match decodeNat bs with
  | some (n, rest) => some (unzigzag n, rest)
  | Option.none => Option.none

/-- Length-prefixed encoding of a list of encodable items. -/
def encodeListWith {α : Type} (enc : α → List Nat) (xs : List α) :
    List Nat :=
  encodeNat xs.length ++ (xs.map enc).flatten

/-- Decode a known count of consecutive items. -/
def decodeCount {α : Type} (dec : List Nat → Option (α × List Nat)) :
    Nat → List Nat → Option (List α × List Nat)
  | 0, bs => some ([], bs)
  | n + 1, bs =>
      match dec bs with
      | some (x, bs') =>
          match decodeCount dec n bs' with
          | some (xs, bs'') => some (x :: xs, bs'')
          | Option.none => Option.none
      | Option.none => Option.none

/-- Decode a length-prefixed list. -/
def decodeListWith {α : Type} (dec : List Nat → Option (α × List Nat))
    (bs : List Nat) : Option (List α × List Nat) :=
  match decodeNat bs with
  | some (n, rest) => decodeCount dec n rest
  | Option.none => Option.none

/-- Encoding of a single character as its code point varint. -/
def encodeChar (c : Char) : List Nat := encodeNat c.toNat

/-- Decoding of a character. -/
def decodeChar (bs : List Nat) : Option (Char × List Nat) :=
  match decodeNat bs with
  | some (n, rest) => some (Char.ofNat n, rest)
  | Option.none => Option.none

/-- Length-prefixed string encoding. -/
def encodeString (s : String) : List Nat :=
  encodeListWith encodeChar s.toList

/-- String decoding. -/
def decodeString (bs : List Nat) : Option (String × List Nat) :=
  match decodeListWith decodeChar bs with
  | some (cs, rest) => some (String.mk cs, rest)
  | Option.none => Option.none

/-- Instruction encoding: opcode byte then argument varint. -/
def encodeInstr (i : Instr) : List Nat := opCodeNum i.op :: encodeNat i.arg

/-- Inverse of `opCodeNum`. -/
def opCodeOfNum (n : Nat) : Option OpCode :=
  if n = 0 then some .loadConst
  else if n = 1 then some .loadName
  else if n = 2 then some .storeName
  else if n = 3 then some .loadGlobal
  else if n = 4 then some .storeGlobal
  else if n = 5 then some .loadFast
  else if n = 6 then some .storeFast
  else if n = 7 then some .binaryAdd
  else if n = 8 then some .binarySub
  else if n = 9 then some .binaryMul
  else if n = 10 then some .binaryDiv
  else if n = 11 then some .binaryMod
  else if n = 12 then some .unaryPos
  else if n = 13 then some .unaryNeg
  else if n = 14 then some .unaryNot
  else if n = 15 then some .compareEq
  else if n = 16 then some .compareNe
  else if n = 17 then some .compareLt
  else if n = 18 then some .compareLe
  else if n = 19 then some .compareGt
  else if n = 20 then some .compareGe
  else if n = 21 then some .compareIn
  else if n = 22 then some .jumpForward
  else if n = 23 then some .jumpIfFalse
  else if n = 24 then some .jumpIfTrue
  else if n = 25 then some .jumpAbsolute
  else if n = 26 then some .popJumpIfFalse
  else if n = 27 then some .popJumpIfTrue
  else if n = 28 then some .buildList
  else if n = 29 then some .buildDict
  else if n = 30 then some .buildTuple
  else if n = 31 then some .binarySubscr
  else if n = 32 then some .storeSubscr
  else if n = 33 then some .callFunction
  else if n = 34 then some .returnValue
  else if n = 35 then some .printExpr
  else if n = 36 then some .printNewline
  else if n = 37 then some .popTop
  else if n = 38 then some .rotTwo
  else if n = 39 then some .rotThree
  else if n = 40 then some .dupTop
  else if n = 41 then some .setupLoop
  else if n = 42 then some .breakLoop
  else if n = 43 then some .continueLoop
  else if n = 44 then some .getIter
  else if n = 45 then some .forIter
  else if n = 46 then some .nop
  else Option.none

/-- Instruction decoding. -/
def decodeInstr (bs : List Nat) : Option (Instr × List Nat) :=
  match bs with
  | [] => Option.none
  | b :: rest =>
      match opCodeOfNum b with
      | some op =>
          (match decodeNat rest with
           | some (arg, rest') => some ({ op := op, arg := arg }, rest')
           | Option.none => Option.none)
      | Option.none => Option.none

mutual

/-- Serialization of a constant-pool value.  Lists, dicts and builtins
never appear in a compiled constant pool and are rejected. -/
def serializeValue : Value → Option (List Nat)
  | .int n => some (0 :: encodeInt n)
  | .float q => some (1 :: (encodeInt q.num ++ encodeNat q.den))
  | .str s => some (2 :: encodeString s)
  | .bool b => some [3, if b then 1 else 0]
  | .none => some [4]
  | .func c n =>
      match serializeCode c with
      | some bs => some (5 :: (bs ++ encodeString n))
      | Option.none => Option.none
  | .list _ => Option.none
  | .dict _ => Option.none
  | .builtin _ => Option.none

/-- Serialization of a constant pool (concatenated entries). -/
def serializeConsts : List Value → Option (List Nat)
  | [] => some []
  | v :: vs =>
      match serializeValue v, serializeConsts vs with
      | some b, some bs => some (b ++ bs)
      | _, _ => Option.none

/-- Serialization of a code object: version marker, argument count,
filename, name, first line, instruction vector, constant pool, name
table, local-name table. -/
def serializeCode : Code → Option (List Nat)
  | .mk instrs consts names varnames argc fname cname lineno =>
      match serializeConsts consts with
      | some cbs =>
          some (encodeNat 1 ++ encodeNat argc ++ encodeString fname ++
            encodeString cname ++ encodeNat lineno ++
            encodeListWith encodeInstr instrs ++
            encodeNat consts.length ++ cbs ++
            encodeListWith encodeString names ++
            encodeListWith encodeString varnames)
      | Option.none => Option.none

end

/-- One level of constant-pool value decoding, by variant tag, given a
decoder for nested code objects. -/
def decodeValueAux (dcode : List Nat → Option (Code × List Nat))
    (bs : List Nat) : Option (Value × List Nat) :=
  match bs with
  | [] => Option.none
  | tag :: rest =>
      match tag with
      | 0 => (decodeInt rest).bind fun nr => some (.int nr.1, nr.2)
      | 1 =>
          (decodeInt rest).bind fun nr =>
          (decodeNat nr.2).bind fun dr =>
          some (.float (mkRat nr.1 dr.1), dr.2)
      | 2 => (decodeString rest).bind fun sr => some (.str sr.1, sr.2)
      | 3 =>
          match rest with
          | b :: r => some (.bool (b == 1), r)
          | [] => Option.none
      | 4 => some (.none, rest)
      | 5 =>
          (dcode rest).bind fun cr =>
          (decodeString cr.2).bind fun sr =>
          some (.func cr.1 sr.1, sr.2)
      | _ => Option.none

/-- Decoding of a counted constant pool, given a value decoder. -/
def decodeConstsAux (dv : List Nat → Option (Value × List Nat)) :
    Nat → List Nat → Option (List Value × List Nat)
  | 0, bs => some ([], bs)
  | n + 1, bs =>
      (dv bs).bind fun vr =>
      (decodeConstsAux dv n vr.2).bind fun vsr =>
      some (vr.1 :: vsr.1, vsr.2)

/-- One level of code-object decoding, given a constant-pool decoder. -/
def decodeCodeAux
    (dcs : Nat → List Nat → Option (List Value × List Nat))
    (bs : List Nat) : Option (Code × List Nat) :=
  (decodeNat bs).bind fun vb =>
  if vb.1 = 1 then
    (decodeNat vb.2).bind fun ab =>
    (decodeString ab.2).bind fun fb =>
    (decodeString fb.2).bind fun nb =>
    (decodeNat nb.2).bind fun lb =>
    (decodeListWith decodeInstr lb.2).bind fun ib =>
    (decodeNat ib.2).bind fun cb =>
    (dcs cb.1 cb.2).bind fun csb =>
    (decodeListWith decodeString csb.2).bind fun nsb =>
    (decodeListWith decodeString nsb.2).bind fun vsb =>
    some (.mk ib.1 csb.1 nsb.1 vsb.1 ab.1 fb.1 nb.1 lb.1, vsb.2)
  else Option.none

/-- Fueled code-object decoding: the fuel bounds the nesting depth of
function constants (one unit per enclosing byte, so the byte length of
the input always suffices). -/
def decodeCodeF : Nat → List Nat → Option (Code × List Nat)
  | 0, _ => Option.none
  | f + 1, bs =>
      decodeCodeAux (decodeConstsAux (decodeValueAux (decodeCodeF f))) bs

/-- `deserialize`: decode a full byte list into a code object, with
the internal fuel drawn from the input length. -/
def deserializeCode (bs : List Nat) : Option Code :=
  match decodeCodeF (bs.length + 1) bs with
  | some (c, []) => some c
  | _ => Option.none

/-! ## Compiled constant pools are serializable -/
/-- A compiler state whose constant pool serializes. -/
def stOK (c : CompState) : Prop := (serializeConsts c.consts).isSome

/-! ## The claims -/
/-- A one-instruction test state for step-level properties. -/
def oneInstrState (op : OpCode) (arg : Nat) (consts : List Value)
    (names : List String) (stack : List Value)
    (g : List (String × Value)) : VMState :=
  { frames := [{ code := .mk [⟨op, arg⟩] consts names [] 0 "<test>" "<test>" 1,
                 ip := 0, stack := stack, locals := [] }],
    globals := g, output := "" }

/-- A compiler state at function depth with one local name, for the
C10 witness. -/
def depthOneLocal : CompState :=
  { initComp with scopeDepth := 1, varnames := ["x"] }

/-- A compiler state at function depth with no local names, for the
C10 witness. -/
def depthOneEmpty : CompState :=
  { initComp with scopeDepth := 1 }

/-! ## Lexer indentation bookkeeping (towards the INDENT/DEDENT
balance) -/
/-- The number of tokens of a given kind in a stream. -/
def countTok (ts : List Token) (tt : TokType) : Nat :=
  (ts.filter (fun t => t.type = tt)).length

/-- The indentation measure of a lexer state: open stack levels plus
pending DEDENTs.  A fresh lexer has measure 1 (the base level). -/
def indentMeasure (st : LexState) : Nat :=
  st.indentStack.length + st.pendingDedents

/-! ## Theorems -/

theorem decodeNat_encodeNatGo : ∀ (f n : Nat) (rest : List Nat),
    n < f → decodeNat (encodeNatGo f n ++ rest) = some (n, rest) := by
  intro f
  induction f with
  | zero => intro n rest h; omega
  | succ f ih =>
      intro n rest h
      by_cases hlt : n < 128
      · rw [encodeNatGo]
        simp [hlt, decodeNat]
      · rw [encodeNatGo]
        simp only [hlt, if_false, List.cons_append]
        have hdiv : n / 128 < f := by
          have h1 : n / 128 < n := Nat.div_lt_self (by omega) (by omega)
          omega
        simp only [decodeNat, ih (n / 128) rest hdiv]
        have h1 : ¬ n % 128 + 128 < 128 := by omega
        simp only [h1, if_false]
        have h2 : n % 128 + 128 - 128 + 128 * (n / 128) = n := by
          have := Nat.mod_add_div n 128
          omega
        rw [h2]

theorem decodeNat_encodeNat (n : Nat) (rest : List Nat) :
    decodeNat (encodeNat n ++ rest) = some (n, rest) :=
  decodeNat_encodeNatGo (n + 1) n rest (Nat.lt_succ_self n)

theorem unzigzag_zigzag (i : Int) : unzigzag (zigzag i) = i := by
  unfold zigzag unzigzag
  by_cases h : 0 ≤ i
  · simp only [h, if_true]
    have h2 : 2 * i.toNat % 2 = 0 := by omega
    simp only [h2, if_true]
    omega
  · simp only [h, if_false]
    have hpos : 0 < (-i).toNat := by omega
    have h2 : (2 * (-i).toNat - 1) % 2 = 1 := by omega
    simp only [h2]
    norm_num
    omega

theorem decodeInt_encodeInt (i : Int) (rest : List Nat) :
    decodeInt (encodeInt i ++ rest) = some (i, rest) := by
  unfold encodeInt decodeInt
  rw [decodeNat_encodeNat]
  simp [unzigzag_zigzag]

theorem decodeCount_encode {α : Type} (enc : α → List Nat)
    (dec : List Nat → Option (α × List Nat))
    (h : ∀ x rest, dec (enc x ++ rest) = some (x, rest)) :
    ∀ (xs : List α) (rest : List Nat),
      decodeCount dec xs.length ((xs.map enc).flatten ++ rest) =
        some (xs, rest) := by
  intro xs
  induction xs with
  | nil => intro rest; simp [decodeCount]
  | cons x xs ih =>
      intro rest
      simp only [List.map_cons, List.flatten_cons, List.length_cons,
        List.append_assoc]
      simp only [decodeCount, h x, ih rest]

theorem decodeListWith_encode {α : Type} (enc : α → List Nat)
    (dec : List Nat → Option (α × List Nat))
    (h : ∀ x rest, dec (enc x ++ rest) = some (x, rest))
    (xs : List α) (rest : List Nat) :
    decodeListWith dec (encodeListWith enc xs ++ rest) = some (xs, rest) := by
  unfold encodeListWith decodeListWith
  rw [List.append_assoc, decodeNat_encodeNat]
  exact decodeCount_encode enc dec h xs rest

theorem decodeChar_encodeChar (c : Char) (rest : List Nat) :
    decodeChar (encodeChar c ++ rest) = some (c, rest) := by
  unfold encodeChar decodeChar
  rw [decodeNat_encodeNat]
  simp [Char.ofNat_toNat]

theorem decodeString_encodeString (s : String) (rest : List Nat) :
    decodeString (encodeString s ++ rest) = some (s, rest) := by
  unfold encodeString decodeString
  rw [decodeListWith_encode encodeChar decodeChar decodeChar_encodeChar]
  cases s
  rfl

theorem opCodeOfNum_opCodeNum (op : OpCode) :
    opCodeOfNum (opCodeNum op) = some op := by
  cases op <;> rfl

theorem decodeInstr_encodeInstr (i : Instr) (rest : List Nat) :
    decodeInstr (encodeInstr i ++ rest) = some (i, rest) := by
  unfold encodeInstr decodeInstr
  simp only [List.cons_append]
  rw [opCodeOfNum_opCodeNum, decodeNat_encodeNat]

theorem encodeNat_ne_nil (n : Nat) : encodeNat n ≠ [] := by
  unfold encodeNat encodeNatGo
  split <;> simp

theorem encodeNat_one : encodeNat 1 = [1] := rfl

mutual

theorem serializeValue_rt : ∀ (v : Value) (e : List Nat),
    serializeValue v = some e → ∀ (f : Nat) (rest : List Nat),
    e.length ≤ f + 1 →
    decodeValueAux (decodeCodeF f) (e ++ rest) = some (v, rest)
  | .int n, e, h, f, rest, hf => by
      simp only [serializeValue, Option.some.injEq] at h
      subst h
      simp [decodeValueAux, decodeInt_encodeInt]
  | .float q, e, h, f, rest, hf => by
      simp only [serializeValue, Option.some.injEq] at h
      subst h
      simp [decodeValueAux, decodeInt_encodeInt, decodeNat_encodeNat,
        Rat.mkRat_self]
  | .str s, e, h, f, rest, hf => by
      simp only [serializeValue, Option.some.injEq] at h
      subst h
      simp [decodeValueAux, decodeString_encodeString]
  | .bool b, e, h, f, rest, hf => by
      simp only [serializeValue, Option.some.injEq] at h
      subst h
      cases b <;> simp [decodeValueAux]
  | .none, e, h, f, rest, hf => by
      simp only [serializeValue, Option.some.injEq] at h
      subst h
      simp [decodeValueAux]
  | .func c n, e, h, f, rest, hf => by
      simp only [serializeValue] at h
      cases hc : serializeCode c with
      | none => rw [hc] at h; exact absurd h (by simp)
      | some bs =>
          rw [hc] at h
          simp only [Option.some.injEq] at h
          subst h
          have hlen : bs.length ≤ f := by
            simp only [List.length_cons, List.length_append] at hf
            omega
          have hcode := serializeCode_rt c bs hc f
            (encodeString n ++ rest) hlen
          simp only [List.cons_append, List.append_assoc]
          simp [decodeValueAux, hcode, decodeString_encodeString]
  | .list es, e, h, f, rest, hf => by
      simp only [serializeValue] at h
      exact absurd h (by simp)
  | .dict ps, e, h, f, rest, hf => by
      simp only [serializeValue] at h
      exact absurd h (by simp)
  | .builtin n, e, h, f, rest, hf => by
      simp only [serializeValue] at h
      exact absurd h (by simp)

theorem serializeConsts_rt : ∀ (vs : List Value) (es : List Nat),
    serializeConsts vs = some es → ∀ (f : Nat) (rest : List Nat),
    es.length ≤ f + 1 →
    decodeConstsAux (decodeValueAux (decodeCodeF f)) vs.length
      (es ++ rest) = some (vs, rest)
  | [], es, h, f, rest, hf => by
      simp only [serializeConsts, Option.some.injEq] at h
      subst h
      simp [decodeConstsAux]
  | v :: vs, es, h, f, rest, hf => by
      simp only [serializeConsts] at h
      cases hv : serializeValue v with
      | none => rw [hv] at h; exact absurd h (by simp)
      | some b =>
          cases hvs : serializeConsts vs with
          | none => rw [hv, hvs] at h; exact absurd h (by simp)
          | some bs =>
              rw [hv, hvs] at h
              simp only [Option.some.injEq] at h
              subst h
              have hb : b.length ≤ f + 1 := by
                simp only [List.length_append] at hf; omega
              have hbs : bs.length ≤ f + 1 := by
                simp only [List.length_append] at hf; omega
              have h1 := serializeValue_rt v b hv f (bs ++ rest) hb
              have h2 := serializeConsts_rt vs bs hvs f rest hbs
              simp only [List.length_cons, List.append_assoc]
              simp [decodeConstsAux, h1, h2]

theorem serializeCode_rt : ∀ (c : Code) (e : List Nat),
    serializeCode c = some e → ∀ (f : Nat) (rest : List Nat),
    e.length ≤ f → decodeCodeF f (e ++ rest) = some (c, rest)
  | .mk instrs consts names varnames argc fname cname lineno, e, h, f,
      rest, hf => by
      simp only [serializeCode] at h
      cases hcs : serializeConsts consts with
      | none => rw [hcs] at h; exact absurd h (by simp)
      | some cbs =>
          rw [hcs] at h
          simp only [Option.some.injEq] at h
          subst h
          cases f with
          | zero =>
              rw [encodeNat_one] at hf
              simp at hf
          | succ g =>
              have hcb : cbs.length ≤ g + 1 := by
                rw [encodeNat_one] at hf
                simp only [List.length_append, List.length_cons,
                  List.length_nil] at hf
                omega
              have hc := serializeConsts_rt consts cbs hcs g
                (encodeListWith encodeString names ++
                 (encodeListWith encodeString varnames ++ rest)) hcb
              simp only [List.append_assoc]
              rw [decodeCodeF]
              unfold decodeCodeAux
              rw [decodeNat_encodeNat]
              simp only [Option.some_bind, if_pos rfl]
              rw [decodeNat_encodeNat]
              simp only [Option.some_bind]
              rw [decodeString_encodeString]
              simp only [Option.some_bind]
              rw [decodeString_encodeString]
              simp only [Option.some_bind]
              rw [decodeNat_encodeNat]
              simp only [Option.some_bind]
              rw [decodeListWith_encode encodeInstr decodeInstr
                decodeInstr_encodeInstr]
              simp only [Option.some_bind]
              rw [decodeNat_encodeNat]
              simp only [Option.some_bind]
              rw [hc]
              simp only [Option.some_bind]
              rw [decodeListWith_encode encodeString decodeString
                decodeString_encodeString]
              simp only [Option.some_bind]
              rw [decodeListWith_encode encodeString decodeString
                decodeString_encodeString]
              simp

end

/-- The serializer round-trips on every serializable code object. -/
theorem deserialize_serialize (c : Code) (bs : List Nat)
    (h : serializeCode c = some bs) : deserializeCode bs = some c := by
  unfold deserializeCode
  have := serializeCode_rt c bs h (bs.length + 1) []
    (Nat.le_succ bs.length)
  rw [List.append_nil] at this
  rw [this]

theorem serializeConsts_append_isSome (vs : List Value) (v : Value)
    (h1 : (serializeConsts vs).isSome) (h2 : (serializeValue v).isSome) :
    (serializeConsts (vs ++ [v])).isSome := by
  induction vs with
  | nil =>
      cases hv : serializeValue v with
      | none => rw [hv] at h2; simp at h2
      | some b => simp [serializeConsts, hv]
  | cons w ws ih =>
      simp only [serializeConsts] at h1
      cases hw : serializeValue w with
      | none => rw [hw] at h1; simp at h1
      | some b =>
          rw [hw] at h1
          cases hws : serializeConsts ws with
          | none => rw [hws] at h1; simp at h1
          | some bs =>
              have htail := ih (by simp [hws])
              cases hcat : serializeConsts (ws ++ [v]) with
              | none => rw [hcat] at htail; simp at htail
              | some r =>
                  show (serializeConsts (w :: (ws ++ [v]))).isSome
                  simp [serializeConsts, hw, hcat]

theorem stOK_of_consts_eq {c c' : CompState}
    (h : c'.consts = c.consts) (hc : stOK c) : stOK c' := by
  unfold stOK
  rw [h]
  exact hc

theorem emit_consts (c : CompState) (op : OpCode) (arg : Nat) :
    (emit c op arg).consts = c.consts := rfl

theorem changeOperand_consts (c : CompState) (p a : Nat) :
    (changeOperand c p a).consts = c.consts := rfl

theorem addName_consts (c : CompState) (n : String) :
    (addName c n).1.consts = c.consts := by
  unfold addName
  split <;> rfl

theorem addVarname_consts (c : CompState) (n : String) :
    (addVarname c n).1.consts = c.consts := by
  unfold addVarname
  split <;> rfl

theorem emitStoreName_consts (c : CompState) (id : String) :
    (emitStoreName c id).consts = c.consts := by
  unfold emitStoreName
  split
  · rw [emit_consts, addName_consts]
  · rw [emit_consts, addVarname_consts]

theorem addConstant_stOK {c : CompState} {v : Value} (hc : stOK c)
    (hv : (serializeValue v).isSome) : stOK (addConstant c v).1 := by
  unfold addConstant
  split
  · exact hc
  · exact serializeConsts_append_isSome c.consts v hc hv

theorem addConstant_stOK_int {c : CompState} (hc : stOK c) (n : Int) :
    stOK (addConstant c (.int n)).1 :=
  addConstant_stOK hc (by simp [serializeValue])

theorem addConstant_stOK_float {c : CompState} (hc : stOK c) (q : Rat) :
    stOK (addConstant c (.float q)).1 :=
  addConstant_stOK hc (by simp [serializeValue])

theorem addConstant_stOK_str {c : CompState} (hc : stOK c) (s : String) :
    stOK (addConstant c (.str s)).1 :=
  addConstant_stOK hc (by simp [serializeValue])

theorem addConstant_stOK_bool {c : CompState} (hc : stOK c) (b : Bool) :
    stOK (addConstant c (.bool b)).1 :=
  addConstant_stOK hc (by simp [serializeValue])

theorem addConstant_stOK_none {c : CompState} (hc : stOK c) :
    stOK (addConstant c Value.none).1 :=
  addConstant_stOK hc (by simp [serializeValue])

theorem stOK_initComp : stOK initComp := by
  simp [stOK, initComp, serializeConsts]

theorem stOK_emit {c : CompState} (hc : stOK c) (op : OpCode) (arg : Nat) :
    stOK (emit c op arg) := stOK_of_consts_eq (emit_consts c op arg) hc

theorem stOK_foldl_changeOperand {c : CompState} (hc : stOK c)
    (ps : List Nat) :
    stOK (ps.foldl (fun c pos => changeOperand c pos c.instructions.length) c) := by
  induction ps generalizing c with
  | nil => exact hc
  | cons p ps ih =>
      exact ih (stOK_of_consts_eq (changeOperand_consts _ _ _) hc)

theorem stOK_foldl_addVarname {c : CompState} (hc : stOK c)
    (args : List String) :
    stOK (args.foldl (fun c a => (addVarname c a).1) c) := by
  induction args generalizing c with
  | nil => exact hc
  | cons a as ih =>
      exact ih (stOK_of_consts_eq (addVarname_consts _ _) hc)

theorem except_bind_ok {α β ε : Type} (a : α) (f : α → Except ε β) :
    (Except.ok a >>= f : Except ε β) = f a := rfl

/-- `serializeCode` succeeds exactly when the constant pool
serializes. -/
theorem serializeCode_isSome_iff (instrs : List Instr) (consts : List Value)
    (names varnames : List String) (argc : Nat) (fn cn : String) (ln : Nat) :
    (serializeCode (.mk instrs consts names varnames argc fn cn ln)).isSome ↔
      (serializeConsts consts).isSome := by
  simp only [serializeCode]
  cases h : serializeConsts consts <;> simp

theorem except_bind_error {α β ε : Type} (e : ε) (f : α → Except ε β) :
    (Except.error e >>= f : Except ε β) = .error e := rfl

theorem except_bind_eq_ok {α β ε : Type} {x : Except ε α}
    {f : α → Except ε β} {b : β} (h : (x >>= f) = .ok b) :
    ∃ a, x = .ok a ∧ f a = .ok b := by
  cases x with
  | error e => rw [except_bind_error] at h; exact absurd h (by simp)
  | ok a =>
      rw [except_bind_ok] at h
      exact ⟨a, rfl, h⟩

/-- Every compile step preserves serializability of the constant
pool, jointly for all nine functions of the compile family, by
induction on the fuel (every recursive call decreases the fuel by
exactly one); and every compiled function code object serializes. -/
theorem compile_stOK_all : ∀ (f : Nat),
    (∀ c e c', compileExprC f c e = .ok c' → stOK c → stOK c') ∧
    (∀ c es c', compileExprListC f c es = .ok c' → stOK c → stOK c') ∧
    (∀ c ks vs c',
      compileDictItemsC f c ks vs = .ok c' → stOK c → stOK c') ∧
    (∀ c ops rs c',
      compileCompareRestC f c ops rs = .ok c' → stOK c → stOK c') ∧
    (∀ c op vs r, compileBoolRestC f c op vs = .ok r → stOK c → stOK r.1) ∧
    (∀ c st c', compileStmtC f c st = .ok c' → stOK c → stOK c') ∧
    (∀ c vs c', compilePrintValuesC f c vs = .ok c' → stOK c → stOK c') ∧
    (∀ c sts c', compileStmtListC f c sts = .ok c' → stOK c → stOK c') ∧
    (∀ fname args body line depth code,
      compileFuncCodeC f fname args body line depth = .ok code →
        (serializeCode code).isSome) := by
  intro f
  induction f with
  | zero =>
      refine ⟨?_, ?_, ?_, ?_, ?_, ?_, ?_, ?_, ?_⟩ <;> intros <;>
        simp_all [compileExprC, compileExprListC, compileDictItemsC,
          compileCompareRestC, compileBoolRestC, compileStmtC,
          compilePrintValuesC, compileStmtListC, compileFuncCodeC]
  | succ f ih =>
      obtain ⟨ihE, ihL, ihD, ihC, ihB, ihS, ihP, ihSL, ihF⟩ := ih
      refine ⟨?_, ?_, ?_, ?_, ?_, ?_, ?_, ?_, ?_⟩
      · intro c e c' h hOK
        cases e with
        | binOp l op r =>
            simp only [compileExprC] at h
            obtain ⟨c1, h1, h⟩ := except_bind_eq_ok h
            obtain ⟨c2, h2, h⟩ := except_bind_eq_ok h
            have hOK2 := ihE c1 r c2 h2 (ihE c l c1 h1 hOK)
            repeat' split at h
            all_goals first
              | (simp only [Except.ok.injEq] at h; subst h;
                 exact stOK_emit hOK2 _ _)
              | exact absurd h (by simp)
        | unOp op e =>
            simp only [compileExprC] at h
            obtain ⟨c1, h1, h⟩ := except_bind_eq_ok h
            have hOK1 := ihE c e c1 h1 hOK
            repeat' split at h
            all_goals first
              | (simp only [Except.ok.injEq] at h; subst h;
                 exact stOK_emit hOK1 _ _)
              | exact absurd h (by simp)
        | boolOp op values =>
            cases values with
            | nil =>
                simp only [compileExprC] at h
                exact absurd h (by simp)
            | cons v₀ vs =>
                cases vs with
                | nil =>
                    simp only [compileExprC] at h
                    exact absurd h (by simp)
                | cons v₁ vrest =>
                    simp only [compileExprC] at h
                    obtain ⟨c1, h1, h⟩ := except_bind_eq_ok h
                    obtain ⟨pr, h2, h⟩ := except_bind_eq_ok h
                    simp only [Except.ok.injEq] at h
                    subst h
                    have hOK2 := ihB c1 op (v₁ :: vrest) pr h2
                      (ihE c v₀ c1 h1 hOK)
                    exact stOK_foldl_changeOperand hOK2 pr.2
        | cmp left ops rights =>
            simp only [compileExprC] at h
            obtain ⟨c1, h1, h⟩ := except_bind_eq_ok h
            exact ihC c1 ops rights c' h (ihE c left c1 h1 hOK)
        | call fn args =>
            simp only [compileExprC] at h
            obtain ⟨c1, h1, h⟩ := except_bind_eq_ok h
            obtain ⟨c2, h2, h⟩ := except_bind_eq_ok h
            simp only [Except.ok.injEq] at h
            subst h
            exact stOK_emit (ihL c1 args c2 h2 (ihE c fn c1 h1 hOK)) _ _
        | subscr v slice =>
            simp only [compileExprC] at h
            obtain ⟨c1, h1, h⟩ := except_bind_eq_ok h
            obtain ⟨c2, h2, h⟩ := except_bind_eq_ok h
            simp only [Except.ok.injEq] at h
            subst h
            exact stOK_emit (ihE c1 slice c2 h2 (ihE c v c1 h1 hOK)) _ _
        | name id =>
            simp only [compileExprC] at h
            by_cases hdepth : c.scopeDepth = 0
            · rw [if_pos hdepth] at h
              rcases heq : addName c id with ⟨c1, i⟩
              rw [heq] at h
              simp only [Except.ok.injEq] at h
              subst h
              refine stOK_emit (stOK_of_consts_eq ?_ hOK) _ _
              have hn := addName_consts c id
              rw [heq] at hn
              exact hn
            · rw [if_neg hdepth] at h
              cases hfind : c.varnames.findIdx? (fun w => w = id) with
              | some j =>
                  rw [hfind] at h
                  rcases heq : addVarname c id with ⟨c1, i⟩
                  rw [heq] at h
                  simp only [Except.ok.injEq] at h
                  subst h
                  refine stOK_emit (stOK_of_consts_eq ?_ hOK) _ _
                  have hn := addVarname_consts c id
                  rw [heq] at hn
                  exact hn
              | none =>
                  rw [hfind] at h
                  rcases heq : addName c id with ⟨c1, i⟩
                  rw [heq] at h
                  simp only [Except.ok.injEq] at h
                  subst h
                  refine stOK_emit (stOK_of_consts_eq ?_ hOK) _ _
                  have hn := addName_consts c id
                  rw [heq] at hn
                  exact hn
        | numInt n =>
            simp only [compileExprC] at h
            rcases heq : addConstant c (Value.int n) with ⟨c1, i⟩
            rw [heq] at h
            simp only [Except.ok.injEq] at h
            subst h
            have hs := addConstant_stOK_int hOK n
            rw [heq] at hs
            exact stOK_emit hs _ _
        | numFloat q =>
            simp only [compileExprC] at h
            rcases heq : addConstant c (Value.float q) with ⟨c1, i⟩
            rw [heq] at h
            simp only [Except.ok.injEq] at h
            subst h
            have hs := addConstant_stOK_float hOK q
            rw [heq] at hs
            exact stOK_emit hs _ _
        | strLit s =>
            simp only [compileExprC] at h
            rcases heq : addConstant c (Value.str s) with ⟨c1, i⟩
            rw [heq] at h
            simp only [Except.ok.injEq] at h
            subst h
            have hs := addConstant_stOK_str hOK s
            rw [heq] at hs
            exact stOK_emit hs _ _
        | nameConst ob =>
            cases ob with
            | some b =>
                simp only [compileExprC] at h
                rcases heq : addConstant c (Value.bool b) with ⟨c1, i⟩
                rw [heq] at h
                simp only [Except.ok.injEq] at h
                subst h
                have hs := addConstant_stOK_bool hOK b
                rw [heq] at hs
                exact stOK_emit hs _ _
            | none =>
                simp only [compileExprC] at h
                rcases heq : addConstant c Value.none with ⟨c1, i⟩
                rw [heq] at h
                simp only [Except.ok.injEq] at h
                subst h
                have hs := addConstant_stOK_none hOK
                rw [heq] at hs
                exact stOK_emit hs _ _
        | listLit elts =>
            simp only [compileExprC] at h
            obtain ⟨c1, h1, h⟩ := except_bind_eq_ok h
            simp only [Except.ok.injEq] at h
            subst h
            exact stOK_emit (ihL c elts c1 h1 hOK) _ _
        | dictLit keys values =>
            simp only [compileExprC] at h
            obtain ⟨c1, h1, h⟩ := except_bind_eq_ok h
            simp only [Except.ok.injEq] at h
            subst h
            exact stOK_emit (ihD c keys values c1 h1 hOK) _ _
      · intro c es c' h hOK
        cases es with
        | nil =>
            simp only [compileExprListC, Except.ok.injEq] at h
            subst h
            exact hOK
        | cons e es =>
            simp only [compileExprListC] at h
            obtain ⟨c1, h1, h⟩ := except_bind_eq_ok h
            exact ihL c1 es c' h (ihE c e c1 h1 hOK)
      · intro c ks vs c' h hOK
        cases ks with
        | nil =>
            simp only [compileDictItemsC, Except.ok.injEq] at h
            subst h
            exact hOK
        | cons k ks =>
            cases vs with
            | nil =>
                simp only [compileDictItemsC] at h
                exact absurd h (by simp)
            | cons v vs =>
                simp only [compileDictItemsC] at h
                obtain ⟨c1, h1, h⟩ := except_bind_eq_ok h
                obtain ⟨c2, h2, h⟩ := except_bind_eq_ok h
                exact ihD c2 ks vs c' h (ihE c1 v c2 h2 (ihE c k c1 h1 hOK))
      · intro c ops rs c' h hOK
        cases ops with
        | nil =>
            simp only [compileCompareRestC, Except.ok.injEq] at h
            subst h
            exact hOK
        | cons op ops =>
            cases rs with
            | nil =>
                simp only [compileCompareRestC] at h
                exact absurd h (by simp)
            | cons r rs =>
                simp only [compileCompareRestC] at h
                obtain ⟨c1, h1, h⟩ := except_bind_eq_ok h
                have hOK1 := ihE c r c1 h1 hOK
                repeat' split at h
                all_goals first
                  | (rw [except_bind_ok] at h;
                     exact ihC _ ops rs c' h (stOK_emit hOK1 _ _))
                  | (rw [except_bind_error] at h; exact absurd h (by simp))
      · intro c op vs r h hOK
        cases vs with
        | nil =>
            simp only [compileBoolRestC, Except.ok.injEq] at h
            subst h
            exact hOK
        | cons v vs =>
            simp only [compileBoolRestC] at h
            obtain ⟨c4, h1, h⟩ := except_bind_eq_ok h
            obtain ⟨pr, h2, h⟩ := except_bind_eq_ok h
            obtain ⟨c5, ps⟩ := pr
            simp only [Except.ok.injEq] at h
            subst h
            have hOKmid : stOK c4 := by
              refine ihE _ v c4 h1 ?_
              split
              all_goals
                exact stOK_emit (stOK_emit (stOK_emit hOK _ _) _ _) _ _
            exact ihB c4 op vs (c5, ps) h2 hOKmid
      · intro c st c' h hOK
        cases st with
        | assign target value =>
            simp only [compileStmtC] at h
            obtain ⟨c1, h1, h⟩ := except_bind_eq_ok h
            have hOK1 := ihE c value c1 h1 hOK
            cases target with
            | name id =>
                simp only [Except.ok.injEq] at h
                subst h
                exact stOK_of_consts_eq (emitStoreName_consts c1 id) hOK1
            | subscr tv ts =>
                obtain ⟨c2, h2, h⟩ := except_bind_eq_ok h
                obtain ⟨c3, h3, h⟩ := except_bind_eq_ok h
                simp only [Except.ok.injEq] at h
                subst h
                exact stOK_emit (ihE c2 ts c3 h3 (ihE c1 tv c2 h2 hOK1)) _ _
            | binOp a o b => exact absurd h (by simp)
            | unOp o a => exact absurd h (by simp)
            | boolOp o vs => exact absurd h (by simp)
            | cmp a os bs => exact absurd h (by simp)
            | call fn as => exact absurd h (by simp)
            | numInt n => exact absurd h (by simp)
            | numFloat q => exact absurd h (by simp)
            | strLit s => exact absurd h (by simp)
            | nameConst ob => exact absurd h (by simp)
            | listLit es => exact absurd h (by simp)
            | dictLit ks vs => exact absurd h (by simp)
        | augAssign target op value =>
            cases target with
            | name id =>
                simp only [compileStmtC] at h
                by_cases hdepth : c.scopeDepth = 0
                · rw [if_pos hdepth] at h
                  rcases heq : addName c id with ⟨c1, i⟩
                  rw [heq] at h
                  rw [except_bind_ok] at h
                  obtain ⟨c2, h2, h⟩ := except_bind_eq_ok h
                  have hOK1 : stOK c1 := by
                    have hn := addName_consts c id
                    rw [heq] at hn
                    exact stOK_of_consts_eq hn hOK
                  have hOK2 := ihE _ value c2 h2 (stOK_emit hOK1 _ _)
                  repeat' split at h
                  all_goals first
                    | (rw [except_bind_ok] at h;
                       simp only [Except.ok.injEq] at h; subst h;
                       exact stOK_of_consts_eq (emitStoreName_consts _ id)
                         (stOK_emit hOK2 _ _))
                    | (rw [except_bind_error] at h; exact absurd h (by simp))
                · rw [if_neg hdepth] at h
                  rcases heq : addVarname c id with ⟨c1, i⟩
                  rw [heq] at h
                  rw [except_bind_ok] at h
                  obtain ⟨c2, h2, h⟩ := except_bind_eq_ok h
                  have hOK1 : stOK c1 := by
                    have hn := addVarname_consts c id
                    rw [heq] at hn
                    exact stOK_of_consts_eq hn hOK
                  have hOK2 := ihE _ value c2 h2 (stOK_emit hOK1 _ _)
                  repeat' split at h
                  all_goals first
                    | (rw [except_bind_ok] at h;
                       simp only [Except.ok.injEq] at h; subst h;
                       exact stOK_of_consts_eq (emitStoreName_consts _ id)
                         (stOK_emit hOK2 _ _))
                    | (rw [except_bind_error] at h; exact absurd h (by simp))
            | binOp a o b =>
                simp only [compileStmtC] at h
                rw [except_bind_error] at h
                exact absurd h (by simp)
            | unOp o a =>
                simp only [compileStmtC] at h
                rw [except_bind_error] at h
                exact absurd h (by simp)
            | boolOp o vs =>
                simp only [compileStmtC] at h
                rw [except_bind_error] at h
                exact absurd h (by simp)
            | cmp a os bs =>
                simp only [compileStmtC] at h
                rw [except_bind_error] at h
                exact absurd h (by simp)
            | call fn as =>
                simp only [compileStmtC] at h
                rw [except_bind_error] at h
                exact absurd h (by simp)
            | subscr a b =>
                simp only [compileStmtC] at h
                rw [except_bind_error] at h
                exact absurd h (by simp)
            | numInt n =>
                simp only [compileStmtC] at h
                rw [except_bind_error] at h
                exact absurd h (by simp)
            | numFloat q =>
                simp only [compileStmtC] at h
                rw [except_bind_error] at h
                exact absurd h (by simp)
            | strLit s =>
                simp only [compileStmtC] at h
                rw [except_bind_error] at h
                exact absurd h (by simp)
            | nameConst ob =>
                simp only [compileStmtC] at h
                rw [except_bind_error] at h
                exact absurd h (by simp)
            | listLit es =>
                simp only [compileStmtC] at h
                rw [except_bind_error] at h
                exact absurd h (by simp)
            | dictLit ks vs =>
                simp only [compileStmtC] at h
                rw [except_bind_error] at h
                exact absurd h (by simp)
        | exprStmt e =>
            simp only [compileStmtC] at h
            obtain ⟨c1, h1, h⟩ := except_bind_eq_ok h
            simp only [Except.ok.injEq] at h
            subst h
            exact stOK_emit (ihE c e c1 h1 hOK) _ _
        | printStmt values =>
            simp only [compileStmtC] at h
            obtain ⟨c1, h1, h⟩ := except_bind_eq_ok h
            simp only [Except.ok.injEq] at h
            subst h
            exact stOK_emit (ihP c values c1 h1 hOK) _ _
        | ifStmt test body orelse =>
            simp only [compileStmtC] at h
            obtain ⟨c1, h1, h⟩ := except_bind_eq_ok h
            obtain ⟨c2, h2, h⟩ := except_bind_eq_ok h
            have hOK2 := ihSL _ body c2 h2
              (stOK_emit (ihE c test c1 h1 hOK) _ _)
            split at h
            · simp only [Except.ok.injEq] at h
              subst h
              exact stOK_of_consts_eq (changeOperand_consts _ _ _) hOK2
            · obtain ⟨c3, h3, h⟩ := except_bind_eq_ok h
              simp only [Except.ok.injEq] at h
              subst h
              have hOK3 := ihSL _ orelse c3 h3
                (stOK_of_consts_eq (changeOperand_consts _ _ _)
                  (stOK_emit hOK2 _ _))
              exact stOK_of_consts_eq (changeOperand_consts _ _ _) hOK3
        | whileStmt test body =>
            simp only [compileStmtC] at h
            obtain ⟨c1, h1, h⟩ := except_bind_eq_ok h
            obtain ⟨c2, h2, h⟩ := except_bind_eq_ok h
            simp only [Except.ok.injEq] at h
            subst h
            have hOKl :
                stOK { c with
                  loopStack := c.loopStack ++ [c.instructions.length] } :=
              stOK_of_consts_eq rfl hOK
            have hOKc1 := ihE
              { c with loopStack := c.loopStack ++ [c.instructions.length] }
              test c1 h1 hOKl
            have hOK2 := ihSL _ body c2 h2
              (stOK_emit hOKc1 OpCode.popJumpIfFalse 0)
            have hOK3 := stOK_emit hOK2 OpCode.jumpAbsolute
              c.instructions.length
            have hOK4 := stOK_of_consts_eq
              (changeOperand_consts
                (emit c2 .jumpAbsolute c.instructions.length)
                c1.instructions.length
                (emit c2 .jumpAbsolute
                  c.instructions.length).instructions.length)
              hOK3
            exact stOK_of_consts_eq rfl hOK4
        | forStmt target iter body =>
            simp only [compileStmtC] at h
            obtain ⟨c1, h1, h⟩ := except_bind_eq_ok h
            have hOK1 := ihE c iter c1 h1 hOK
            cases target with
            | name id =>
                obtain ⟨cs, hsn, h⟩ := except_bind_eq_ok h
                obtain ⟨c2, h2, h⟩ := except_bind_eq_ok h
                simp only [Except.ok.injEq] at h
                subst h
                simp only [Except.ok.injEq] at hsn
                have hOKcs : stOK cs := by
                  rw [← hsn]
                  refine stOK_of_consts_eq (emitStoreName_consts _ id) ?_
                  refine stOK_of_consts_eq (emit_consts _ _ _) ?_
                  exact stOK_of_consts_eq rfl (stOK_emit hOK1 OpCode.getIter 0)
                have hOK2 := ihSL cs body c2 h2 hOKcs
                have hOK3 := stOK_emit hOK2 OpCode.jumpAbsolute
                  (emit c1 OpCode.getIter 0).instructions.length
                have hOK4 := stOK_of_consts_eq
                  (changeOperand_consts
                    (emit c2 OpCode.jumpAbsolute
                      (emit c1 OpCode.getIter 0).instructions.length)
                    ({ emit c1 OpCode.getIter 0 with
                        loopStack := (emit c1 OpCode.getIter 0).loopStack ++
                          [(emit c1 OpCode.getIter 0).instructions.length]
                      }).instructions.length
                    (emit c2 OpCode.jumpAbsolute
                      (emit c1
                        OpCode.getIter 0).instructions.length).instructions.length)
                  hOK3
                exact stOK_of_consts_eq rfl hOK4
            | binOp a o b => exact absurd h (by simp [except_bind_error])
            | unOp o a => exact absurd h (by simp [except_bind_error])
            | boolOp o vs => exact absurd h (by simp [except_bind_error])
            | cmp a os bs => exact absurd h (by simp [except_bind_error])
            | call fn as => exact absurd h (by simp [except_bind_error])
            | subscr a b => exact absurd h (by simp [except_bind_error])
            | numInt n => exact absurd h (by simp [except_bind_error])
            | numFloat q => exact absurd h (by simp [except_bind_error])
            | strLit s => exact absurd h (by simp [except_bind_error])
            | nameConst ob => exact absurd h (by simp [except_bind_error])
            | listLit es => exact absurd h (by simp [except_bind_error])
            | dictLit ks vs => exact absurd h (by simp [except_bind_error])
        | funcDef fname args body line =>
            simp only [compileStmtC] at h
            obtain ⟨code, hcode, h⟩ := except_bind_eq_ok h
            rcases haddc : addConstant c (Value.func code fname) with ⟨c1, idx⟩
            rw [haddc] at h
            rcases haddn : addName (emit c1 .loadConst idx) fname with ⟨c2, ni⟩
            rw [haddn] at h
            simp only [Except.ok.injEq] at h
            subst h
            have hser : (serializeValue (Value.func code fname)).isSome := by
              have := ihF fname args body line (c.scopeDepth + 1) code hcode
              simp only [serializeValue]
              cases hsc : serializeCode code with
              | none => rw [hsc] at this; simp at this
              | some bs => simp
            have hOK1 : stOK c1 := by
              have hs := addConstant_stOK hOK hser
              rw [haddc] at hs
              exact hs
            have hOK2 : stOK c2 := by
              have hn := addName_consts (emit c1 .loadConst idx) fname
              rw [haddn] at hn
              exact stOK_of_consts_eq hn (stOK_emit hOK1 _ _)
            exact stOK_emit hOK2 _ _
        | returnStmt value =>
            cases value with
            | some e =>
                simp only [compileStmtC] at h
                obtain ⟨c1, h1, h⟩ := except_bind_eq_ok h
                simp only [Except.ok.injEq] at h
                subst h
                exact stOK_emit (ihE c e c1 h1 hOK) _ _
            | none =>
                simp only [compileStmtC] at h
                rcases heq : addConstant c Value.none with ⟨c1, i⟩
                rw [heq] at h
                rw [except_bind_ok] at h
                simp only [Except.ok.injEq] at h
                subst h
                have hs := addConstant_stOK_none hOK
                rw [heq] at hs
                exact stOK_emit (stOK_emit hs _ _) _ _
        | passStmt =>
            simp only [compileStmtC, Except.ok.injEq] at h
            subst h
            exact hOK
      · intro c vs c' h hOK
        cases vs with
        | nil =>
            simp only [compilePrintValuesC, Except.ok.injEq] at h
            subst h
            exact hOK
        | cons v vs =>
            cases vs with
            | nil =>
                simp only [compilePrintValuesC] at h
                obtain ⟨c1, h1, h⟩ := except_bind_eq_ok h
                simp only [Except.ok.injEq] at h
                subst h
                exact stOK_emit (ihE c v c1 h1 hOK) _ _
            | cons v2 vs =>
                simp only [compilePrintValuesC] at h
                obtain ⟨c1, h1, h⟩ := except_bind_eq_ok h
                rcases haddc : addConstant (emit c1 .printExpr 0)
                  (Value.str " ") with ⟨c3, i⟩
                rw [haddc] at h
                have hOK3 : stOK c3 := by
                  have hs := addConstant_stOK_str
                    (stOK_emit (ihE c v c1 h1 hOK) OpCode.printExpr 0) " "
                  rw [haddc] at hs
                  exact hs
                exact ihP _ (v2 :: vs) c' h
                  (stOK_emit (stOK_emit hOK3 _ _) _ _)
      · intro c sts c' h hOK
        cases sts with
        | nil =>
            simp only [compileStmtListC, Except.ok.injEq] at h
            subst h
            exact hOK
        | cons st rest =>
            simp only [compileStmtListC] at h
            obtain ⟨c1, h1, h⟩ := except_bind_eq_ok h
            exact ihSL c1 rest c' h (ihS c st c1 h1 hOK)
      · intro fname args body line depth code h
        simp only [compileFuncCodeC] at h
        obtain ⟨c2, h2, h⟩ := except_bind_eq_ok h
        rcases haddc : addConstant c2 Value.none with ⟨c3, i⟩
        rw [haddc] at h
        simp only [Except.ok.injEq] at h
        subst h
        have hOK0 : stOK { initComp with scopeDepth := depth } := by
          simp [stOK, initComp, serializeConsts]
        have hOK1 := stOK_foldl_addVarname hOK0 args
        have hOK2 := ihSL _ body c2 h2 hOK1
        have hOK3 : stOK c3 := by
          have hs := addConstant_stOK_none hOK2
          rw [haddc] at hs
          exact hs
        rw [serializeCode_isSome_iff]
        exact hOK3

/-- Specialization of the joint invariant: the expression compiler
preserves serializability of the constant pool. -/
theorem compileExpr_stOK (f : Nat) (c : CompState) (e : Expr)
    (c' : CompState) (h : compileExprC f c e = .ok c') (hOK : stOK c) :
    stOK c' :=
  (compile_stOK_all f).1 c e c' h hOK

/-- Specialization of the joint invariant: the statement compiler
preserves serializability of the constant pool. -/
theorem compileStmt_stOK (f : Nat) (c : CompState) (st : Stmt)
    (c' : CompState) (h : compileStmtC f c st = .ok c') (hOK : stOK c) :
    stOK c' :=
  (compile_stOK_all f).2.2.2.2.2.1 c st c' h hOK

/-- Specialization of the joint invariant: the statement-list loop
preserves serializability of the constant pool. -/
theorem compileStmtList_stOK (f : Nat) (c : CompState) (sts : List Stmt)
    (c' : CompState) (h : compileStmtListC f c sts = .ok c')
    (hOK : stOK c) : stOK c' :=
  (compile_stOK_all f).2.2.2.2.2.2.2.1 c sts c' h hOK

/-- The module-body loop preserves serializability of the constant
pool. -/
theorem compileModuleBody_stOK (f : Nat) : ∀ (c : CompState)
    (ss : List Stmt) (r : CompState × Bool),
    compileModuleBodyC f c ss = .ok r → stOK c → stOK r.1 := by
  intro c ss
  induction ss generalizing c with
  | nil =>
      intro r h hOK
      simp only [compileModuleBodyC, Except.ok.injEq] at h
      subst h
      exact hOK
  | cons st rest ih =>
      intro r h hOK
      cases rest with
      | nil =>
          cases st with
          | exprStmt e =>
              simp only [compileModuleBodyC] at h
              obtain ⟨c1, h1, h⟩ := except_bind_eq_ok h
              simp only [Except.ok.injEq] at h
              subst h
              exact stOK_emit (compileExpr_stOK f c e c1 h1 hOK) _ _
          | assign t v =>
              simp only [compileModuleBodyC] at h
              obtain ⟨c1, h1, h⟩ := except_bind_eq_ok h
              exact ih c1 r h (compileStmt_stOK f c _ c1 h1 hOK)
          | augAssign t o v =>
              simp only [compileModuleBodyC] at h
              obtain ⟨c1, h1, h⟩ := except_bind_eq_ok h
              exact ih c1 r h (compileStmt_stOK f c _ c1 h1 hOK)
          | printStmt vs =>
              simp only [compileModuleBodyC] at h
              obtain ⟨c1, h1, h⟩ := except_bind_eq_ok h
              exact ih c1 r h (compileStmt_stOK f c _ c1 h1 hOK)
          | ifStmt t b o =>
              simp only [compileModuleBodyC] at h
              obtain ⟨c1, h1, h⟩ := except_bind_eq_ok h
              exact ih c1 r h (compileStmt_stOK f c _ c1 h1 hOK)
          | whileStmt t b =>
              simp only [compileModuleBodyC] at h
              obtain ⟨c1, h1, h⟩ := except_bind_eq_ok h
              exact ih c1 r h (compileStmt_stOK f c _ c1 h1 hOK)
          | forStmt t i b =>
              simp only [compileModuleBodyC] at h
              obtain ⟨c1, h1, h⟩ := except_bind_eq_ok h
              exact ih c1 r h (compileStmt_stOK f c _ c1 h1 hOK)
          | funcDef n a b l =>
              simp only [compileModuleBodyC] at h
              obtain ⟨c1, h1, h⟩ := except_bind_eq_ok h
              exact ih c1 r h (compileStmt_stOK f c _ c1 h1 hOK)
          | returnStmt v =>
              simp only [compileModuleBodyC] at h
              obtain ⟨c1, h1, h⟩ := except_bind_eq_ok h
              exact ih c1 r h (compileStmt_stOK f c _ c1 h1 hOK)
          | passStmt =>
              simp only [compileModuleBodyC] at h
              obtain ⟨c1, h1, h⟩ := except_bind_eq_ok h
              exact ih c1 r h (compileStmt_stOK f c _ c1 h1 hOK)
      | cons st2 rest2 =>
          simp only [compileModuleBodyC] at h
          obtain ⟨c1, h1, h⟩ := except_bind_eq_ok h
          exact ih c1 r h (compileStmt_stOK f c _ c1 h1 hOK)

/-- Every code object produced by `compileModule` has a serializable
constant pool, hence serializes. -/
theorem compileModule_serializable (f : Nat) (body : List Stmt)
    (code : Code) (h : compileModule f body = .ok code) :
    (serializeCode code).isSome := by
  unfold compileModule at h
  obtain ⟨⟨c, returned⟩, h1, h⟩ := except_bind_eq_ok h
  have hOK : stOK c :=
    compileModuleBody_stOK f initComp body (c, returned) h1 stOK_initComp
  simp only [Except.ok.injEq] at h
  subst h
  rw [serializeCode_isSome_iff]
  cases returned with
  | true => simpa using hOK
  | false =>
      simp only [Bool.false_eq_true, if_false]
      rcases haddc : addConstant c Value.none with ⟨c3, i⟩
      simp only [haddc]
      have hs := addConstant_stOK_none hOK
      rw [haddc] at hs
      exact stOK_emit (stOK_emit hs _ _) _ _

/-- A produced (`some`) run result is final: more fuel yields the same
result.  This is the fueled form of the determinism of the dispatch
loop. -/
theorem runFuel_mono : ∀ (n m : Nat) (s : VMState)
    (r : Except String (Value × String)), n ≤ m →
    runFuel s n = some r → runFuel s m = some r := by
  intro n
  induction n with
  | zero =>
      intro m s r _ h
      simp [runFuel] at h
  | succ n ih =>
      intro m s r hle h
      cases m with
      | zero => exact absurd hle (by omega)
      | succ m =>
          rw [runFuel] at h ⊢
          cases hs : step s with
          | done v out => rw [hs] at h; exact h
          | err e => rw [hs] at h; exact h
          | next s2 =>
              rw [hs] at h
              exact ih m s2 r (by omega) h

/-- C1: every code object produced by compiling a program serializes,
and deserializing the resulting bytes yields a structurally equal code
object (instructions, constant pool, name table and local-names table
included, by structural equality of `Code`). -/
theorem claim_C1_roundtrip (f : Nat) (body : List Stmt) (code : Code)
    (h : compileModule f body = .ok code) :
    ∃ bs, serializeCode code = some bs ∧ deserializeCode bs = some code := by
  have hs := compileModule_serializable f body code h
  obtain ⟨bs, hbs⟩ := Option.isSome_iff_exists.mp hs
  exact ⟨bs, hbs, deserialize_serialize code bs hbs⟩

/-- Witness for C1 at the two-statement module `x = 42; x`. -/
theorem claim_C1_roundtrip_witness :
    ∃ code, compileModule 100 [Stmt.assign (Expr.name "x") (Expr.numInt 42),
      Stmt.exprStmt (Expr.name "x")] = .ok code ∧
      ∃ bs, serializeCode code = some bs ∧ deserializeCode bs = some code := by
  obtain ⟨code, hcode⟩ :
      ∃ code, compileModule 100 [Stmt.assign (Expr.name "x")
        (Expr.numInt 42), Stmt.exprStmt (Expr.name "x")] = .ok code :=
    ⟨_, rfl⟩
  exact ⟨code, hcode, claim_C1_roundtrip 100 _ code hcode⟩

/-- C2: the dispatch loop is deterministic — any two settled (`some`)
run results of the same code object agree, whatever the fuel bounds,
in both the result value and the accumulated stdout bytes. -/
theorem claim_C2_determinism (code : Code) (n₁ n₂ : Nat)
    (r₁ r₂ : Except String (Value × String))
    (h₁ : runVM code n₁ = some r₁) (h₂ : runVM code n₂ = some r₂) :
    r₁ = r₂ := by
  rcases Nat.le_total n₁ n₂ with hle | hle
  · have h₁m := runFuel_mono n₁ n₂ (initState code) r₁ hle h₁
    rw [runVM] at h₂
    rw [h₁m] at h₂
    exact Option.some.inj h₂
  · have h₂m := runFuel_mono n₂ n₁ (initState code) r₂ hle h₂
    rw [runVM] at h₁
    rw [h₂m] at h₁
    exact (Option.some.inj h₁).symm

/-- Witness for C2 on a two-instruction code object with fuels 3 and 5. -/
theorem claim_C2_determinism_witness :
    (Except.ok ((Value.int 7 : Value), "") : Except String (Value × String)) =
      .ok (Value.int 7, "") :=
  claim_C2_determinism
    (Code.mk [⟨.loadConst, 0⟩, ⟨.returnValue, 0⟩] [Value.int 7] [] [] 0
      "<module>" "<module>" 1)
    3 5 (.ok (Value.int 7, "")) (.ok (Value.int 7, "")) rfl rfl

/-- C3: a multi-value `print` writes the renderings separated by single
spaces with one trailing newline, and a bare `print` writes exactly one
newline — but a string value is rendered WITHOUT surrounding double
quotes (`PyString.String` returns the bare contents), so the quoting
part of the claim does not hold of the code. -/
theorem claim_C3_print_rendering :
    (∃ code, compileModule 100
        [Stmt.printStmt [Expr.numInt 1, Expr.numInt 2, Expr.numInt 3]] =
        .ok code ∧
      runVM code 100 = some (.ok (Value.none, "1 2 3\n"))) ∧
    (∃ code, compileModule 100 [Stmt.printStmt []] = .ok code ∧
      runVM code 100 = some (.ok (Value.none, "\n"))) ∧
    (∃ code, compileModule 100 [Stmt.printStmt [Expr.strLit "hi"]] =
        .ok code ∧
      runVM code 100 = some (.ok (Value.none, "hi\n"))) ∧
    render (Value.str "hi") ≠ "\x22hi\x22" :=
  ⟨⟨_, rfl, rfl⟩, ⟨_, rfl, rfl⟩, ⟨_, rfl, rfl⟩, by decide⟩

/-- C4 (amended): `==` is structural equality per variant with NO
int/float promotion — an int and a float always compare unequal — and
the VM pushes exactly `pyEqual` for `==` and its negation for `!=`. -/
theorem claim_C4_structural_equality :
    (∀ a b : Int, pyEqual (Value.int a) (Value.int b) = (a == b)) ∧
    (∀ p q : Rat, pyEqual (Value.float p) (Value.float q) = (p == q)) ∧
    (∀ s t : String, pyEqual (Value.str s) (Value.str t) = (s == t)) ∧
    (∀ a b : Bool, pyEqual (Value.bool a) (Value.bool b) = (a == b)) ∧
    pyEqual Value.none Value.none = true ∧
    (∀ (a : Int) (q : Rat), pyEqual (Value.int a) (Value.float q) = false) ∧
    (∀ (a : Int) (q : Rat), pyEqual (Value.float q) (Value.int a) = false) ∧
    (∀ (l r : Value) (st : List Value) (g : List (String × Value)),
      step (oneInstrState .compareEq 0 [] [] (r :: l :: st) g) =
        .next { frames := [{ code := .mk [⟨.compareEq, 0⟩] [] [] [] 0
                               "<test>" "<test>" 1,
                             ip := 1, stack := Value.bool (pyEqual l r) :: st,
                             locals := [] }],
                globals := g, output := "" }) ∧
    (∀ (l r : Value) (st : List Value) (g : List (String × Value)),
      step (oneInstrState .compareNe 0 [] [] (r :: l :: st) g) =
        .next { frames := [{ code := .mk [⟨.compareNe, 0⟩] [] [] [] 0
                               "<test>" "<test>" 1,
                             ip := 1,
                             stack := Value.bool (!pyEqual l r) :: st,
                             locals := [] }],
                globals := g, output := "" }) :=
  ⟨fun _ _ => rfl, fun _ _ => rfl, fun _ _ => rfl, fun _ _ => rfl, rfl,
   fun _ _ => rfl, fun _ _ => rfl,
   fun _ _ _ _ => rfl, fun _ _ _ _ => rfl⟩

/-- Counterexample to C4 as stated: the integer 1 and the float 1
promote to the same number, yet `1 == 1.0` evaluates to false, both in
`pyEqual` and through the compiled pipeline. -/
theorem claim_C4_counterexample :
    pyEqual (Value.int 1) (Value.float 1) = false ∧
    (∃ code, compileModule 100
        [Stmt.exprStmt (Expr.cmp (Expr.numInt 1) ["=="] [Expr.numFloat 1])] =
        .ok code ∧
      runVM code 100 = some (.ok (Value.bool false, ""))) :=
  ⟨rfl, _, rfl, rfl⟩

/-- C6: integer `/` is truncating integer division and `%` is the
host two-argument modulo, both staying integer; division and modulo by
integer zero are errors; `%` with any non-integer operand is an
unsupported-operands error; any float operand to `/` gives
floating-point division. -/
theorem claim_C6_division_modulo :
    (∀ a b : Int, b ≠ 0 →
      binaryOpFn (Value.int a) (Value.int b) "/" = .ok (.int (a.tdiv b)) ∧
      binaryOpFn (Value.int a) (Value.int b) "%" = .ok (.int (a.tmod b))) ∧
    (∀ a : Int,
      binaryOpFn (Value.int a) (Value.int 0) "/" =
        .error "division by zero" ∧
      binaryOpFn (Value.int a) (Value.int 0) "%" =
        .error "integer division or modulo by zero") ∧
    (∀ l r : Value,
      (match l, r with
       | .int _, .int _ => False
       | _, _ => True) →
      binaryOpFn l r "%" = .error (unsupportedOperands "%" l r)) ∧
    (∀ (a : Int) (q : Rat), q ≠ 0 →
      binaryOpFn (Value.int a) (Value.float q) "/" =
        .ok (.float ((a : Rat) / q))) ∧
    (∀ (q : Rat) (a : Int), a ≠ 0 →
      binaryOpFn (Value.float q) (Value.int a) "/" =
        .ok (.float (q / (a : Rat)))) ∧
    (∀ p q : Rat, q ≠ 0 →
      binaryOpFn (Value.float p) (Value.float q) "/" =
        .ok (.float (p / q))) := by
  refine ⟨?_, ?_, ?_, ?_, ?_, ?_⟩
  · intro a b hb
    constructor <;> (simp [binaryOpFn]; exact hb)
  · intro a
    constructor <;> simp [binaryOpFn]
  · intro l r h
    cases l <;> cases r <;> simp_all [binaryOpFn]
  · intro a q hq
    simp [binaryOpFn]
    exact hq
  · intro q a hq
    simp [binaryOpFn]
    exact_mod_cast hq
  · intro p q hq
    simp [binaryOpFn]
    exact hq

/-- Witness for C6 at `7 / 2`, `7 % 2` and float divisions by `1/2`. -/
theorem claim_C6_division_modulo_witness :
    (binaryOpFn (Value.int 7) (Value.int 2) "/" = .ok (.int ((7 : Int).tdiv 2)) ∧
     binaryOpFn (Value.int 7) (Value.int 2) "%" = .ok (.int ((7 : Int).tmod 2))) ∧
    binaryOpFn (Value.int 7) (Value.float (1 / 2)) "/" =
      .ok (.float (((7 : Int) : Rat) / (1 / 2))) ∧
    binaryOpFn (Value.float (1 / 2)) (Value.int 2) "/" =
      .ok (.float ((1 / 2 : Rat) / ((2 : Int) : Rat))) ∧
    binaryOpFn (Value.float 1) (Value.float (1 / 2)) "/" =
      .ok (.float ((1 : Rat) / (1 / 2))) ∧
    binaryOpFn (Value.str "s") (Value.int 1) "%" =
      .error (unsupportedOperands "%" (Value.str "s") (Value.int 1)) :=
  ⟨claim_C6_division_modulo.1 7 2 (by norm_num),
   claim_C6_division_modulo.2.2.2.1 7 (1 / 2) (by norm_num),
   claim_C6_division_modulo.2.2.2.2.1 (1 / 2) 2 (by norm_num),
   claim_C6_division_modulo.2.2.2.2.2 1 (1 / 2) (by norm_num),
   claim_C6_division_modulo.2.2.1 (Value.str "s") (Value.int 1) trivial⟩

/-- `emit` appends exactly one instruction. -/
theorem emit_instructions (c : CompState) (op : OpCode) (arg : Nat) :
    (emit c op arg).instructions = c.instructions ++ [⟨op, arg⟩] := rfl

/-- `addConstant` never touches the instruction list. -/
theorem addConstant_instructions (c : CompState) (v : Value) :
    (addConstant c v).1.instructions = c.instructions := by
  unfold addConstant
  split <;> rfl

/-- `addName` never touches the instruction list. -/
theorem addName_instructions (c : CompState) (n : String) :
    (addName c n).1.instructions = c.instructions := by
  unfold addName
  split <;> rfl

/-- `addVarname` never touches the instruction list. -/
theorem addVarname_instructions (c : CompState) (n : String) :
    (addVarname c n).1.instructions = c.instructions := by
  unfold addVarname
  split <;> rfl

/-- `setArg` preserves the length. -/
theorem setArg_length : ∀ (l : List Instr) (p a : Nat),
    (setArg l p a).length = l.length
  | [], _, _ => rfl
  | _ :: t, 0, _ => by simp [setArg]
  | _ :: t, n + 1, a => by simp [setArg, setArg_length t n a]

/-- `setArg` at or past a prefix leaves the prefix untouched. -/
theorem setArg_append_ge : ∀ (l1 l2 : List Instr) (p a : Nat),
    l1.length ≤ p →
    setArg (l1 ++ l2) p a = l1 ++ setArg l2 (p - l1.length) a
  | [], l2, p, a, _ => by simp
  | i :: t, l2, 0, a, hp => by simp at hp
  | i :: t, l2, p + 1, a, hp => by
      simp only [List.cons_append, setArg, List.append_eq]
      rw [setArg_append_ge t l2 p a (by simpa using hp)]
      have harith : p + 1 - (i :: t).length = p - t.length := by
        simp only [List.length_cons]
        omega
      rw [harith]

/-- Extension of instruction lists composes. -/
theorem instrExt_trans {a b c : List Instr} (h1 : ∃ tl, b = a ++ tl)
    (h2 : ∃ tl, c = b ++ tl) : ∃ tl, c = a ++ tl := by
  obtain ⟨t1, h1⟩ := h1
  obtain ⟨t2, h2⟩ := h2
  exact ⟨t1 ++ t2, by rw [h2, h1, List.append_assoc]⟩

/-- `changeOperand` at or past a prefix keeps the prefix. -/
theorem changeOperand_ext {c : CompState} {base : List Instr}
    {pos a : Nat} (hext : ∃ tl, c.instructions = base ++ tl)
    (hp : base.length ≤ pos) :
    ∃ tl, (changeOperand c pos a).instructions = base ++ tl := by
  obtain ⟨tl, htl⟩ := hext
  refine ⟨setArg tl (pos - base.length) a, ?_⟩
  show setArg c.instructions pos a = _
  rw [htl, setArg_append_ge base tl pos a hp]

/-- The back-patch loop of `compileBoolOp` keeps any prefix below all
patched positions. -/
theorem foldl_changeOperand_ext : ∀ (ps : List Nat) (c : CompState)
    (base : List Instr), (∃ tl, c.instructions = base ++ tl) →
    (∀ p ∈ ps, base.length ≤ p) →
    ∃ tl, (ps.foldl
      (fun c pos => changeOperand c pos c.instructions.length)
      c).instructions = base ++ tl
  | [], _, _, hext, _ => hext
  | p :: ps, c, base, hext, hps => by
      simp only [List.foldl_cons]
      exact foldl_changeOperand_ext ps _ base
        (changeOperand_ext hext (hps p (by simp)))
        (fun q hq => hps q (by simp [hq]))

/-- The expression-compiler family only appends instructions: the
input instruction list is a prefix of the output (back-patching only
ever touches positions recorded at or after the input length, which
`compileBoolRestC`\x27s second component bounds from below).  Joint, by
induction on the fuel. -/
theorem compileExpr_extend : ∀ (f : Nat),
    (∀ c e c', compileExprC f c e = .ok c' →
      ∃ tl, c'.instructions = c.instructions ++ tl) ∧
    (∀ c es c', compileExprListC f c es = .ok c' →
      ∃ tl, c'.instructions = c.instructions ++ tl) ∧
    (∀ c ks vs c', compileDictItemsC f c ks vs = .ok c' →
      ∃ tl, c'.instructions = c.instructions ++ tl) ∧
    (∀ c ops rs c', compileCompareRestC f c ops rs = .ok c' →
      ∃ tl, c'.instructions = c.instructions ++ tl) ∧
    (∀ c op vs r, compileBoolRestC f c op vs = .ok r →
      (∃ tl, r.1.instructions = c.instructions ++ tl) ∧
      ∀ p ∈ r.2, c.instructions.length ≤ p) := by
  intro f
  induction f with
  | zero =>
      refine ⟨?_, ?_, ?_, ?_, ?_⟩ <;> intros <;>
        simp_all [compileExprC, compileExprListC, compileDictItemsC,
          compileCompareRestC, compileBoolRestC]
  | succ f ih =>
      obtain ⟨ihE, ihL, ihD, ihC, ihB⟩ := ih
      refine ⟨?_, ?_, ?_, ?_, ?_⟩
      · intro c e c' h
        cases e with
        | binOp l op r =>
            simp only [compileExprC] at h
            obtain ⟨c1, h1, h⟩ := except_bind_eq_ok h
            obtain ⟨c2, h2, h⟩ := except_bind_eq_ok h
            have he12 := instrExt_trans (ihE c l c1 h1) (ihE c1 r c2 h2)
            repeat' split at h
            all_goals first
              | (simp only [Except.ok.injEq] at h; subst h;
                 exact instrExt_trans he12 ⟨_, rfl⟩)
              | exact absurd h (by simp)
        | unOp op e =>
            simp only [compileExprC] at h
            obtain ⟨c1, h1, h⟩ := except_bind_eq_ok h
            have he1 := ihE c e c1 h1
            repeat' split at h
            all_goals first
              | (simp only [Except.ok.injEq] at h; subst h;
                 exact instrExt_trans he1 ⟨_, rfl⟩)
              | exact absurd h (by simp)
        | boolOp op values =>
            cases values with
            | nil =>
                simp only [compileExprC] at h
                exact absurd h (by simp)
            | cons v₀ vs =>
                cases vs with
                | nil =>
                    simp only [compileExprC] at h
                    exact absurd h (by simp)
                | cons v₁ vrest =>
                    simp only [compileExprC] at h
                    obtain ⟨c1, h1, h⟩ := except_bind_eq_ok h
                    obtain ⟨pr, h2, h⟩ := except_bind_eq_ok h
                    obtain ⟨c5, ps⟩ := pr
                    simp only [Except.ok.injEq] at h
                    subst h
                    have he1 := ihE c v₀ c1 h1
                    obtain ⟨heB, hpB⟩ := ihB c1 op (v₁ :: vrest) (c5, ps) h2
                    obtain ⟨t1, ht1⟩ := he1
                    refine foldl_changeOperand_ext ps c5 c.instructions
                      (instrExt_trans ⟨t1, ht1⟩ heB) ?_
                    intro p hp
                    refine le_trans ?_ (hpB p hp)
                    rw [ht1]
                    simp
        | cmp left ops rights =>
            simp only [compileExprC] at h
            obtain ⟨c1, h1, h⟩ := except_bind_eq_ok h
            exact instrExt_trans (ihE c left c1 h1)
              (ihC c1 ops rights c' h)
        | call fn args =>
            simp only [compileExprC] at h
            obtain ⟨c1, h1, h⟩ := except_bind_eq_ok h
            obtain ⟨c2, h2, h⟩ := except_bind_eq_ok h
            simp only [Except.ok.injEq] at h
            subst h
            exact instrExt_trans
              (instrExt_trans (ihE c fn c1 h1) (ihL c1 args c2 h2))
              ⟨_, rfl⟩
        | subscr v slice =>
            simp only [compileExprC] at h
            obtain ⟨c1, h1, h⟩ := except_bind_eq_ok h
            obtain ⟨c2, h2, h⟩ := except_bind_eq_ok h
            simp only [Except.ok.injEq] at h
            subst h
            exact instrExt_trans
              (instrExt_trans (ihE c v c1 h1) (ihE c1 slice c2 h2))
              ⟨_, rfl⟩
        | name id =>
            simp only [compileExprC] at h
            by_cases hdepth : c.scopeDepth = 0
            · rw [if_pos hdepth] at h
              rcases heq : addName c id with ⟨c1, i⟩
              rw [heq] at h
              simp only [Except.ok.injEq] at h
              subst h
              have hni : c1.instructions = c.instructions := by
                have hh := addName_instructions c id
                rw [heq] at hh
                exact hh
              exact ⟨_, by rw [emit_instructions, hni]⟩
            · rw [if_neg hdepth] at h
              cases hfind : c.varnames.findIdx? (fun w => w = id) with
              | some j =>
                  rw [hfind] at h
                  rcases heq : addVarname c id with ⟨c1, i⟩
                  rw [heq] at h
                  simp only [Except.ok.injEq] at h
                  subst h
                  have hni : c1.instructions = c.instructions := by
                    have hh := addVarname_instructions c id
                    rw [heq] at hh
                    exact hh
                  exact ⟨_, by rw [emit_instructions, hni]⟩
              | none =>
                  rw [hfind] at h
                  rcases heq : addName c id with ⟨c1, i⟩
                  rw [heq] at h
                  simp only [Except.ok.injEq] at h
                  subst h
                  have hni : c1.instructions = c.instructions := by
                    have hh := addName_instructions c id
                    rw [heq] at hh
                    exact hh
                  exact ⟨_, by rw [emit_instructions, hni]⟩
        | numInt n =>
            simp only [compileExprC] at h
            rcases heq : addConstant c (Value.int n) with ⟨c1, i⟩
            rw [heq] at h
            simp only [Except.ok.injEq] at h
            subst h
            have hni : c1.instructions = c.instructions := by
              have hh := addConstant_instructions c (Value.int n)
              rw [heq] at hh
              exact hh
            exact ⟨_, by rw [emit_instructions, hni]⟩
        | numFloat q =>
            simp only [compileExprC] at h
            rcases heq : addConstant c (Value.float q) with ⟨c1, i⟩
            rw [heq] at h
            simp only [Except.ok.injEq] at h
            subst h
            have hni : c1.instructions = c.instructions := by
              have hh := addConstant_instructions c (Value.float q)
              rw [heq] at hh
              exact hh
            exact ⟨_, by rw [emit_instructions, hni]⟩
        | strLit s =>
            simp only [compileExprC] at h
            rcases heq : addConstant c (Value.str s) with ⟨c1, i⟩
            rw [heq] at h
            simp only [Except.ok.injEq] at h
            subst h
            have hni : c1.instructions = c.instructions := by
              have hh := addConstant_instructions c (Value.str s)
              rw [heq] at hh
              exact hh
            exact ⟨_, by rw [emit_instructions, hni]⟩
        | nameConst ob =>
            cases ob with
            | some b =>
                simp only [compileExprC] at h
                rcases heq : addConstant c (Value.bool b) with ⟨c1, i⟩
                rw [heq] at h
                simp only [Except.ok.injEq] at h
                subst h
                have hni : c1.instructions = c.instructions := by
                  have hh := addConstant_instructions c (Value.bool b)
                  rw [heq] at hh
                  exact hh
                exact ⟨_, by rw [emit_instructions, hni]⟩
            | none =>
                simp only [compileExprC] at h
                rcases heq : addConstant c Value.none with ⟨c1, i⟩
                rw [heq] at h
                simp only [Except.ok.injEq] at h
                subst h
                have hni : c1.instructions = c.instructions := by
                  have hh := addConstant_instructions c Value.none
                  rw [heq] at hh
                  exact hh
                exact ⟨_, by rw [emit_instructions, hni]⟩
        | listLit elts =>
            simp only [compileExprC] at h
            obtain ⟨c1, h1, h⟩ := except_bind_eq_ok h
            simp only [Except.ok.injEq] at h
            subst h
            exact instrExt_trans (ihL c elts c1 h1) ⟨_, rfl⟩
        | dictLit keys values =>
            simp only [compileExprC] at h
            obtain ⟨c1, h1, h⟩ := except_bind_eq_ok h
            simp only [Except.ok.injEq] at h
            subst h
            exact instrExt_trans (ihD c keys values c1 h1) ⟨_, rfl⟩
      · intro c es c' h
        cases es with
        | nil =>
            simp only [compileExprListC, Except.ok.injEq] at h
            subst h
            exact ⟨[], by simp⟩
        | cons e es =>
            simp only [compileExprListC] at h
            obtain ⟨c1, h1, h⟩ := except_bind_eq_ok h
            exact instrExt_trans (ihE c e c1 h1) (ihL c1 es c' h)
      · intro c ks vs c' h
        cases ks with
        | nil =>
            simp only [compileDictItemsC, Except.ok.injEq] at h
            subst h
            exact ⟨[], by simp⟩
        | cons k ks =>
            cases vs with
            | nil =>
                simp only [compileDictItemsC] at h
                exact absurd h (by simp)
            | cons v vs =>
                simp only [compileDictItemsC] at h
                obtain ⟨c1, h1, h⟩ := except_bind_eq_ok h
                obtain ⟨c2, h2, h⟩ := except_bind_eq_ok h
                exact instrExt_trans
                  (instrExt_trans (ihE c k c1 h1) (ihE c1 v c2 h2))
                  (ihD c2 ks vs c' h)
      · intro c ops rs c' h
        cases ops with
        | nil =>
            simp only [compileCompareRestC, Except.ok.injEq] at h
            subst h
            exact ⟨[], by simp⟩
        | cons op ops =>
            cases rs with
            | nil =>
                simp only [compileCompareRestC] at h
                exact absurd h (by simp)
            | cons r rs =>
                simp only [compileCompareRestC] at h
                obtain ⟨c1, h1, h⟩ := except_bind_eq_ok h
                have he1 := ihE c r c1 h1
                repeat' split at h
                all_goals first
                  | (rw [except_bind_ok] at h;
                     exact instrExt_trans
                       (instrExt_trans he1 ⟨_, rfl⟩)
                       (ihC _ ops rs c' h))
                  | (rw [except_bind_error] at h; exact absurd h (by simp))
      · intro c op vs r h
        cases vs with
        | nil =>
            simp only [compileBoolRestC, Except.ok.injEq] at h
            subst h
            exact ⟨⟨[], by simp⟩, by simp⟩
        | cons v vs =>
            simp only [compileBoolRestC] at h
            obtain ⟨c4, h1, h⟩ := except_bind_eq_ok h
            obtain ⟨pr, h2, h⟩ := except_bind_eq_ok h
            obtain ⟨c5, ps⟩ := pr
            simp only [Except.ok.injEq] at h
            subst h
            have hs3 : ∃ tl, (emit (if op = "and"
                then emit (emit c .dupTop 0) .popJumpIfFalse 0
                else emit (emit c .dupTop 0) .popJumpIfTrue 0)
                .popTop 0).instructions = c.instructions ++ tl := by
              split
              · exact ⟨[{ op := .dupTop, arg := 0 },
                  { op := .popJumpIfFalse, arg := 0 },
                  { op := .popTop, arg := 0 }], by
                    simp [emit_instructions]⟩
              · exact ⟨[{ op := .dupTop, arg := 0 },
                  { op := .popJumpIfTrue, arg := 0 },
                  { op := .popTop, arg := 0 }], by
                    simp [emit_instructions]⟩
            have heA := ihE _ v c4 h1
            obtain ⟨heB, hpB⟩ := ihB c4 op vs (c5, ps) h2
            have hc4 : ∃ tl, c4.instructions = c.instructions ++ tl :=
              instrExt_trans hs3 heA
            obtain ⟨t4, ht4⟩ := hc4
            constructor
            · exact instrExt_trans ⟨t4, ht4⟩ heB
            · intro p hp
              rcases List.mem_cons.mp hp with hp | hp
              · subst hp
                simp [emit_instructions]
              · refine le_trans ?_ (hpB p hp)
                rw [ht4]
                simp

/-- Shape of the code compiled for `A and B`: A\x27s code, then
`DUP_TOP`, a `POP_JUMP_IF_FALSE` patched to the position just past the
whole expression, `POP_TOP`, then B\x27s code (`tl`).  Mirrors
`compileBoolOp` (src/pkg/compiler/compiler.go lines 490-522). -/
theorem compileAnd_shape (f : Nat) (c : CompState) (A B : Expr)
    (c' : CompState)
    (h : compileExprC (f + 3) c (Expr.boolOp "and" [A, B]) = .ok c') :
    ∃ c1 cB tl,
      compileExprC (f + 2) c A = .ok c1 ∧
      compileExprC (f + 1)
        (emit (emit (emit c1 .dupTop 0) .popJumpIfFalse 0) .popTop 0) B
        = .ok cB ∧
      cB.instructions = c1.instructions ++
        { op := .dupTop, arg := 0 } ::
        { op := .popJumpIfFalse, arg := 0 } ::
        { op := .popTop, arg := 0 } :: tl ∧
      c'.instructions = c1.instructions ++
        { op := .dupTop, arg := 0 } ::
        { op := .popJumpIfFalse,
          arg := c1.instructions.length + 3 + tl.length } ::
        { op := .popTop, arg := 0 } :: tl := by
  simp only [compileExprC] at h
  obtain ⟨c1, h1, h⟩ := except_bind_eq_ok h
  obtain ⟨pr, h2, h⟩ := except_bind_eq_ok h
  obtain ⟨c5, ps⟩ := pr
  simp only [Except.ok.injEq] at h
  subst h
  simp only [compileBoolRestC] at h2
  rw [if_pos trivial] at h2
  obtain ⟨cB, hB, h2⟩ := except_bind_eq_ok h2
  simp only [compileBoolRestC, except_bind_ok, Except.ok.injEq,
    Prod.mk.injEq] at h2
  obtain ⟨hc5, hps⟩ := h2
  subst hc5
  subst hps
  obtain ⟨tl, htl⟩ := (compileExpr_extend (f + 1)).1 _ B cB hB
  have hcB : cB.instructions = c1.instructions ++
      { op := .dupTop, arg := 0 } ::
      { op := .popJumpIfFalse, arg := 0 } ::
      { op := .popTop, arg := 0 } :: tl := by
    rw [htl]
    simp [emit_instructions]
  have hlen : cB.instructions.length =
      c1.instructions.length + 3 + tl.length := by
    rw [hcB]
    simp only [List.length_append, List.length_cons]
    omega
  refine ⟨c1, cB, tl, h1, hB, hcB, ?_⟩
  show (changeOperand cB (emit c1 .dupTop 0).instructions.length
      cB.instructions.length).instructions = _
  have hpos : (emit c1 .dupTop 0).instructions.length =
      c1.instructions.length + 1 := by
    simp [emit_instructions]
  show setArg cB.instructions _ _ = _
  rw [hlen, hcB, hpos,
    setArg_append_ge c1.instructions _ _ _ (by omega)]
  have hsub : c1.instructions.length + 1 - c1.instructions.length = 1 := by
    omega
  rw [hsub]
  simp [setArg]

/-- Fetching the element that sits right after a known prefix. -/
theorem get_of_append_cons {Q : Type} {l : List Q} (pre : List Q) (x : Q)
    (suf : List Q) (hl : l = pre ++ x :: suf) (n : Nat)
    (hn : n = pre.length) (h : n < l.length) :
    l.get ⟨n, h⟩ = x := by
  subst hl
  subst hn
  rw [List.get_eq_getElem, List.getElem_append_right (Nat.le_refl _)]
  simp

/-- Step-level short-circuit of `and` (`OpDupTop` then
`OpPopJumpIfFalse`, vm.go lines 388-392): whenever the current frame
sits at the `DUP_TOP` of a compiled conjunction with ANY falsy value on
top of the stack, then after two dispatch rounds execution has jumped
just past the compiled right operand (the `POP_TOP` and the block
`tl`), whose instructions are never dispatched; the falsy value stays
on the stack as the expression\x27s result, and the globals and the
output are untouched. -/
theorem andSkip (s : VMState) (rest : List Frame) (fr : Frame)
    (pre tl post : List Instr) (v : Value) (stk : List Value)
    (hframes : s.frames = fr :: rest)
    (hinstr : fr.code.instructions = pre ++
      { op := .dupTop, arg := 0 } ::
      { op := .popJumpIfFalse, arg := pre.length + 3 + tl.length } ::
      { op := .popTop, arg := 0 } :: (tl ++ post))
    (hip : fr.ip = pre.length)
    (hstk : fr.stack = v :: stk)
    (hv : isTruthy v = false) (n : Nat) :
    runFuel s (n + 2) = runFuel (withFrame s rest
      { fr with ip := pre.length + 3 + tl.length, stack := v :: stk })
      n := by
  have hb1 : fr.ip < fr.code.instructions.length := by
    rw [hinstr, hip]
    simp only [List.length_append, List.length_cons]
    omega
  have hb2 : fr.ip + 1 < fr.code.instructions.length := by
    rw [hinstr, hip]
    simp only [List.length_append, List.length_cons]
    omega
  have hg1 : fr.code.instructions.get ⟨fr.ip, hb1⟩ =
      ({ op := .dupTop, arg := 0 } : Instr) :=
    get_of_append_cons pre _ _ hinstr fr.ip hip hb1
  have hg2 : fr.code.instructions.get ⟨fr.ip + 1, hb2⟩ =
      ({ op := .popJumpIfFalse,
         arg := pre.length + 3 + tl.length } : Instr) :=
    get_of_append_cons (pre ++ [{ op := .dupTop, arg := 0 }]) _
      ({ op := .popTop, arg := 0 } :: (tl ++ post))
      (by rw [hinstr]; simp) (fr.ip + 1) (by simp [hip]) hb2
  have hstep1 : step s = .next (withFrame s rest
      { fr with ip := fr.ip + 1, stack := v :: v :: stk }) := by
    simp only [step, hframes]
    rw [dif_pos hb1]
    rw [hg1]
    simp [withFrame, hstk]
  have hstep2 : step (withFrame s rest
      { fr with ip := fr.ip + 1, stack := v :: v :: stk }) =
      .next (withFrame s rest
        { fr with ip := pre.length + 3 + tl.length, stack := v :: stk })
      := by
    simp only [step, withFrame]
    rw [dif_pos hb2]
    rw [hg2]
    simp [hv]
  show runFuel s (n + 1 + 1) = _
  rw [runFuel, hstep1]
  show runFuel (withFrame s rest
    { fr with ip := fr.ip + 1, stack := v :: v :: stk }) (n + 1) = _
  rw [runFuel, hstep2]

/-- C7: short-circuit of `A and B`, for every expression `A` and `B`.
(i) Compiled shape: the code for `A and B` is A\x27s code, `DUP_TOP`, a
`POP_JUMP_IF_FALSE` whose target is the position just past the whole
expression, `POP_TOP`, then B\x27s code.  (ii) Step level, for ANY falsy
value `v` left by `A` and ANY compiled right operand `tl`
(side-effecting or erroneous alike): from the `DUP_TOP`, two dispatch
rounds land just past `tl` with `v` still on the stack as the
expression\x27s value, globals and output untouched — B\x27s instructions
are never dispatched, so no side effect of `B` occurs and no error of
`B` is observed.  (iii)-(v) End to end: for an arbitrary right-hand
name, `False and B` and `0 and B` run to the falsy left value with
empty stdout, while evaluating an undefined name alone does raise the
name error. -/
theorem claim_C7_short_circuit :
    (∀ (f : Nat) (c : CompState) (A B : Expr) (c' : CompState),
      compileExprC (f + 3) c (Expr.boolOp "and" [A, B]) = .ok c' →
      ∃ c1 cB tl,
        compileExprC (f + 2) c A = .ok c1 ∧
        compileExprC (f + 1)
          (emit (emit (emit c1 .dupTop 0) .popJumpIfFalse 0) .popTop 0)
          B = .ok cB ∧
        cB.instructions = c1.instructions ++
          { op := .dupTop, arg := 0 } ::
          { op := .popJumpIfFalse, arg := 0 } ::
          { op := .popTop, arg := 0 } :: tl ∧
        c'.instructions = c1.instructions ++
          { op := .dupTop, arg := 0 } ::
          { op := .popJumpIfFalse,
            arg := c1.instructions.length + 3 + tl.length } ::
          { op := .popTop, arg := 0 } :: tl) ∧
    (∀ (s : VMState) (rest : List Frame) (fr : Frame)
      (pre tl post : List Instr) (v : Value) (stk : List Value),
      s.frames = fr :: rest →
      fr.code.instructions = pre ++
        { op := .dupTop, arg := 0 } ::
        { op := .popJumpIfFalse, arg := pre.length + 3 + tl.length } ::
        { op := .popTop, arg := 0 } :: (tl ++ post) →
      fr.ip = pre.length →
      fr.stack = v :: stk →
      isTruthy v = false →
      ∀ n : Nat,
        runFuel s (n + 2) = runFuel (withFrame s rest
          { fr with ip := pre.length + 3 + tl.length,
                    stack := v :: stk }) n) ∧
    (∀ id : String,
      ∃ code, compileModule 100 [Stmt.exprStmt (Expr.boolOp "and"
          [Expr.nameConst (some false), Expr.name id])] = .ok code ∧
        runVM code 100 = some (.ok (Value.bool false, ""))) ∧
    (∀ id : String,
      ∃ code, compileModule 100 [Stmt.exprStmt (Expr.boolOp "and"
          [Expr.numInt 0, Expr.name id])] = .ok code ∧
        runVM code 100 = some (.ok (Value.int 0, ""))) ∧
    (∃ code, compileModule 100 [Stmt.exprStmt (Expr.name "nosuch")] =
        .ok code ∧
      runVM code 100 =
        some (.error "name \x27nosuch\x27 is not defined")) :=
  ⟨fun f c A B c' h => compileAnd_shape f c A B c' h,
   fun s rest fr pre tl post v stk h1 h2 h3 h4 h5 n =>
     andSkip s rest fr pre tl post v stk h1 h2 h3 h4 h5 n,
   fun _ => ⟨_, rfl, rfl⟩,
   fun _ => ⟨_, rfl, rfl⟩,
   ⟨_, rfl, rfl⟩⟩

/-- Witness for C7: the compiled shape applied at a concrete
conjunction, the two-step skip applied at a concrete falsy string
value with a concrete right-operand block, and an end-to-end run with
a concrete undefined right-hand name. -/
theorem claim_C7_short_circuit_witness :
    (∃ c', compileExprC 3 initComp (Expr.boolOp "and"
        [Expr.nameConst (some false), Expr.strLit "b"]) = .ok c' ∧
      ∃ c1 cB tl,
        compileExprC 2 initComp (Expr.nameConst (some false)) = .ok c1 ∧
        compileExprC 1
          (emit (emit (emit c1 .dupTop 0) .popJumpIfFalse 0) .popTop 0)
          (Expr.strLit "b") = .ok cB ∧
        cB.instructions = c1.instructions ++
          { op := .dupTop, arg := 0 } ::
          { op := .popJumpIfFalse, arg := 0 } ::
          { op := .popTop, arg := 0 } :: tl ∧
        c'.instructions = c1.instructions ++
          { op := .dupTop, arg := 0 } ::
          { op := .popJumpIfFalse,
            arg := c1.instructions.length + 3 + tl.length } ::
          { op := .popTop, arg := 0 } :: tl) ∧
    runFuel { frames := [{ code := Code.mk [{ op := .dupTop, arg := 0 }, { op := .popJumpIfFalse, arg := 4 }, { op := .popTop, arg := 0 }, { op := .loadGlobal, arg := 0 }, { op := .returnValue, arg := 0 }] [] [] [] 0 "w" "w" 1, ip := 0, stack := [Value.str ""], locals := [] }], globals := [], output := "" } 3 =
    runFuel { frames := [{ code := Code.mk [{ op := .dupTop, arg := 0 }, { op := .popJumpIfFalse, arg := 4 }, { op := .popTop, arg := 0 }, { op := .loadGlobal, arg := 0 }, { op := .returnValue, arg := 0 }] [] [] [] 0 "w" "w" 1, ip := 4, stack := [Value.str ""], locals := [] }], globals := [], output := "" } 1 ∧
    (∃ code, compileModule 100 [Stmt.exprStmt (Expr.boolOp "and"
        [Expr.nameConst (some false), Expr.name "boom"])] = .ok code ∧
      runVM code 100 = some (.ok (Value.bool false, ""))) := by
  refine ⟨?_, ?_, ?_⟩
  · obtain ⟨c', hc'⟩ : ∃ c', compileExprC 3 initComp (Expr.boolOp "and"
        [Expr.nameConst (some false), Expr.strLit "b"]) = .ok c' :=
      ⟨_, rfl⟩
    exact ⟨c', hc', claim_C7_short_circuit.1 0 initComp _ _ c' hc'⟩
  · exact claim_C7_short_circuit.2.1
      { frames := [{ code := Code.mk [{ op := .dupTop, arg := 0 }, { op := .popJumpIfFalse, arg := 4 }, { op := .popTop, arg := 0 }, { op := .loadGlobal, arg := 0 }, { op := .returnValue, arg := 0 }] [] [] [] 0 "w" "w" 1, ip := 0, stack := [Value.str ""], locals := [] }], globals := [], output := "" }
      []
      { code := Code.mk [{ op := .dupTop, arg := 0 }, { op := .popJumpIfFalse, arg := 4 }, { op := .popTop, arg := 0 }, { op := .loadGlobal, arg := 0 }, { op := .returnValue, arg := 0 }] [] [] [] 0 "w" "w" 1, ip := 0, stack := [Value.str ""], locals := [] }
      [] [{ op := .loadGlobal, arg := 0 }]
      [{ op := .returnValue, arg := 0 }] (Value.str "") []
      rfl rfl rfl rfl rfl 1
  · exact claim_C7_short_circuit.2.2.1 "boom"

/-- C9: `GET_ITER` leaves a list unchanged, explodes a string into the
list of its one-character strings in order, errors with the
not-iterable message on every other variant; `for i in 42:` therefore
fails with that error through the compiled pipeline. -/
theorem claim_C9_get_iter :
    (∀ (es st : List Value) (g : List (String × Value)),
      step (oneInstrState .getIter 0 [] [] (Value.list es :: st) g) =
        .next { frames := [{ code := .mk [⟨.getIter, 0⟩] [] [] [] 0
                               "<test>" "<test>" 1,
                             ip := 1, stack := Value.list es :: st,
                             locals := [] }],
                globals := g, output := "" }) ∧
    (∀ (cs : String) (st : List Value) (g : List (String × Value)),
      step (oneInstrState .getIter 0 [] [] (Value.str cs :: st) g) =
        .next { frames := [{ code := .mk [⟨.getIter, 0⟩] [] [] [] 0
                               "<test>" "<test>" 1,
                             ip := 1,
                             stack := Value.list (cs.toList.map
                               (fun c => Value.str (String.mk [c]))) :: st,
                             locals := [] }],
                globals := g, output := "" }) ∧
    (∀ (v : Value) (st : List Value) (g : List (String × Value)),
      (∀ es, v ≠ Value.list es) → (∀ cs, v ≠ Value.str cs) →
      step (oneInstrState .getIter 0 [] [] (v :: st) g) =
        .err ("OpGetIter: \x27" ++ typeName v ++
          "\x27 object is not iterable")) ∧
    (∃ code, compileModule 100
        [Stmt.forStmt (Expr.name "i") (Expr.numInt 42) [Stmt.passStmt]] =
        .ok code ∧
      runVM code 100 =
        some (.error "OpGetIter: \x27int\x27 object is not iterable")) := by
  refine ⟨fun _ _ _ => rfl, fun _ _ _ => rfl, ?_, ⟨_, rfl, rfl⟩⟩
  intro v st g hl hs
  cases v <;>
    first
      | exact (hl _ rfl).elim
      | exact (hs _ rfl).elim
      | rfl

/-- Witness for C9 on the non-iterable value 42. -/
theorem claim_C9_get_iter_witness :
    step (oneInstrState .getIter 0 [] [] (Value.int 42 :: []) []) =
      .err ("OpGetIter: \x27" ++ typeName (Value.int 42) ++
        "\x27 object is not iterable") :=
  claim_C9_get_iter.2.2.1 (Value.int 42) [] [] (by simp) (by simp)

/-- C10: in function scope a name reference compiles to `LOAD_FAST`
exactly when the name is already in the local-names table (a parameter
or a name stored by an earlier statement), and to `LOAD_GLOBAL`
otherwise — e.g. the body `y = x; x = 1` reads `x` through
`LOAD_GLOBAL` although `x` is assigned later — and at runtime
`LOAD_GLOBAL` reads the globals table, then the builtins, and errors
if the name is in neither. -/
theorem claim_C10_function_scope_names (f : Nat) :
    (∀ (c : CompState) (id : String) (j : Nat), c.scopeDepth ≠ 0 →
      c.varnames.findIdx? (fun w => w = id) = some j →
      compileExprC (f + 1) c (.name id) =
        .ok (emit (addVarname c id).1 .loadFast (addVarname c id).2)) ∧
    (∀ (c : CompState) (id : String), c.scopeDepth ≠ 0 →
      c.varnames.findIdx? (fun w => w = id) = Option.none →
      compileExprC (f + 1) c (.name id) =
        .ok (emit (addName c id).1 .loadGlobal (addName c id).2)) ∧
    (∃ code, compileFuncCodeC 100 "fn" []
        [Stmt.assign (Expr.name "y") (Expr.name "x"),
         Stmt.assign (Expr.name "x") (Expr.numInt 1)] 1 1 = .ok code ∧
      code.instructions.get? 0 = some ⟨.loadGlobal, 0⟩ ∧
      code.names = ["x"] ∧ code.varnames = ["y", "x"]) ∧
    (∃ code, compileFuncCodeC 100 "g" ["x"]
        [Stmt.returnStmt (some (Expr.name "x"))] 1 1 = .ok code ∧
      code.instructions.get? 0 = some ⟨.loadFast, 0⟩) ∧
    (∀ (nm : String) (g : List (String × Value)) (st : List Value)
        (v : Value), lookupStr g nm = some v →
      step (oneInstrState .loadGlobal 0 [] [nm] st g) =
        .next { frames := [{ code := .mk [⟨.loadGlobal, 0⟩] [] [nm] [] 0
                               "<test>" "<test>" 1,
                             ip := 1, stack := v :: st, locals := [] }],
                globals := g, output := "" }) ∧
    (∀ (nm : String) (g : List (String × Value)) (st : List Value),
      lookupStr g nm = Option.none → builtinsLookup nm = Option.none →
      step (oneInstrState .loadGlobal 0 [] [nm] st g) =
        .err ("global name \x27" ++ nm ++ "\x27 is not defined")) := by
  refine ⟨?_, ?_, ⟨_, rfl, rfl, rfl, rfl⟩, ⟨_, rfl, rfl⟩, ?_, ?_⟩
  · intro c id j hdepth hfind
    simp only [compileExprC]
    rw [if_neg hdepth, hfind]
  · intro c id hdepth hfind
    simp only [compileExprC]
    rw [if_neg hdepth, hfind]
  · intro nm g st v h
    simp [oneInstrState, step, withFrame, h, Code.instructions, Code.names,
      Code.consts]
  · intro nm g st h hb
    simp [oneInstrState, step, withFrame, h, hb, Code.instructions,
      Code.names, Code.consts]

/-- Witness for C10: a local name and a fresh name at depth 1, plus a
defined and an undefined global at runtime. -/
theorem claim_C10_function_scope_names_witness :
    compileExprC 100 depthOneLocal (.name "x") =
      .ok (emit (addVarname depthOneLocal "x").1 .loadFast
          (addVarname depthOneLocal "x").2) ∧
    compileExprC 100 depthOneEmpty (.name "x") =
      .ok (emit (addName depthOneEmpty "x").1
          .loadGlobal (addName depthOneEmpty "x").2) ∧
    step (oneInstrState .loadGlobal 0 [] ["a"] [] [("a", Value.int 3)]) =
      .next { frames := [{ code := .mk [⟨.loadGlobal, 0⟩] [] ["a"] [] 0
                             "<test>" "<test>" 1,
                           ip := 1, stack := [Value.int 3], locals := [] }],
              globals := [("a", Value.int 3)], output := "" } ∧
    step (oneInstrState .loadGlobal 0 [] ["zz"] [] []) =
      .err ("global name \x27zz\x27 is not defined") :=
  ⟨(claim_C10_function_scope_names 99).1 depthOneLocal "x" 0
     (by decide) rfl,
   (claim_C10_function_scope_names 99).2.1 depthOneEmpty "x"
     (by decide) rfl,
   (claim_C10_function_scope_names 99).2.2.2.2.1 "a" [("a", Value.int 3)]
     [] (Value.int 3) rfl,
   (claim_C10_function_scope_names 99).2.2.2.2.2 "zz" [] [] rfl rfl⟩

/-- C5: the module compiler emits `RETURN_VALUE` and no `POP_TOP` for
a final expression statement (its exact result is the compiled
expression followed by `RETURN_VALUE`, flagged as returned), compiles
any non-final expression statement to the expression followed by
`POP_TOP`, and the module `x = 42; y = x + 8; y` runs to the integer
50. -/
theorem claim_C5_last_expression_return (f : Nat) :
    (∀ (c : CompState) (e : Expr) (r : CompState × Bool),
      compileModuleBodyC f c [Stmt.exprStmt e] = .ok r →
      ∃ c1, compileExprC f c e = .ok c1 ∧
        r = (emit c1 .returnValue 0, true)) ∧
    (∀ (c : CompState) (e : Expr) (st2 : Stmt) (rest : List Stmt)
        (r : CompState × Bool),
      compileModuleBodyC (f + 1) c (Stmt.exprStmt e :: st2 :: rest) = .ok r →
      ∃ c1, compileExprC f c e = .ok c1 ∧
        compileModuleBodyC (f + 1) (emit c1 .popTop 0) (st2 :: rest) =
          .ok r) ∧
    (∃ code, compileModule 100
        [Stmt.assign (Expr.name "x") (Expr.numInt 42),
         Stmt.assign (Expr.name "y")
           (Expr.binOp (Expr.name "x") "+" (Expr.numInt 8)),
         Stmt.exprStmt (Expr.name "y")] = .ok code ∧
      runVM code 100 = some (.ok (Value.int 50, ""))) := by
  refine ⟨?_, ?_, ⟨_, rfl, rfl⟩⟩
  · intro c e r h
    simp only [compileModuleBodyC] at h
    obtain ⟨c1, h1, h⟩ := except_bind_eq_ok h
    simp only [Except.ok.injEq] at h
    exact ⟨c1, h1, h.symm⟩
  · intro c e st2 rest r h
    simp only [compileModuleBodyC] at h
    obtain ⟨cs, hs, h⟩ := except_bind_eq_ok h
    simp only [compileStmtC] at hs
    obtain ⟨c1, h1, hs⟩ := except_bind_eq_ok hs
    simp only [Except.ok.injEq] at hs
    subst hs
    exact ⟨c1, h1, h⟩

/-- Witness for C5 on the one-statement module `7` and on `7; pass`. -/
theorem claim_C5_last_expression_return_witness :
    (∃ r, compileModuleBodyC 100 initComp [Stmt.exprStmt (Expr.numInt 7)] =
        .ok r ∧
      ∃ c1, compileExprC 100 initComp (Expr.numInt 7) = .ok c1 ∧
        r = (emit c1 .returnValue 0, true)) ∧
    (∃ r, compileModuleBodyC 100 initComp
        [Stmt.exprStmt (Expr.numInt 7), Stmt.passStmt] = .ok r ∧
      ∃ c1, compileExprC 99 initComp (Expr.numInt 7) = .ok c1 ∧
        compileModuleBodyC 100 (emit c1 .popTop 0) [Stmt.passStmt] =
          .ok r) :=
  ⟨⟨_, rfl, (claim_C5_last_expression_return 100).1 initComp
      (Expr.numInt 7) _ rfl⟩,
   ⟨_, rfl, (claim_C5_last_expression_return 99).2.1 initComp
      (Expr.numInt 7) Stmt.passStmt [] _ rfl⟩⟩

theorem countTok_cons (t : Token) (ts : List Token) (tt : TokType) :
    countTok (t :: ts) tt =
      (if t.type = tt then 1 else 0) + countTok ts tt := by
  unfold countTok
  by_cases h : t.type = tt <;> simp [h] <;> omega

theorem consumeOne_stack (st : LexState) :
    (consumeOne st).indentStack = st.indentStack := by
  unfold consumeOne
  split <;> rfl

theorem consumeOne_pending (st : LexState) :
    (consumeOne st).pendingDedents = st.pendingDedents := by
  unfold consumeOne
  split <;> rfl

theorem readCharF_stack (st : LexState) :
    (readCharF st).2.indentStack = st.indentStack := by
  unfold readCharF
  split
  · rfl
  · exact consumeOne_stack st

theorem readCharF_pending (st : LexState) :
    (readCharF st).2.pendingDedents = st.pendingDedents := by
  unfold readCharF
  split
  · rfl
  · exact consumeOne_pending st

theorem skipWhitespaceGo_stack : ∀ (f : Nat) (st : LexState),
    (skipWhitespaceGo f st).indentStack = st.indentStack := by
  intro f
  induction f with
  | zero => intro st; rfl
  | succ f ih =>
      intro st
      rw [skipWhitespaceGo]
      split
      · split
        · rw [ih, consumeOne_stack]
        · rfl
      · rfl

theorem skipWhitespaceGo_pending : ∀ (f : Nat) (st : LexState),
    (skipWhitespaceGo f st).pendingDedents = st.pendingDedents := by
  intro f
  induction f with
  | zero => intro st; rfl
  | succ f ih =>
      intro st
      rw [skipWhitespaceGo]
      split
      · split
        · rw [ih, consumeOne_pending]
        · rfl
      · rfl

theorem skipWhitespace_stack (st : LexState) :
    (skipWhitespace st).indentStack = st.indentStack :=
  skipWhitespaceGo_stack _ st

theorem skipWhitespace_pending (st : LexState) :
    (skipWhitespace st).pendingDedents = st.pendingDedents :=
  skipWhitespaceGo_pending _ st

theorem skipCommentGo_stack : ∀ (f : Nat) (st : LexState),
    (skipCommentGo f st).indentStack = st.indentStack := by
  intro f
  induction f with
  | zero => intro st; rfl
  | succ f ih =>
      intro st
      rw [skipCommentGo]
      split
      · split
        · rfl
        · rw [ih, consumeOne_stack]
      · rfl

theorem skipCommentGo_pending : ∀ (f : Nat) (st : LexState),
    (skipCommentGo f st).pendingDedents = st.pendingDedents := by
  intro f
  induction f with
  | zero => intro st; rfl
  | succ f ih =>
      intro st
      rw [skipCommentGo]
      split
      · split
        · rfl
        · rw [ih, consumeOne_pending]
      · rfl

theorem skipComment_stack (st : LexState) :
    (skipComment st).indentStack = st.indentStack :=
  skipCommentGo_stack _ st

theorem skipComment_pending (st : LexState) :
    (skipComment st).pendingDedents = st.pendingDedents :=
  skipCommentGo_pending _ st

theorem readStringGo_stack : ∀ (f : Nat) (st : LexState) (q : Char)
    (acc : List Char),
    (readStringGo f st q acc).2.indentStack = st.indentStack := by
  intro f
  induction f with
  | zero => intro st q acc; rfl
  | succ f ih =>
      intro st q acc
      rw [readStringGo]
      split
      · rfl
      · split
        · rfl
        · split
          · rw [ih, readCharF_stack, consumeOne_stack]
          · rw [ih, consumeOne_stack]

theorem readStringGo_pending : ∀ (f : Nat) (st : LexState) (q : Char)
    (acc : List Char),
    (readStringGo f st q acc).2.pendingDedents = st.pendingDedents := by
  intro f
  induction f with
  | zero => intro st q acc; rfl
  | succ f ih =>
      intro st q acc
      rw [readStringGo]
      split
      · rfl
      · split
        · rfl
        · split
          · rw [ih, readCharF_pending, consumeOne_pending]
          · rw [ih, consumeOne_pending]

theorem readString_stack (st : LexState) (q : Char) :
    (readString st q).2.indentStack = st.indentStack := by
  unfold readString
  dsimp only
  split
  · split
    · rw [consumeOne_stack, readStringGo_stack]
    · rw [readStringGo_stack]
  · rw [readStringGo_stack]

theorem readString_pending (st : LexState) (q : Char) :
    (readString st q).2.pendingDedents = st.pendingDedents := by
  unfold readString
  dsimp only
  split
  · split
    · rw [consumeOne_pending, readStringGo_pending]
    · rw [readStringGo_pending]
  · rw [readStringGo_pending]

theorem readNumberGo_stack : ∀ (f : Nat) (st : LexState)
    (acc : List Char) (hd : Bool),
    (readNumberGo f st acc hd).2.2.indentStack = st.indentStack := by
  intro f
  induction f with
  | zero => intro st acc hd; rfl
  | succ f ih =>
      intro st acc hd
      rw [readNumberGo]
      split
      · rfl
      · split
        · rw [ih, consumeOne_stack]
        · split
          · rw [ih, consumeOne_stack]
          · rfl

theorem readNumberGo_pending : ∀ (f : Nat) (st : LexState)
    (acc : List Char) (hd : Bool),
    (readNumberGo f st acc hd).2.2.pendingDedents = st.pendingDedents := by
  intro f
  induction f with
  | zero => intro st acc hd; rfl
  | succ f ih =>
      intro st acc hd
      rw [readNumberGo]
      split
      · rfl
      · split
        · rw [ih, consumeOne_pending]
        · split
          · rw [ih, consumeOne_pending]
          · rfl

theorem readNumberLoop_stack (st : LexState) (acc : List Char)
    (hd : Bool) :
    (readNumberLoop st acc hd).2.2.indentStack = st.indentStack :=
  readNumberGo_stack _ st acc hd

theorem readNumberLoop_pending (st : LexState) (acc : List Char)
    (hd : Bool) :
    (readNumberLoop st acc hd).2.2.pendingDedents = st.pendingDedents :=
  readNumberGo_pending _ st acc hd

theorem readIdentGo_stack : ∀ (f : Nat) (st : LexState)
    (acc : List Char),
    (readIdentGo f st acc).2.indentStack = st.indentStack := by
  intro f
  induction f with
  | zero => intro st acc; rfl
  | succ f ih =>
      intro st acc
      rw [readIdentGo]
      split
      · rfl
      · split
        · rw [ih, consumeOne_stack]
        · rfl

theorem readIdentGo_pending : ∀ (f : Nat) (st : LexState)
    (acc : List Char),
    (readIdentGo f st acc).2.pendingDedents = st.pendingDedents := by
  intro f
  induction f with
  | zero => intro st acc; rfl
  | succ f ih =>
      intro st acc
      rw [readIdentGo]
      split
      · rfl
      · split
        · rw [ih, consumeOne_pending]
        · rfl

theorem readIdentifier_stack (st : LexState) :
    (readIdentifier st).2.indentStack = st.indentStack := by
  unfold readIdentifier
  split
  · split
    · rw [readIdentGo_stack]
    · rfl
  · rfl

theorem readIdentifier_pending (st : LexState) :
    (readIdentifier st).2.pendingDedents = st.pendingDedents := by
  unfold readIdentifier
  split
  · split
    · rw [readIdentGo_pending]
    · rfl
  · rfl

theorem countIndentGo_stack : ∀ (f : Nat) (st : LexState) (acc : Nat),
    (countIndentGo f st acc).2.indentStack = st.indentStack := by
  intro f
  induction f with
  | zero => intro st acc; rfl
  | succ f ih =>
      intro st acc
      rw [countIndentGo]
      split
      · rfl
      · split
        · rw [ih, consumeOne_stack]
        · split
          · rw [ih, consumeOne_stack]
          · rfl

theorem countIndentGo_pending : ∀ (f : Nat) (st : LexState) (acc : Nat),
    (countIndentGo f st acc).2.pendingDedents = st.pendingDedents := by
  intro f
  induction f with
  | zero => intro st acc; rfl
  | succ f ih =>
      intro st acc
      rw [countIndentGo]
      split
      · rfl
      · split
        · rw [ih, consumeOne_pending]
        · split
          · rw [ih, consumeOne_pending]
          · rfl

theorem countIndent_stack (st : LexState) (acc : Nat) :
    (countIndent st acc).2.indentStack = st.indentStack :=
  countIndentGo_stack _ st acc

theorem countIndent_pending (st : LexState) (acc : Nat) :
    (countIndent st acc).2.pendingDedents = st.pendingDedents :=
  countIndentGo_pending _ st acc

theorem tryEqToken_stack (st : LexState) (t2 : TokType) (lx2 : String)
    (t1 : TokType) (lx1 : String) (line col : Nat) :
    (tryEqToken st t2 lx2 t1 lx1 line col).2.indentStack =
      st.indentStack := by
  unfold tryEqToken
  split
  · split
    · exact consumeOne_stack st
    · rfl
  · rfl

theorem tryEqToken_pending (st : LexState) (t2 : TokType) (lx2 : String)
    (t1 : TokType) (lx1 : String) (line col : Nat) :
    (tryEqToken st t2 lx2 t1 lx1 line col).2.pendingDedents =
      st.pendingDedents := by
  unfold tryEqToken
  split
  · split
    · exact consumeOne_pending st
    · rfl
  · rfl

theorem tryEqToken_type (st : LexState) (t2 : TokType) (lx2 : String)
    (t1 : TokType) (lx1 : String) (line col : Nat) :
    (tryEqToken st t2 lx2 t1 lx1 line col).1.type = t2 ∨
      (tryEqToken st t2 lx2 t1 lx1 line col).1.type = t1 := by
  unfold tryEqToken
  split
  · split
    · exact Or.inl rfl
    · exact Or.inr rfl
  · exact Or.inr rfl

theorem lookupIdent_ne (s : String) :
    lookupIdent s ≠ .indent ∧ lookupIdent s ≠ .dedent ∧
      lookupIdent s ≠ .eof ∧ lookupIdent s ≠ .illegal := by
  unfold lookupIdent
  by_cases h1 : s = "if"
  · simp only [if_pos h1]
    decide
  by_cases h2 : s = "elif"
  · simp only [if_neg h1, if_pos h2]
    decide
  by_cases h3 : s = "else"
  · simp only [if_neg h1, if_neg h2, if_pos h3]
    decide
  by_cases h4 : s = "while"
  · simp only [if_neg h1, if_neg h2, if_neg h3, if_pos h4]
    decide
  by_cases h5 : s = "for"
  · simp only [if_neg h1, if_neg h2, if_neg h3, if_neg h4, if_pos h5]
    decide
  by_cases h6 : s = "in"
  · simp only [if_neg h1, if_neg h2, if_neg h3, if_neg h4, if_neg h5, if_pos h6]
    decide
  by_cases h7 : s = "def"
  · simp only [if_neg h1, if_neg h2, if_neg h3, if_neg h4, if_neg h5, if_neg h6, if_pos h7]
    decide
  by_cases h8 : s = "return"
  · simp only [if_neg h1, if_neg h2, if_neg h3, if_neg h4, if_neg h5, if_neg h6, if_neg h7, if_pos h8]
    decide
  by_cases h9 : s = "print"
  · simp only [if_neg h1, if_neg h2, if_neg h3, if_neg h4, if_neg h5, if_neg h6, if_neg h7, if_neg h8, if_pos h9]
    decide
  by_cases h10 : s = "True"
  · simp only [if_neg h1, if_neg h2, if_neg h3, if_neg h4, if_neg h5, if_neg h6, if_neg h7, if_neg h8, if_neg h9, if_pos h10]
    decide
  by_cases h11 : s = "False"
  · simp only [if_neg h1, if_neg h2, if_neg h3, if_neg h4, if_neg h5, if_neg h6, if_neg h7, if_neg h8, if_neg h9, if_neg h10, if_pos h11]
    decide
  by_cases h12 : s = "None"
  · simp only [if_neg h1, if_neg h2, if_neg h3, if_neg h4, if_neg h5, if_neg h6, if_neg h7, if_neg h8, if_neg h9, if_neg h10, if_neg h11, if_pos h12]
    decide
  by_cases h13 : s = "and"
  · simp only [if_neg h1, if_neg h2, if_neg h3, if_neg h4, if_neg h5, if_neg h6, if_neg h7, if_neg h8, if_neg h9, if_neg h10, if_neg h11, if_neg h12, if_pos h13]
    decide
  by_cases h14 : s = "or"
  · simp only [if_neg h1, if_neg h2, if_neg h3, if_neg h4, if_neg h5, if_neg h6, if_neg h7, if_neg h8, if_neg h9, if_neg h10, if_neg h11, if_neg h12, if_neg h13, if_pos h14]
    decide
  by_cases h15 : s = "not"
  · simp only [if_neg h1, if_neg h2, if_neg h3, if_neg h4, if_neg h5, if_neg h6, if_neg h7, if_neg h8, if_neg h9, if_neg h10, if_neg h11, if_neg h12, if_neg h13, if_neg h14, if_pos h15]
    decide
  by_cases h16 : s = "range"
  · simp only [if_neg h1, if_neg h2, if_neg h3, if_neg h4, if_neg h5, if_neg h6, if_neg h7, if_neg h8, if_neg h9, if_neg h10, if_neg h11, if_neg h12, if_neg h13, if_neg h14, if_neg h15, if_pos h16]
    decide
  by_cases h17 : s = "pass"
  · simp only [if_neg h1, if_neg h2, if_neg h3, if_neg h4, if_neg h5, if_neg h6, if_neg h7, if_neg h8, if_neg h9, if_neg h10, if_neg h11, if_neg h12, if_neg h13, if_neg h14, if_neg h15, if_neg h16, if_pos h17]
    decide
  simp only [if_neg h1, if_neg h2, if_neg h3, if_neg h4, if_neg h5, if_neg h6, if_neg h7, if_neg h8, if_neg h9, if_neg h10, if_neg h11, if_neg h12, if_neg h13, if_neg h14, if_neg h15, if_neg h16, if_neg h17]
  decide

theorem popIndents_len : ∀ (s : List Nat) (lvl : Nat),
    (popIndents s lvl).1.length + (popIndents s lvl).2 = s.length
  | [], _ => rfl
  | [_], _ => rfl
  | a :: b :: rest, lvl => by
      simp only [popIndents]
      split
      · have := popIndents_len (b :: rest) lvl
        simp only [List.length_cons] at this ⊢
        omega
      · simp

theorem popIndents_ne_nil : ∀ (s : List Nat) (lvl : Nat), s ≠ [] →
    (popIndents s lvl).1 ≠ []
  | [], _, h => absurd rfl h
  | [a], _, _ => by simp [popIndents]
  | a :: b :: rest, lvl, _ => by
      simp only [popIndents]
      split
      · exact popIndents_ne_nil (b :: rest) lvl (by simp)
      · simp

theorem popIndents_zero : ∀ (s : List Nat) (lvl : Nat),
    (popIndents s lvl).2 = 0 → (popIndents s lvl).1 = s
  | [], _, _ => rfl
  | [_], _, _ => rfl
  | a :: b :: rest, lvl, h => by
      simp only [popIndents] at h ⊢
      split at h
      next hlt => simp at h
      next hge => rw [if_neg hge]

/-- Characterization of `indentCompare` on a state with no pending
DEDENTs: a `none` result returns the state unchanged; a non-ILLEGAL
`some` result is an INDENT or a DEDENT moving the indentation measure
by exactly one, keeping the stack non-empty. -/
theorem indentCompare_spec (st : LexState) (start lvl : Nat)
    (hstk : st.indentStack ≠ []) (hpd : st.pendingDedents = 0) :
    (∀ st₁, indentCompare st start lvl = (Option.none, st₁) → st₁ = st) ∧
    (∀ t st₁, indentCompare st start lvl = (some t, st₁) →
      t.type ≠ .illegal →
      st₁.indentStack ≠ [] ∧ (t.type = .indent ∨ t.type = .dedent) ∧
      indentMeasure st₁ + (if t.type = .dedent then 1 else 0) =
        indentMeasure st + (if t.type = .indent then 1 else 0)) := by
  unfold indentCompare
  by_cases h1 : st.indentStack.headD 0 < lvl
  · rw [if_pos h1]
    constructor
    · intro st₁ h
      simp at h
    · intro t st₁ h hne
      simp only [Prod.mk.injEq, Option.some.injEq] at h
      obtain ⟨ht, hst⟩ := h
      subst hst
      subst ht
      refine ⟨by simp, Or.inl rfl, ?_⟩
      simp [indentMeasure]
      omega
  · rw [if_neg h1]
    by_cases h2 : lvl < st.indentStack.headD 0
    · rw [if_pos h2]
      rcases hpop : popIndents st.indentStack lvl with ⟨s2, k⟩
      simp only [hpop]
      by_cases h3 : s2 = [] ∨ s2.headD 0 ≠ lvl
      · rw [if_pos h3]
        constructor
        · intro st₁ h
          simp at h
        · intro t st₁ h hne
          simp only [Prod.mk.injEq, Option.some.injEq] at h
          rw [← h.1] at hne
          simp at hne
      · rw [if_neg h3]
        push_neg at h3
        obtain ⟨hs2ne, hs2hd⟩ := h3
        constructor
        · intro st₁ h
          simp at h
        · intro t st₁ h hne
          simp only [Prod.mk.injEq, Option.some.injEq] at h
          obtain ⟨ht, hst⟩ := h
          subst hst
          subst ht
          have hlen : s2.length + k = st.indentStack.length := by
            have hh := popIndents_len st.indentStack lvl
            rw [hpop] at hh
            exact hh
          have hk1 : 1 ≤ k := by
            by_contra hk0
            have hk0z : k = 0 := by omega
            have hs2 : s2 = st.indentStack := by
              have hh := popIndents_zero st.indentStack lvl
                (by rw [hpop]; exact hk0z)
              rw [hpop] at hh
              exact hh
            rw [hs2] at hs2hd
            omega
          refine ⟨hs2ne, Or.inr rfl, ?_⟩
          simp only [indentMeasure, hpd]
          simp
          omega
    · rw [if_neg h2]
      constructor
      · intro st₁ h
        simp only [Prod.mk.injEq] at h
        exact h.2.symm
      · intro t st₁ h hne
        simp at h

/-- Joint characterization of `handleIndentation`: a `none` result
keeps the indentation stack with no pending DEDENTs; a non-ILLEGAL
`some` result is an INDENT or a DEDENT that moves the indentation
measure by exactly one in the token\x27s direction, keeping the stack
non-empty. -/
theorem handleIndentation_spec (st : LexState) (hstk : st.indentStack ≠ []) :
    (∀ st₁, handleIndentation st = (Option.none, st₁) →
      st₁.indentStack = st.indentStack ∧ st₁.pendingDedents = 0 ∧
        st.pendingDedents = 0) ∧
    (∀ t st₁, handleIndentation st = (some t, st₁) → t.type ≠ .illegal →
      st₁.indentStack ≠ [] ∧ (t.type = .indent ∨ t.type = .dedent) ∧
      indentMeasure st₁ + (if t.type = .dedent then 1 else 0) =
        indentMeasure st + (if t.type = .indent then 1 else 0)) := by
  by_cases hp : st.pendingDedents > 0
  · constructor
    · intro st₁ h
      unfold handleIndentation at h
      rw [if_pos hp] at h
      simp at h
    · intro t st₁ h hne
      unfold handleIndentation at h
      rw [if_pos hp] at h
      simp only [Prod.mk.injEq, Option.some.injEq] at h
      obtain ⟨ht, hst⟩ := h
      subst hst
      subst ht
      refine ⟨hstk, Or.inr rfl, ?_⟩
      simp only [indentMeasure]
      simp
      omega
  · have hp0 : st.pendingDedents = 0 := by omega
    by_cases hal : st.atLineStart = false
    · constructor
      · intro st₁ h
        unfold handleIndentation at h
        rw [if_neg hp, if_pos hal] at h
        simp only [Prod.mk.injEq] at h
        obtain ⟨-, hst⟩ := h
        subst hst
        exact ⟨rfl, hp0, hp0⟩
      · intro t st₁ h hne
        unfold handleIndentation at h
        rw [if_neg hp, if_pos hal] at h
        simp at h
    · rcases hci : countIndent { st with atLineStart := false } 0 with
        ⟨lvl, st₂⟩
      have hstk2 : st₂.indentStack = st.indentStack := by
        have hh := countIndent_stack { st with atLineStart := false } 0
        rw [hci] at hh
        exact hh
      have hpd2 : st₂.pendingDedents = 0 := by
        have hh := countIndent_pending { st with atLineStart := false } 0
        rw [hci] at hh
        rw [hh]
        exact hp0
      have hstk2ne : st₂.indentStack ≠ [] := by
        rw [hstk2]
        exact hstk
      have hm2 : indentMeasure st₂ = indentMeasure st := by
        simp [indentMeasure, hstk2, hpd2, hp0]
      cases hrem : st₂.rem with
      | nil =>
          have hred : handleIndentation st = (Option.none, st₂) := by
            unfold handleIndentation
            rw [if_neg hp, if_neg hal, hci]
            simp only [hrem]
          constructor
          · intro st₁ h
            rw [hred] at h
            simp only [Prod.mk.injEq] at h
            rw [← h.2]
            exact ⟨hstk2, hpd2, hp0⟩
          · intro t st₁ h hne
            rw [hred] at h
            simp at h
      | cons c tail =>
          by_cases hcc : c = Char.ofNat 10 ∨ c = Char.ofNat 35
          · have hred : handleIndentation st = (Option.none, st₂) := by
              unfold handleIndentation
              rw [if_neg hp, if_neg hal, hci]
              simp only [hrem]
              rw [if_pos (by exact_mod_cast hcc)]
            constructor
            · intro st₁ h
              rw [hred] at h
              simp only [Prod.mk.injEq] at h
              rw [← h.2]
              exact ⟨hstk2, hpd2, hp0⟩
            · intro t st₁ h hne
              rw [hred] at h
              simp at h
          · have hred : handleIndentation st =
                indentCompare st₂ st.col lvl := by
              unfold handleIndentation
              rw [if_neg hp, if_neg hal, hci]
              simp only [hrem]
              rw [if_neg (by exact_mod_cast hcc)]
            have hic := indentCompare_spec st₂ st.col lvl hstk2ne hpd2
            constructor
            · intro st₁ h
              rw [hred] at h
              have := hic.1 st₁ h
              rw [this]
              exact ⟨hstk2, hpd2, hp0⟩
            · intro t st₁ h hne
              rw [hred] at h
              have hk := hic.2 t st₁ h hne
              rw [hm2] at hk
              exact hk

/-- One `NextToken` step moves the indentation measure by exactly one
per INDENT/DEDENT emitted (and not at all otherwise), keeps the
indentation stack non-empty, and emits EOF only with a fully closed
stack — provided no ILLEGAL token is produced. -/
theorem nextTokenGo_measure : ∀ (f : Nat) (st : LexState) (t : Token)
    (st₁ : LexState), nextTokenGo f st = (t, st₁) →
    st.indentStack ≠ [] → t.type ≠ .illegal →
    st₁.indentStack ≠ [] ∧
    (t.type = .eof → st₁.indentStack.length = 1 ∧
      st₁.pendingDedents = 0) ∧
    indentMeasure st₁ + (if t.type = .dedent then 1 else 0) =
      indentMeasure st + (if t.type = .indent then 1 else 0) := by
  intro f
  induction f with
  | zero =>
      intro st t st₁ h hstk hne
      simp only [nextTokenGo, Prod.mk.injEq] at h
      exact absurd (show t.type = .illegal by rw [← h.1]) hne
  | succ f ih =>
      intro st t st₁ h hstk hne
      rw [nextTokenGo] at h
      rcases hhi : handleIndentation st with ⟨ot, stH⟩
      rw [hhi] at h
      cases ot with
      | some t2 =>
          simp only [Prod.mk.injEq] at h
          obtain ⟨ht, hst⟩ := h
          subst hst
          subst ht
          have hs := (handleIndentation_spec st hstk).2 t2 stH hhi hne
          refine ⟨hs.1, ?_, hs.2.2⟩
          intro he
          rcases hs.2.1 with hty | hty <;> rw [hty] at he <;> simp at he
      | none =>
          obtain ⟨hn1, hn2, hn3⟩ :=
            (handleIndentation_spec st hstk).1 stH hhi
          split at h
          next heqimp => exact absurd heqimp (by simp)
          next heqok =>
          simp only [Prod.mk.injEq, true_and] at heqok
          subst heqok
          generalize hgen : skipWhitespace stH = stW at h
          have hws : stW.indentStack = st.indentStack := by
            rw [← hgen, skipWhitespace_stack, hn1]
          have hwp : stW.pendingDedents = 0 := by
            rw [← hgen, skipWhitespace_pending, hn2]
          have hpos : st.indentStack.length ≠ 0 := by
            simpa [List.length_eq_zero] using hstk
          split at h
          next heqnil =>
            dsimp only at h
            split at h
            next hlen =>
              simp only [Prod.mk.injEq] at h
              obtain ⟨ht, hst⟩ := h
              subst hst
              subst ht
              rw [hws] at hlen
              refine ⟨?_, ?_, ?_⟩
              · apply List.ne_nil_of_length_pos
                simp only [List.length_tail, hws]
                omega
              · intro he
                simp at he
              · simp only [indentMeasure, List.length_tail, hws, hwp, hn3]
                simp
                omega
            next hlen =>
              simp only [Prod.mk.injEq] at h
              obtain ⟨ht, hst⟩ := h
              subst hst
              subst ht
              rw [hws] at hlen
              refine ⟨?_, ?_, ?_⟩
              · rw [hws]
                exact hstk
              · intro he
                rw [hws, hwp]
                omega
              · simp only [indentMeasure, hws, hwp, hn3]
                simp
          next c tail heqc =>
            dsimp only at h
            by_cases hc1 : c = nulChar
            · rw [if_pos hc1] at h
              split at h
              next hlen =>
                simp only [Prod.mk.injEq] at h
                obtain ⟨ht, hst⟩ := h
                subst hst
                subst ht
                rw [consumeOne_stack, hws] at hlen
                refine ⟨?_, ?_, ?_⟩
                · apply List.ne_nil_of_length_pos
                  simp only [List.length_tail, consumeOne_stack, hws]
                  omega
                · intro he
                  simp at he
                · simp only [indentMeasure, List.length_tail,
                    consumeOne_stack, consumeOne_pending, hws, hwp, hn3]
                  simp
                  omega
              next hlen =>
                simp only [Prod.mk.injEq] at h
                obtain ⟨ht, hst⟩ := h
                subst hst
                subst ht
                rw [consumeOne_stack, hws] at hlen
                refine ⟨?_, ?_, ?_⟩
                · rw [consumeOne_stack, hws]
                  exact hstk
                · intro he
                  rw [consumeOne_stack, consumeOne_pending, hws, hwp]
                  omega
                · simp only [indentMeasure, consumeOne_stack,
                    consumeOne_pending, hws, hwp, hn3]
                  simp
            rw [if_neg hc1] at h
            by_cases hc2 : c = '\n'
            · rw [if_pos hc2] at h
              simp only [Prod.mk.injEq] at h
              obtain ⟨ht, hst⟩ := h
              subst hst
              subst ht
              refine ⟨?_, ?_, ?_⟩
              · simp only [consumeOne_stack, hws]
                exact hstk
              · intro he
                simp at he
              · simp only [indentMeasure, consumeOne_stack, consumeOne_pending,
                  hws, hwp, hn3]
                simp
            rw [if_neg hc2] at h
            by_cases hc3 : c = '#'
            · rw [if_pos hc3] at h
              have hcs : (skipComment
                  (consumeOne stW)).indentStack = st.indentStack := by
                rw [skipComment_stack, consumeOne_stack, hws]
              have hcp : (skipComment
                  (consumeOne stW)).pendingDedents = 0 := by
                rw [skipComment_pending, consumeOne_pending, hwp]
              have hih := ih _ t st₁ h (by rw [hcs]; exact hstk) hne
              refine ⟨hih.1, hih.2.1, ?_⟩
              rw [hih.2.2]
              simp [indentMeasure, hcs, hcp, hn3]
            rw [if_neg hc3] at h
            by_cases hc4 : c = '='
            · rw [if_pos hc4] at h
              have htf := congrArg Prod.fst h
              have hsn := congrArg Prod.snd h
              simp only [Prod.fst, Prod.snd] at htf hsn
              subst hsn
              subst htf
              rcases tryEqToken_type (consumeOne stW)
                  TokType.eq "==" TokType.assign "=" stW.line stW.col with hty | hty <;>
                refine ⟨?_, ?_, ?_⟩ <;>
                simp [hty, indentMeasure, tryEqToken_stack,
                  tryEqToken_pending, consumeOne_stack, consumeOne_pending,
                  hws, hwp, hn3, hstk]
            rw [if_neg hc4] at h
            by_cases hc5 : c = '!'
            · rw [if_pos hc5] at h
              rcases hrem3 : (consumeOne stW).rem with _ | ⟨d, t3⟩
              · rw [hrem3] at h
                dsimp only at h
                simp only [Prod.mk.injEq] at h
                exact absurd (show t.type = .illegal by rw [← h.1]) hne
              · rw [hrem3] at h
                dsimp only at h
                by_cases hd : d = '='
                · rw [if_pos hd] at h
                  simp only [Prod.mk.injEq] at h
                  obtain ⟨ht, hst⟩ := h
                  subst hst
                  subst ht
                  refine ⟨?_, ?_, ?_⟩
                  · simp only [consumeOne_stack, hws]
                    exact hstk
                  · intro he
                    simp at he
                  · simp only [indentMeasure, consumeOne_stack,
                      consumeOne_pending, hws, hwp, hn3]
                    simp
                · rw [if_neg hd] at h
                  simp only [Prod.mk.injEq] at h
                  exact absurd (show t.type = .illegal by rw [← h.1]) hne
            rw [if_neg hc5] at h
            by_cases hc6 : c = '<'
            · rw [if_pos hc6] at h
              have htf := congrArg Prod.fst h
              have hsn := congrArg Prod.snd h
              simp only [Prod.fst, Prod.snd] at htf hsn
              subst hsn
              subst htf
              rcases tryEqToken_type (consumeOne stW)
                  TokType.lte "<=" TokType.lt "<" stW.line stW.col with hty | hty <;>
                refine ⟨?_, ?_, ?_⟩ <;>
                simp [hty, indentMeasure, tryEqToken_stack,
                  tryEqToken_pending, consumeOne_stack, consumeOne_pending,
                  hws, hwp, hn3, hstk]
            rw [if_neg hc6] at h
            by_cases hc7 : c = '>'
            · rw [if_pos hc7] at h
              have htf := congrArg Prod.fst h
              have hsn := congrArg Prod.snd h
              simp only [Prod.fst, Prod.snd] at htf hsn
              subst hsn
              subst htf
              rcases tryEqToken_type (consumeOne stW)
                  TokType.gte ">=" TokType.gt ">" stW.line stW.col with hty | hty <;>
                refine ⟨?_, ?_, ?_⟩ <;>
                simp [hty, indentMeasure, tryEqToken_stack,
                  tryEqToken_pending, consumeOne_stack, consumeOne_pending,
                  hws, hwp, hn3, hstk]
            rw [if_neg hc7] at h
            by_cases hc8 : c = '+'
            · rw [if_pos hc8] at h
              have htf := congrArg Prod.fst h
              have hsn := congrArg Prod.snd h
              simp only [Prod.fst, Prod.snd] at htf hsn
              subst hsn
              subst htf
              rcases tryEqToken_type (consumeOne stW)
                  TokType.plusAssign "+=" TokType.plus "+" stW.line stW.col with hty | hty <;>
                refine ⟨?_, ?_, ?_⟩ <;>
                simp [hty, indentMeasure, tryEqToken_stack,
                  tryEqToken_pending, consumeOne_stack, consumeOne_pending,
                  hws, hwp, hn3, hstk]
            rw [if_neg hc8] at h
            by_cases hc9 : c = '-'
            · rw [if_pos hc9] at h
              have htf := congrArg Prod.fst h
              have hsn := congrArg Prod.snd h
              simp only [Prod.fst, Prod.snd] at htf hsn
              subst hsn
              subst htf
              rcases tryEqToken_type (consumeOne stW)
                  TokType.minusAssign "-=" TokType.minus "-" stW.line stW.col with hty | hty <;>
                refine ⟨?_, ?_, ?_⟩ <;>
                simp [hty, indentMeasure, tryEqToken_stack,
                  tryEqToken_pending, consumeOne_stack, consumeOne_pending,
                  hws, hwp, hn3, hstk]
            rw [if_neg hc9] at h
            by_cases hc10 : c = '*'
            · rw [if_pos hc10] at h
              simp only [Prod.mk.injEq] at h
              obtain ⟨ht, hst⟩ := h
              subst hst
              subst ht
              refine ⟨?_, ?_, ?_⟩
              · simp only [consumeOne_stack, hws]
                exact hstk
              · intro he
                simp at he
              · simp only [indentMeasure, consumeOne_stack, consumeOne_pending,
                  hws, hwp, hn3]
                simp
            rw [if_neg hc10] at h
            by_cases hc11 : c = '/'
            · rw [if_pos hc11] at h
              simp only [Prod.mk.injEq] at h
              obtain ⟨ht, hst⟩ := h
              subst hst
              subst ht
              refine ⟨?_, ?_, ?_⟩
              · simp only [consumeOne_stack, hws]
                exact hstk
              · intro he
                simp at he
              · simp only [indentMeasure, consumeOne_stack, consumeOne_pending,
                  hws, hwp, hn3]
                simp
            rw [if_neg hc11] at h
            by_cases hc12 : c = '%'
            · rw [if_pos hc12] at h
              simp only [Prod.mk.injEq] at h
              obtain ⟨ht, hst⟩ := h
              subst hst
              subst ht
              refine ⟨?_, ?_, ?_⟩
              · simp only [consumeOne_stack, hws]
                exact hstk
              · intro he
                simp at he
              · simp only [indentMeasure, consumeOne_stack, consumeOne_pending,
                  hws, hwp, hn3]
                simp
            rw [if_neg hc12] at h
            by_cases hc13 : c = ','
            · rw [if_pos hc13] at h
              simp only [Prod.mk.injEq] at h
              obtain ⟨ht, hst⟩ := h
              subst hst
              subst ht
              refine ⟨?_, ?_, ?_⟩
              · simp only [consumeOne_stack, hws]
                exact hstk
              · intro he
                simp at he
              · simp only [indentMeasure, consumeOne_stack, consumeOne_pending,
                  hws, hwp, hn3]
                simp
            rw [if_neg hc13] at h
            by_cases hc14 : c = ':'
            · rw [if_pos hc14] at h
              simp only [Prod.mk.injEq] at h
              obtain ⟨ht, hst⟩ := h
              subst hst
              subst ht
              refine ⟨?_, ?_, ?_⟩
              · simp only [consumeOne_stack, hws]
                exact hstk
              · intro he
                simp at he
              · simp only [indentMeasure, consumeOne_stack, consumeOne_pending,
                  hws, hwp, hn3]
                simp
            rw [if_neg hc14] at h
            by_cases hc15 : c = ';'
            · rw [if_pos hc15] at h
              simp only [Prod.mk.injEq] at h
              obtain ⟨ht, hst⟩ := h
              subst hst
              subst ht
              refine ⟨?_, ?_, ?_⟩
              · simp only [consumeOne_stack, hws]
                exact hstk
              · intro he
                simp at he
              · simp only [indentMeasure, consumeOne_stack, consumeOne_pending,
                  hws, hwp, hn3]
                simp
            rw [if_neg hc15] at h
            by_cases hc16 : c = '('
            · rw [if_pos hc16] at h
              simp only [Prod.mk.injEq] at h
              obtain ⟨ht, hst⟩ := h
              subst hst
              subst ht
              refine ⟨?_, ?_, ?_⟩
              · simp only [consumeOne_stack, hws]
                exact hstk
              · intro he
                simp at he
              · simp only [indentMeasure, consumeOne_stack, consumeOne_pending,
                  hws, hwp, hn3]
                simp
            rw [if_neg hc16] at h
            by_cases hc17 : c = ')'
            · rw [if_pos hc17] at h
              simp only [Prod.mk.injEq] at h
              obtain ⟨ht, hst⟩ := h
              subst hst
              subst ht
              refine ⟨?_, ?_, ?_⟩
              · simp only [consumeOne_stack, hws]
                exact hstk
              · intro he
                simp at he
              · simp only [indentMeasure, consumeOne_stack, consumeOne_pending,
                  hws, hwp, hn3]
                simp
            rw [if_neg hc17] at h
            by_cases hc18 : c = '['
            · rw [if_pos hc18] at h
              simp only [Prod.mk.injEq] at h
              obtain ⟨ht, hst⟩ := h
              subst hst
              subst ht
              refine ⟨?_, ?_, ?_⟩
              · simp only [consumeOne_stack, hws]
                exact hstk
              · intro he
                simp at he
              · simp only [indentMeasure, consumeOne_stack, consumeOne_pending,
                  hws, hwp, hn3]
                simp
            rw [if_neg hc18] at h
            by_cases hc19 : c = ']'
            · rw [if_pos hc19] at h
              simp only [Prod.mk.injEq] at h
              obtain ⟨ht, hst⟩ := h
              subst hst
              subst ht
              refine ⟨?_, ?_, ?_⟩
              · simp only [consumeOne_stack, hws]
                exact hstk
              · intro he
                simp at he
              · simp only [indentMeasure, consumeOne_stack, consumeOne_pending,
                  hws, hwp, hn3]
                simp
            rw [if_neg hc19] at h
            by_cases hc20 : c = lbraceChar
            · rw [if_pos hc20] at h
              simp only [Prod.mk.injEq] at h
              obtain ⟨ht, hst⟩ := h
              subst hst
              subst ht
              refine ⟨?_, ?_, ?_⟩
              · simp only [consumeOne_stack, hws]
                exact hstk
              · intro he
                simp at he
              · simp only [indentMeasure, consumeOne_stack, consumeOne_pending,
                  hws, hwp, hn3]
                simp
            rw [if_neg hc20] at h
            by_cases hc21 : c = rbraceChar
            · rw [if_pos hc21] at h
              simp only [Prod.mk.injEq] at h
              obtain ⟨ht, hst⟩ := h
              subst hst
              subst ht
              refine ⟨?_, ?_, ?_⟩
              · simp only [consumeOne_stack, hws]
                exact hstk
              · intro he
                simp at he
              · simp only [indentMeasure, consumeOne_stack, consumeOne_pending,
                  hws, hwp, hn3]
                simp
            rw [if_neg hc21] at h
            by_cases hc22 : c = quoteChar ∨ c = apostChar
            · rw [if_pos hc22] at h
              rcases hrs : readString (consumeOne stW) c with ⟨lx, st₄⟩
              rw [hrs] at h
              simp only [Prod.mk.injEq] at h
              obtain ⟨ht, hst⟩ := h
              subst hst
              subst ht
              have h4s : st₄.indentStack = st.indentStack := by
                have hh := congrArg (fun p => p.2.indentStack) hrs
                simp only [readString_stack, consumeOne_stack, hws] at hh
                exact hh.symm
              have h4p : st₄.pendingDedents = 0 := by
                have hh := congrArg (fun p => p.2.pendingDedents) hrs
                simp only [readString_pending, consumeOne_pending, hwp] at hh
                exact hh.symm
              refine ⟨?_, ?_, ?_⟩
              · rw [h4s]
                exact hstk
              · intro he
                simp at he
              · simp only [indentMeasure, h4s, h4p, hn3]
                simp
            rw [if_neg hc22] at h
            by_cases hc23 : c.isDigit
            · rw [if_pos hc23] at h
              rcases hrn : readNumberLoop stW [] false with ⟨cs, hasDec, st₄⟩
              rw [hrn] at h
              have h4s : st₄.indentStack = st.indentStack := by
                have hh := congrArg (fun p => p.2.2.indentStack) hrn
                simp only [readNumberLoop_stack, hws] at hh
                exact hh.symm
              have h4p : st₄.pendingDedents = 0 := by
                have hh := congrArg (fun p => p.2.2.pendingDedents) hrn
                simp only [readNumberLoop_pending, hwp] at hh
                exact hh.symm
              cases hasDec
              · rw [if_neg (by simp)] at h
                simp only [Prod.mk.injEq] at h
                obtain ⟨ht, hst⟩ := h
                subst hst
                subst ht
                refine ⟨?_, ?_, ?_⟩
                · rw [h4s]
                  exact hstk
                · intro he
                  simp at he
                · simp only [indentMeasure, h4s, h4p, hn3]
                  simp
              · rw [if_pos rfl] at h
                simp only [Prod.mk.injEq] at h
                obtain ⟨ht, hst⟩ := h
                subst hst
                subst ht
                refine ⟨?_, ?_, ?_⟩
                · rw [h4s]
                  exact hstk
                · intro he
                  simp at he
                · simp only [indentMeasure, h4s, h4p, hn3]
                  simp
            rw [if_neg hc23] at h
            by_cases hc24 : c.isAlpha ∨ c = '_'
            · rw [if_pos hc24] at h
              rcases hri : readIdentifier stW with ⟨cs, st₄⟩
              rw [hri] at h
              simp only [Prod.mk.injEq] at h
              obtain ⟨ht, hst⟩ := h
              subst hst
              subst ht
              have h4s : st₄.indentStack = st.indentStack := by
                have hh := congrArg (fun p => p.2.indentStack) hri
                simp only [readIdentifier_stack, hws] at hh
                exact hh.symm
              have h4p : st₄.pendingDedents = 0 := by
                have hh := congrArg (fun p => p.2.pendingDedents) hri
                simp only [readIdentifier_pending, hwp] at hh
                exact hh.symm
              refine ⟨?_, ?_, ?_⟩
              · rw [h4s]
                exact hstk
              · intro he
                exact absurd he (lookupIdent_ne _).2.2.1
              · simp only [indentMeasure, h4s, h4p, hn3,
                  if_neg (lookupIdent_ne _).1, if_neg (lookupIdent_ne _).2.1]
            rw [if_neg hc24] at h
            simp only [Prod.mk.injEq] at h
            exact absurd (show t.type = .illegal by rw [← h.1]) hne

/-- Over a complete token stream (through the EOF token) containing no
ILLEGAL token, DEDENT count plus the starting indentation measure
equals INDENT count plus one. -/
theorem allTokensF_balance : ∀ (n : Nat) (st : LexState)
    (ts : List Token), allTokensF n st = some ts →
    (∀ t ∈ ts, t.type ≠ TokType.illegal) → st.indentStack ≠ [] →
    countTok ts .dedent + 1 = countTok ts .indent + indentMeasure st := by
  intro n
  induction n with
  | zero =>
      intro st ts h _ _
      simp [allTokensF] at h
  | succ n ih =>
      intro st ts h hni hstk
      rw [allTokensF] at h
      rcases hnt : nextToken st with ⟨t, st2⟩
      rw [hnt] at h
      dsimp only at h
      by_cases he : t.type = TokType.eof
      · rw [if_pos he] at h
        simp only [Option.some.injEq] at h
        subst h
        have hne := hni t (by simp)
        obtain ⟨-, heof, hmeq⟩ :=
          nextTokenGo_measure (st.rem.length + 1) st t st2 hnt hstk hne
        obtain ⟨hlen1, hpend⟩ := heof he
        have hcz : countTok [t] TokType.dedent = 0 := by
          simp [countTok, he]
        have hcz2 : countTok [t] TokType.indent = 0 := by
          simp [countTok, he]
        rw [hcz, hcz2]
        rw [he] at hmeq
        have hm2 : indentMeasure st2 = 1 := by
          simp [indentMeasure, hlen1, hpend]
        simp at hmeq
        omega
      · rw [if_neg he] at h
        rcases hrec : allTokensF n st2 with _ | ts2
        · rw [hrec] at h
          simp at h
        · rw [hrec] at h
          simp only [Option.some.injEq] at h
          subst h
          have hne := hni t (by simp)
          obtain ⟨hstk2, -, hmeq⟩ :=
            nextTokenGo_measure (st.rem.length + 1) st t st2 hnt hstk hne
          have hrest := ih st2 ts2 hrec
            (fun u hu => hni u (by simp [hu])) hstk2
          rw [countTok_cons, countTok_cons]
          by_cases hd : t.type = TokType.dedent <;>
            by_cases hi2 : t.type = TokType.indent
          · rw [hd] at hi2
            simp at hi2
          · rw [hd] at hmeq ⊢
            simp at hmeq ⊢
            omega
          · rw [hi2] at hmeq ⊢
            simp at hmeq ⊢
            omega
          · rw [if_neg hd, if_neg hi2] at hmeq ⊢
            omega

/-- C8 (amended): for every source string whose complete lexed token
stream contains no ILLEGAL token, the stream holds exactly as many
DEDENT tokens as INDENT tokens (end-of-input closure included).  The
original unconditional claim fails on indentation errors — see the
counterexample. -/
theorem claim_C8_indent_balance (source : String) (fuel : Nat)
    (ts : List Token) (h : allTokens source fuel = some ts)
    (hni : ∀ t ∈ ts, t.type ≠ TokType.illegal) :
    countTok ts .dedent = countTok ts .indent := by
  have hb := allTokensF_balance fuel (initLexer source) ts h hni
    (by simp [initLexer])
  simp only [indentMeasure, initLexer, List.length_cons,
    List.length_nil] at hb
  omega

/-- Witness for C8 on `a⏎␣␣b⏎c⏎`, a stream with one INDENT and one
DEDENT and no ILLEGAL token. -/
theorem claim_C8_indent_balance_witness :
    ∃ ts, allTokens "a\n  b\nc\n" 100 = some ts ∧
      countTok ts .dedent = countTok ts .indent := by
  obtain ⟨ts, hts⟩ : ∃ ts, allTokens "a\n  b\nc\n" 100 = some ts :=
    ⟨_, rfl⟩
  exact ⟨ts, hts, claim_C8_indent_balance _ 100 ts hts (by
    rw [show ts = ((allTokens "a\n  b\nc\n" 100).getD []) from by
      rw [hts]; rfl]
    decide)⟩

/-- Counterexample to C8 as stated: on the source `a⏎␣␣b⏎␣c⏎` the
lexer hits an indentation error, pops the stack without emitting
DEDENTs, and the complete stream (through EOF) holds one INDENT and no
DEDENT. -/
theorem claim_C8_counterexample :
    ∃ ts, allTokens "a\n  b\n c\n" 100 = some ts ∧
      countTok ts .indent = 1 ∧ countTok ts .dedent = 0 :=
  ⟨_, rfl, by decide, by decide⟩

end GoPy
